import Mathlib

/-!
Content publishing API: posts lifecycle, slugs, revisions, cache and worker.

A shallow embedding of `src/routes/posts.js`, `src/routes/public.js`,
`src/middleware/auth.js`, `src/lib/redis.js` and `src/worker/index.js`.

* The PostgreSQL tables `posts` and `post_revisions` are lists of rows; a query
  `WHERE id = $1` is a filter / first match on the list, an `UPDATE` is a map.
* Redis is a list of entries with an expiry instant; every request carries a flag
  `up` telling whether the Redis calls made while serving it succeed (`safeRedis`
  swallows the failure otherwise).
* `now` is the clock reading (`NOW()`, `new Date()`, `Date.now()`) used by a request,
  in milliseconds; a request or a worker cycle is served at one reading.
* A request names a post by the text of its path segment `:id`. The store converts the
  text to the key of a row (`03` and `3` both name row 3); the Redis keys are built from
  the text itself. A handler takes the key the store reads, `postId`, and, when it builds
  a Redis key, the text `seg` as well. Which texts the store refuses depends on the type
  of the key column, declared in `init.sql`: such requests are not modelled.
* Numbers of the query string are JS numbers (binary64): `toDouble` rounds an integer to
  the nearest one, and the store takes `OFFSET` as a 64-bit and `COUNT(*)::int` as a
  32-bit signed integer.
* The npm package `slugify` is not part of the repository: it is a parameter
  `slugify : String → String` of every definition that calls it.
* The schema `init.sql` is not under `src/`: the UNIQUE constraint on `posts.slug` is a
  parameter (`Schema`), the cascade from a post to its revisions is `cascadeRevisions`,
  and table `users` is the function `username` of `listRevisions`.
* Concurrent worker cycles are schedules of their per-row transactions (`runSchedule`),
  each transaction being one step.
-/

namespace CMS

/-! ## Data model -/

/-- Values of the `status` column of `posts`. -/
inductive Status
  | draft
  | scheduled
  | published
deriving DecidableEq, Repr

/-- A row of table `posts`, with the columns every handler selects. -/
structure Post where
  id : Nat
  title : String
  slug : String
  content : String
  status : Status
  author_id : Nat
  scheduled_for : Option Int
  published_at : Option Int
  created_at : Int
  updated_at : Int
deriving DecidableEq, Repr

/-- A row of table `post_revisions`. -/
structure Revision where
  revision_id : Nat
  post_id : Nat
  title_snapshot : String
  content_snapshot : String
  revision_author_id : Nat
  revision_timestamp : Int
deriving DecidableEq, Repr

/-- An element of the answer of `GET /posts/:id/revisions`: a revision joined with the
username of its author. -/
structure RevisionView where
  revision_id : Nat
  post_id : Nat
  title_snapshot : String
  content_snapshot : String
  revision_author : String
  revision_timestamp : Int
deriving DecidableEq, Repr

/-- The `pagination` object of a list response. -/
structure Pagination where
  page : Nat
  limit : Nat
  total : Nat
  totalPages : Nat
deriving DecidableEq, Repr

/-- The payload of `GET /posts/published`. -/
structure ListPayload where
  posts : List Post
  pagination : Pagination
deriving DecidableEq, Repr

/-- Redis entry under key `published_post:<key>`, where `key` is the text the caller
interpolated into the key; `expires` is the instant the TTL runs out. -/
structure PostEntry where
  key : String
  post : Post
  expires : Int
deriving DecidableEq, Repr

/-- Redis entry under key `published_posts_list:<page>:<limit>`. -/
structure ListEntry where
  page : Nat
  limit : Nat
  payload : ListPayload
  expires : Int
deriving DecidableEq, Repr

/-- The Redis keyspace used by `src/lib/redis.js`. The bare key `published_posts_list`
is deleted by `invalidatePublishedPost` but never written, so it holds nothing. -/
structure Cache where
  posts : List PostEntry
  lists : List ListEntry
deriving DecidableEq, Repr

/-- The database (posts, revisions, the two id sequences) together with the cache. -/
structure State where
  posts : List Post
  revisions : List Revision
  nextPostId : Nat
  nextRevisionId : Nat
  cache : Cache
deriving DecidableEq, Repr

/-- The empty store with an empty cache. -/
def State.empty : State :=
  { posts := [], revisions := [], nextPostId := 1, nextRevisionId := 1,
    cache := { posts := [], lists := [] } }

/-- The part of `init.sql` (not under `src/`) the handlers depend on: whether column
`posts.slug` carries a UNIQUE constraint. Every theorem holds for both values. -/
structure Schema where
  slugUnique : Bool
deriving DecidableEq, Repr

/-- What `res.json(...)` / `res.send()` is given. -/
inductive Body
  | row (p : Post)
  | undefinedRow
  | error (msg : String)
  | errors
  | empty
  | list (payload : ListPayload)
  | revisions (rows : List RevisionView)
deriving DecidableEq, Repr

/-- An HTTP response: status code and body. -/
structure Response where
  status : Nat
  body : Body
deriving DecidableEq, Repr

/-- What the `Authorization` header of a request amounts to. -/
inductive Credential
  | missing
  | invalid
  | token (userId : Nat) (role : String)
deriving DecidableEq, Repr

/-! ## `src/middleware/auth.js` -/

/-- Middleware `authRequired`: the user id of a valid author token, or the response sent. -/
def authRequired : Credential → Except Response Nat
  | .missing => .error ⟨401, .error "Authentication required"⟩
  | .invalid => .error ⟨401, .error "Invalid or expired token"⟩
  | .token userId role =>
    if role ≠ "author" then .error ⟨403, .error "Author role required"⟩
    else .ok userId

/-- The rows of `SELECT ... FROM posts WHERE id = $1`, first row (`rows[0]`). -/
def findPost (posts : List Post) (id : Nat) : Option Post :=
  posts.find? (fun p => decide (p.id = id))

/-- Middleware `authorOwnsPost`: passes, or sends 404 / 403. -/
def authorOwnsPost (userId postId : Nat) (s : State) : Except Response Unit :=
  match findPost s.posts postId with
  | none => .error ⟨404, .error "Post not found"⟩
  | some row =>
    if row.author_id ≠ userId then .error ⟨403, .error "Not authorized to access this post"⟩
    else .ok ()

/-! ## `src/lib/redis.js` -/

/-- Cache TTL of a single post, in seconds. -/
def CACHE_TTL : Int := 300

/-- Cache TTL of a list page, in seconds. -/
def LIST_DEFAULT_TTL : Int := 60

/-- The wrapper `safeRedis`: runs `fn` on the cache, or, when Redis is unreachable,
swallows the error, returns `null` and leaves the cache as it was. -/
def safeRedis {α : Type} (up : Bool) (fn : Cache → Option α × Cache) (c : Cache) :
    Option α × Cache :=
  if up then fn c else (none, c)

/-- Redis `GET published_post:<id>` at instant `now`: the unexpired entry, if any. The
argument `id` is the text interpolated into the key. -/
def redisGetPost (now : Int) (id : String) (c : Cache) : Option Post :=
  (c.posts.find? (fun e => decide (e.key = id) && decide (now < e.expires))).map (·.post)

/-- Function `getCachedPublishedPost`. -/
def getCachedPublishedPost (up : Bool) (now : Int) (id : String) (c : Cache) : Option Post :=
  (safeRedis up (fun c => (redisGetPost now id c, c)) c).1

/-- Function `setCachedPublishedPost`: `SETEX published_post:<id> CACHE_TTL json`. -/
def setCachedPublishedPost (up : Bool) (now : Int) (id : String) (post : Post) (c : Cache) :
    Cache :=
  (safeRedis up (fun c => (some (),
    { c with posts := ⟨id, post, now + CACHE_TTL * 1000⟩ ::
        c.posts.filter (fun e => decide (e.key ≠ id)) })) c).2

/-- Function `invalidatePublishedPost`: `DEL published_post:<id>`, `DEL published_posts_list`.
Only the entry whose key was built from the same text `id` is deleted. -/
def invalidatePublishedPost (up : Bool) (id : String) (c : Cache) : Cache :=
  (safeRedis up (fun c => (some (),
    { c with posts := c.posts.filter (fun e => decide (e.key ≠ id)) })) c).2

/-- Function `invalidatePublishedList`: deletes every key `published_posts_list:*`. -/
def invalidatePublishedList (up : Bool) (c : Cache) : Cache :=
  (safeRedis up (fun c => (some (), { c with lists := [] })) c).2

/-! ## Slugs (`src/routes/posts.js`, lines 16-34) -/

/-- Function `ensureUniqueSlug`: `slugify(baseSlug, ...) || 'post'`. -/
def ensureUniqueSlug (slugify : String → String) (baseSlug : String) : String :=
  if slugify baseSlug = "" then "post" else slugify baseSlug

/-- The rows of `SELECT 1 FROM posts WHERE slug = $1` are non-empty. -/
def slugTaken (posts : List Post) (slug : String) : Bool :=
  posts.any (fun p => decide (p.slug = slug))

/-- The rows of `SELECT 1 FROM posts WHERE slug = $1 AND id != $2` are non-empty. -/
def slugTakenByOther (posts : List Post) (slug : String) (id : Nat) : Bool :=
  posts.any (fun p => decide (p.slug = slug) && decide (p.id ≠ id))

/-- The `for (;;)` loop of `generateUniqueSlug`, run for at most `fuel` probes;
`none` when the fuel runs out before a free slug is found. -/
def generateUniqueSlugLoop (posts : List Post) (base : String) :
    Nat → String → Nat → Option String
  | 0, _, _ => none
  | fuel + 1, slug, counter =>
    if slugTaken posts slug then
      generateUniqueSlugLoop posts base fuel (base ++ "-" ++ toString (counter + 1)) (counter + 1)
    else some slug

/-- Function `generateUniqueSlug`, with one more probe than there are rows. -/
def generateUniqueSlug (slugify : String → String) (posts : List Post) (title : String) :
    Option String :=
  generateUniqueSlugLoop posts (ensureUniqueSlug slugify title) (posts.length + 1)
    (ensureUniqueSlug slugify title) 0

/-- The characters the JavaScript pattern `\s` matches: tab, line feed, vertical tab,
form feed, carriage return, space, no-break space, U+1680, U+2000 to U+200A, the line and
paragraph separators, U+202F, U+205F, U+3000 and the byte order mark U+FEFF. -/
def isJsWhitespace (c : Char) : Bool :=
  decide (9 ≤ c.toNat ∧ c.toNat ≤ 13) || decide (c.toNat = 32) || decide (c.toNat = 160) ||
  decide (c.toNat = 5760) || decide (8192 ≤ c.toNat ∧ c.toNat ≤ 8202) ||
  decide (c.toNat = 8232) || decide (c.toNat = 8233) || decide (c.toNat = 8239) ||
  decide (c.toNat = 8287) || decide (c.toNat = 12288) || decide (c.toNat = 65279)

/-- The sanitizer `trim()` of express-validator: every leading and trailing character
matching `\s` is removed. -/
def trim (s : String) : String :=
  ⟨((s.data.dropWhile isJsWhitespace).reverse.dropWhile isJsWhitespace).reverse⟩

/-- The chain `trim().notEmpty().isLength({ max: 500 })` fails on the trimmed title. -/
def titleInvalid (t : String) : Bool :=
  decide (t = "") || decide (500 < t.length)

/-- Body of `res.json(rows[0])`. -/
def rowBody : Option Post → Body
  | some p => .row p
  | none => .undefinedRow

/-- The generic handler of a thrown error: 500. -/
def internalError : Response := ⟨500, .error "Internal server error"⟩

/-- Statement `UPDATE posts SET ... WHERE id = $n`: every row with that id is rewritten by `set`. -/
def updateWhere (posts : List Post) (id : Nat) (set : Post → Post) : List Post :=
  posts.map (fun p => if p.id = id then set p else p)

/-! ## `src/routes/posts.js` -/

/-- The row stored by the INSERT of `POST /posts`: status draft, the two optional
timestamps NULL, `created_at` and `updated_at` set by the store. -/
def newDraft (id : Nat) (title slug content : String) (authorId : Nat) (now : Int) : Post :=
  { id := id, title := title, slug := slug, content := content, status := .draft,
    author_id := authorId, scheduled_for := none, published_at := none,
    created_at := now, updated_at := now }

/-- Handler `POST /posts` (createDraft). A missing title is validated as the empty string.
The result is `none` only if the slug loop runs out of fuel. -/
def createDraft (slugify : String → String) (sch : Schema) (now : Int) (cred : Credential)
    (title : String) (content : Option String) (s : State) : Option (Response × State) :=
  match authRequired cred with
  | .error r => some (r, s)
  | .ok authorId =>
    if titleInvalid (trim title) then some (⟨400, .errors⟩, s)
    else
      match generateUniqueSlug slugify s.posts (trim title) with
      | none => none
      | some slug =>
        if sch.slugUnique && slugTaken s.posts slug then some (internalError, s)
        else
          let row := newDraft s.nextPostId (trim title) slug ((content.map trim).getD "")
            authorId now
          some (⟨201, .row row⟩,
            { s with posts := s.posts ++ [row], nextPostId := s.nextPostId + 1 })

/-- The slug chosen by `PUT /posts/:id` when a title is supplied (lines 173-181):
the normalized title, with `-<Date.now()>` appended when another row holds it. -/
def editSlug (slugify : String → String) (now : Int) (posts : List Post) (postId : Nat)
    (newTitle : String) : String :=
  if slugTakenByOther posts (ensureUniqueSlug slugify newTitle) postId then
    ensureUniqueSlug slugify newTitle ++ "-" ++ toString now
  else ensureUniqueSlug slugify newTitle

/-- The two UPDATE statements of `PUT /posts/:id` (lines 182-192) on a matching row:
with the slug when a title was supplied, without it otherwise. -/
def editRow (newTitle newContent : String) (newSlug : Option String) (now : Int) (p : Post) :
    Post :=
  match newSlug with
  | some slug =>
    { p with title := newTitle, content := newContent, slug := slug, updated_at := now }
  | none => { p with title := newTitle, content := newContent, updated_at := now }

/-- Handler `PUT /posts/:id` (updateItem). `seg` is the text of the path segment, which
the Redis key to delete is built from, and `postId` the key the store reads it as;
`title` and `content` are the optional body fields; the whole transaction is rolled back
when the UPDATE violates the slug constraint. -/
def updateItem (slugify : String → String) (sch : Schema) (now : Int) (up : Bool)
    (cred : Credential) (seg : String) (postId : Nat) (title content : Option String)
    (s : State) : Response × State :=
  match authRequired cred with
  | .error r => (r, s)
  | .ok authorId =>
    match authorOwnsPost authorId postId s with
    | .error r => (r, s)
    | .ok _ =>
      if (title.map trim).any titleInvalid then (⟨400, .errors⟩, s)
      else if title.isNone && content.isNone then
        (⟨200, rowBody (findPost s.posts postId)⟩, s)
      else
        match findPost s.posts postId with
        | none => (⟨404, .error "Post not found"⟩, s)
        | some prev =>
          let newTitle := (title.map trim).getD prev.title
          let newContent := (content.map trim).getD prev.content
          let revision : Revision :=
            { revision_id := s.nextRevisionId, post_id := postId, title_snapshot := prev.title,
              content_snapshot := prev.content, revision_author_id := authorId,
              revision_timestamp := now }
          let newSlug : Option String :=
            title.map (fun _ => editSlug slugify now s.posts postId newTitle)
          if sch.slugUnique && newSlug.any (fun slug => slugTakenByOther s.posts slug postId) then
            (internalError, s)
          else
            let posts := updateWhere s.posts postId (editRow newTitle newContent newSlug now)
            let cache :=
              if prev.status = .published then
                invalidatePublishedList up (invalidatePublishedPost up seg s.cache)
              else s.cache
            (⟨200, rowBody (findPost posts postId)⟩,
              { posts := posts, revisions := s.revisions ++ [revision],
                nextPostId := s.nextPostId, nextRevisionId := s.nextRevisionId + 1,
                cache := cache })

/-- Modelled from the spec: the foreign key of `post_revisions.post_id`, declared in
`init.sql`, which is not under `src/`. The specification states "remove item (and
revisions)" and "revisions ... deleted with the parent only": when the rows of a post
are deleted, the revisions whose parent is that post are deleted with them. -/
def cascadeRevisions (revisions : List Revision) (postId : Nat) : List Revision :=
  revisions.filter (fun r => decide (r.post_id ≠ postId))

/-- Handler `DELETE /posts/:id`. The handler deletes the rows of `posts`; the revisions
go by `cascadeRevisions`. `seg` is the text of the path segment, which the Redis key to
delete is built from, and `postId` the key the store reads it as. -/
def deletePost (up : Bool) (cred : Credential) (seg : String) (postId : Nat) (s : State) :
    Response × State :=
  match authRequired cred with
  | .error r => (r, s)
  | .ok authorId =>
    match authorOwnsPost authorId postId s with
    | .error r => (r, s)
    | .ok _ =>
      match findPost s.posts postId with
      | none => (⟨404, .error "Post not found"⟩, s)
      | some row =>
        (⟨204, .empty⟩,
          { s with
            posts := s.posts.filter (fun p => decide (p.id ≠ postId))
            revisions := cascadeRevisions s.revisions postId
            cache :=
              if row.status = .published then
                invalidatePublishedList up (invalidatePublishedPost up seg s.cache)
              else s.cache })

/-- The UPDATE of `POST /posts/:id/publish` (lines 257-260) on a matching row. -/
def publishRow (now : Int) (p : Post) : Post :=
  { p with status := .published, published_at := some now, updated_at := now }

/-- Handler `POST /posts/:id/publish` (publishDraft). -/
def publishDraft (now : Int) (up : Bool) (cred : Credential) (postId : Nat) (s : State) :
    Response × State :=
  match authRequired cred with
  | .error r => (r, s)
  | .ok authorId =>
    match authorOwnsPost authorId postId s with
    | .error r => (r, s)
    | .ok _ =>
      match findPost s.posts postId with
      | none => (⟨404, .error "Post not found"⟩, s)
      | some row =>
        if row.status ≠ .draft then
          (⟨400, .error "Only draft posts can be published immediately"⟩, s)
        else
          let posts := updateWhere s.posts postId (publishRow now)
          (⟨200, rowBody (findPost posts postId)⟩,
            { s with posts := posts, cache := invalidatePublishedList up s.cache })

/-- The UPDATE of `POST /posts/:id/schedule` (lines 300-303) on a matching row. -/
def scheduleRow (now scheduledFor : Int) (p : Post) : Post :=
  { p with status := .scheduled, scheduled_for := some scheduledFor, updated_at := now }

/-- The body field `scheduled_for` of `POST /posts/:id/schedule`, as the validator
`isISO8601()` and then `new Date(...)` read it. `rejected`: the field is absent or the
validator rejects it. `invalidDate`: the validator accepts the text but `new Date(...)`
cannot parse it and gives an Invalid Date (the basic format `20300101`, the week date
`2030-W01-1`). `instant t`: the validator accepts the text and `new Date(...)` reads it
as the instant `t`. -/
inductive ScheduledFor
  | rejected
  | invalidDate
  | instant (t : Int)
deriving DecidableEq, Repr

/-- Handler `POST /posts/:id/schedule` (scheduleDraft). An Invalid Date compares false
with `new Date()`, so it passes the time check; the driver cannot send it as a timestamp,
the UPDATE throws and the handler answers 500. -/
def scheduleDraft (now : Int) (cred : Credential) (postId : Nat) (scheduled_for : ScheduledFor)
    (s : State) : Response × State :=
  match authRequired cred with
  | .error r => (r, s)
  | .ok authorId =>
    match authorOwnsPost authorId postId s with
    | .error r => (r, s)
    | .ok _ =>
      match scheduled_for with
      | .rejected => (⟨400, .errors⟩, s)
      | .invalidDate =>
        match findPost s.posts postId with
        | none => (⟨404, .error "Post not found"⟩, s)
        | some row =>
          if row.status ≠ .draft then
            (⟨400, .error "Only draft posts can be scheduled"⟩, s)
          else (internalError, s)
      | .instant scheduledFor =>
        if scheduledFor ≤ now then
          (⟨400, .error "scheduled_for must be a future date and time"⟩, s)
        else
          match findPost s.posts postId with
          | none => (⟨404, .error "Post not found"⟩, s)
          | some row =>
            if row.status ≠ .draft then
              (⟨400, .error "Only draft posts can be scheduled"⟩, s)
            else
              let posts := updateWhere s.posts postId (scheduleRow now scheduledFor)
              (⟨200, rowBody (findPost posts postId)⟩, { s with posts := posts })

/-- Handler `GET /posts/:id` (the owner's single-item read). -/
def getOwned (cred : Credential) (postId : Nat) (s : State) : Response × State :=
  match authRequired cred with
  | .error r => (r, s)
  | .ok authorId =>
    match authorOwnsPost authorId postId s with
    | .error r => (r, s)
    | .ok _ =>
      match findPost s.posts postId with
      | none => (⟨404, .error "Post not found"⟩, s)
      | some row => (⟨200, .row row⟩, s)

/-- The rows of the query of `GET /posts/:id/revisions`: the revisions of the post,
joined with table `users` (`username` gives the name of a user id, `none` when there is
no such user), most recent first. -/
def revisionRows (username : Nat → Option String) (postId : Nat) (revisions : List Revision) :
    List RevisionView :=
  ((revisions.filter (fun r => decide (r.post_id = postId))).filterMap (fun r =>
      (username r.revision_author_id).map (fun u =>
        ({ revision_id := r.revision_id, post_id := r.post_id,
           title_snapshot := r.title_snapshot, content_snapshot := r.content_snapshot,
           revision_author := u, revision_timestamp := r.revision_timestamp } :
          RevisionView)))).insertionSort
    (fun a b => b.revision_timestamp ≤ a.revision_timestamp)

/-- Handler `GET /posts/:id/revisions` (listRevisions). -/
def listRevisions (username : Nat → Option String) (cred : Credential) (postId : Nat)
    (s : State) : Response × State :=
  match authRequired cred with
  | .error r => (r, s)
  | .ok authorId =>
    match authorOwnsPost authorId postId s with
    | .error r => (r, s)
    | .ok _ => (⟨200, .revisions (revisionRows username postId s.revisions)⟩, s)

/-! ## `src/routes/public.js` -/

/-- Handler `GET /posts/published/:id` (getPublished), read-through. `seg` is the text
of the path segment: the Redis key is built from it, and the store reads it as the key
`id` in `WHERE id = $1`. -/
def getPublished (now : Int) (up : Bool) (seg : String) (id : Nat) (s : State) :
    Response × State :=
  match getCachedPublishedPost up now seg s.cache with
  | some cached => (⟨200, .row cached⟩, s)
  | none =>
    match s.posts.find? (fun p => decide (p.id = id) && decide (p.status = .published)) with
    | none => (⟨404, .error "Post not found"⟩, s)
    | some post =>
      (⟨200, .row post⟩, { s with cache := setCachedPublishedPost up now seg post s.cache })

/-- The constant `pagination.defaultLimit` of `src/config.js`. -/
def defaultLimit : Nat := 20

/-- The constant `pagination.maxLimit` of `src/config.js`. -/
def maxLimit : Nat := 100

/-- Redis `GET published_posts_list:<page>:<limit>` at instant `now`. -/
def redisGetList (now : Int) (page limit : Nat) (c : Cache) : Option ListPayload :=
  (c.lists.find? (fun e =>
    decide (e.page = page) && decide (e.limit = limit) && decide (now < e.expires))).map
    (·.payload)

/-- Function `getCachedPublishedList`. -/
def getCachedPublishedList (up : Bool) (now : Int) (page limit : Nat) (c : Cache) :
    Option ListPayload :=
  (safeRedis up (fun c => (redisGetList now page limit c, c)) c).1

/-- Function `setCachedPublishedList`:
`SETEX published_posts_list:<page>:<limit> LIST_DEFAULT_TTL json`. -/
def setCachedPublishedList (up : Bool) (now : Int) (page limit : Nat) (data : ListPayload)
    (c : Cache) : Cache :=
  (safeRedis up (fun c => (some (),
    { c with lists := ⟨page, limit, data, now + LIST_DEFAULT_TTL * 1000⟩ ::
        c.lists.filter (fun e => !(decide (e.page = page) && decide (e.limit = limit))) })) c).2

/-- The order `ORDER BY published_at DESC NULLS LAST, updated_at DESC`: whether row `a`
may stand before row `b`. -/
def listBefore (a b : Post) : Bool :=
  match a.published_at, b.published_at with
  | some x, some y => decide (y < x) || (decide (y = x) && decide (b.updated_at ≤ a.updated_at))
  | some _, none => true
  | none, some _ => false
  | none, none => decide (b.updated_at ≤ a.updated_at)

/-- The rows of `SELECT ... FROM posts WHERE status = 'published' ORDER BY published_at
DESC NULLS LAST, updated_at DESC`, before LIMIT and OFFSET. -/
def publishedOrdered (posts : List Post) : List Post :=
  (posts.filter (fun p => decide (p.status = .published))).insertionSort
    (fun a b => listBefore a b = true)

/-- The value of `Math.ceil(total / limit)` for a positive `limit`. -/
def totalPages (total limit : Nat) : Nat := (total + limit - 1) / limit

/-- How many low bits of `n` a significand of 53 bits leaves out: 0 below 2^53, and
otherwise the `e` with `2^(52+e) ≤ n < 2^(53+e)`. The first argument bounds the number of
halvings; `n` itself is always enough. -/
def excessBits : Nat → Nat → Nat
  | 0, _ => 0
  | fuel + 1, n => if n < 2 ^ 53 then 0 else excessBits fuel (n / 2) + 1

/-- The significand of `n` once its `e` low bits are rounded away, to the nearest, a tie
going to the even significand. -/
def roundedSignificand (n e : Nat) : Nat :=
  if 2 ^ e < 2 * (n % 2 ^ e) ∨ (2 * (n % 2 ^ e) = 2 ^ e ∧ n / 2 ^ e % 2 = 1) then
    n / 2 ^ e + 1
  else n / 2 ^ e

/-- The power 2^1024, written as a product of four factors 2^256: a rounded value that
reaches it is no finite JS number. -/
def doubleOverflow : Nat := 2 ^ 256 * 2 ^ 256 * 2 ^ 256 * 2 ^ 256

/-- The JS number (IEEE 754 binary64) an integer `n ≥ 0` becomes, as `parseInt` and the
arithmetic operators produce it: `n` itself up to 2^53, above that the nearest multiple
of `2^e` with a 53-bit significand; `none` stands for `Infinity` (from `2^1024 - 2^970`
on). -/
def toDouble (n : Nat) : Option Nat :=
  if roundedSignificand n (excessBits n n) * 2 ^ excessBits n n < doubleOverflow then
    some (roundedSignificand n (excessBits n n) * 2 ^ excessBits n n)
  else none

/-- The value of `(page - 1) * limit` in JS numbers, each operation rounded; `none` when
it is `Infinity`. -/
def listOffset (page limit : Nat) : Option Nat :=
  (toDouble (page - 1)).bind (fun a => toDouble (a * limit))

/-- The largest value of the store's 32-bit integer, the type of `COUNT(*)::int`. -/
def int4Max : Nat := 2147483647

/-- The largest value of the store's 64-bit integer, the type of `OFFSET`. -/
def int8Max : Nat := 9223372036854775807

/-- The payload `GET /posts/published` builds from the two queries (COUNT, and SELECT with
`LIMIT limit OFFSET offset`). -/
def listPayload (posts : List Post) (page limit offset : Nat) : ListPayload :=
  { posts := List.take limit (List.drop offset (publishedOrdered posts))
    pagination :=
      { page := page
        limit := limit
        total := (posts.filter (fun p => decide (p.status = .published))).length
        totalPages :=
          totalPages (posts.filter (fun p => decide (p.status = .published))).length limit } }

/-- Handler `GET /posts/published` (listPublished), read-through. `page` and `limit` are
the optional query parameters, as the integers their digits denote; `toInt()` makes each
a JS number. One of the two queries throws, and the handler answers 500, when the offset
is `Infinity` or above the store's 64-bit range (the driver sends its decimal text, which
the store refuses) or when the count of published rows does not fit `::int`. An offset
above 2^53 is sent as the shortest decimal text that reads back as the same number; like
the number it lies beyond every table whose count fits `::int`, so the rows are the same.
A page that `toInt()` reads as `Infinity` finds no cache entry, none being ever written
for it, and its offset is `Infinity`. -/
def listPublished (now : Int) (up : Bool) (page limit : Option Nat) (s : State) :
    Response × State :=
  if page.any (fun p => decide (p < 1)) ||
      limit.any (fun l => decide (l < 1) || decide (maxLimit < l)) then
    (⟨400, .errors⟩, s)
  else
    match toDouble (page.getD 1) with
    | none => (internalError, s)
    | some pg =>
      match getCachedPublishedList up now (max 1 pg)
          (min maxLimit (limit.getD defaultLimit)) s.cache with
      | some cached => (⟨200, .list cached⟩, s)
      | none =>
        match listOffset (max 1 pg) (min maxLimit (limit.getD defaultLimit)) with
        | none => (internalError, s)
        | some offset =>
          if int8Max < offset ∨
              int4Max < (s.posts.filter (fun p => decide (p.status = .published))).length then
            (internalError, s)
          else
            (⟨200, .list (listPayload s.posts (max 1 pg)
                (min maxLimit (limit.getD defaultLimit)) offset)⟩,
              { s with cache := (setCachedPublishedList up now (max 1 pg)
                  (min maxLimit (limit.getD defaultLimit))
                  (listPayload s.posts (max 1 pg)
                    (min maxLimit (limit.getD defaultLimit)) offset)
                  s.cache) })

/-! ## `src/worker/index.js` -/

/-- The statement of a per-row transaction of the worker that throws, if any. -/
inductive TxStep
  | begin
  | update
  | commit
deriving DecidableEq, Repr

/-- The predicate `status = 'scheduled' AND scheduled_for <= NOW()` (a NULL never compares). -/
def isDue (now : Int) (p : Post) : Bool :=
  decide (p.status = .scheduled) &&
    (match p.scheduled_for with
     | some t => decide (t ≤ now)
     | none => false)

/-- The ids returned by the SELECT at the top of `processScheduledPublish`. -/
def selectDue (now : Int) (posts : List Post) : List Nat :=
  (posts.filter (isDue now)).map (·.id)

/-- The effect of the conditional UPDATE on a row it matches. -/
def markPublished (now : Int) (p : Post) : Post :=
  { p with status := .published, published_at := some now, updated_at := now }

/-- The conditional `UPDATE ... WHERE id = $1 AND status = 'scheduled' AND
scheduled_for <= NOW() RETURNING id`: the returned ids and the table afterwards. -/
def claimUpdate (now : Int) (id : Nat) (posts : List Post) : List Nat × List Post :=
  ((posts.filter (fun p => decide (p.id = id) && isDue now p)).map (·.id),
   posts.map (fun p => if decide (p.id = id) && isDue now p then markPublished now p else p))

/-- The `for (const row of rows)` loop. `fault id` names the statement of the row's
transaction that throws. The Redis key deleted after a COMMIT is built from `row.id`, the
number the store returned, hence from its decimal text. A throwing BEGIN is outside the `try` and ends the cycle with
the exception (first component `true`); a throwing UPDATE or COMMIT is caught, the
transaction rolled back and the loop goes on. -/
def processRows (fault : Nat → Option TxStep) (now : Int) (up : Bool) :
    List Nat → State → Bool × State
  | [], s => (false, s)
  | id :: rest, s =>
    match fault id with
    | some .begin => (true, s)
    | some .update => processRows fault now up rest s
    | some .commit => processRows fault now up rest s
    | none =>
      if (claimUpdate now id s.posts).1 ≠ [] then
        processRows fault now up rest
          { s with
            posts := (claimUpdate now id s.posts).2
            cache :=
              invalidatePublishedPost up (toString id) (invalidatePublishedList up s.cache) }
      else processRows fault now up rest s

/-- Function `processScheduledPublish`: whether it threw, and the state it leaves.
The cycle is taken at one clock reading: the `NOW()` of the SELECT and of every
row's transaction are the same `now`. -/
def processScheduledPublish (fault : Nat → Option TxStep) (now : Int) (up : Bool) (s : State) :
    Bool × State :=
  processRows fault now up (selectDue now s.posts) s

/-- A cycle in which no statement throws. -/
def noFault : Nat → Option TxStep := fun _ => none

/-! ## A concrete `slugify` for the examples -/

/-- Whitespace runs become one hyphen, everything else is lower-cased. -/
def hyphenate : Bool → List Char → List Char
  | _, [] => []
  | inRun, c :: cs =>
    if c.isWhitespace then
      (if inRun then hyphenate true cs else '-' :: hyphenate true cs)
    else c.toLower :: hyphenate false cs

/-- The result of `slugify(title, { lower: true, strict: true })` on a title made of
ASCII letters, digits and whitespace: `strict` drops every other character, the result
is trimmed, whitespace runs become `-`, letters are lower-cased. Used only to evaluate
the handlers on such titles. -/
def slugifyAscii (title : String) : String :=
  ⟨hyphenate false
    (trim ⟨title.data.filter (fun c => c.isAlphanum || c.isWhitespace)⟩).data⟩


/-! ## A concrete store for the examples -/

/-- Four posts: a draft, a scheduled and a published post of author 1, a draft of author 2. -/
def demoStore : State :=
  { posts :=
      [ { id := 1, title := "Alpha", slug := "alpha", content := "a", status := .draft,
          author_id := 1, scheduled_for := none, published_at := none,
          created_at := 10, updated_at := 10 },
        { id := 2, title := "Beta", slug := "beta", content := "b", status := .scheduled,
          author_id := 1, scheduled_for := some 200, published_at := none,
          created_at := 20, updated_at := 25 },
        { id := 3, title := "Gamma", slug := "gamma", content := "c", status := .published,
          author_id := 1, scheduled_for := none, published_at := some 50,
          created_at := 30, updated_at := 50 },
        { id := 4, title := "Delta", slug := "delta", content := "d", status := .draft,
          author_id := 2, scheduled_for := none, published_at := none,
          created_at := 40, updated_at := 40 } ]
    revisions := []
    nextPostId := 5
    nextRevisionId := 1
    cache := { posts := [], lists := [] } }


/-! ## States, invariants and reachability -/

/-- The state `PUT /posts/:id` commits when it succeeds. -/
def editedState (slugify : String → String) (now : Int) (up : Bool) (uid : Nat)
    (seg : String) (postId : Nat) (title content : Option String) (prev : Post) (s : State) :
    State :=
  { posts := updateWhere s.posts postId
      (editRow ((title.map trim).getD prev.title) ((content.map trim).getD prev.content)
        (title.map (fun _ =>
          editSlug slugify now s.posts postId ((title.map trim).getD prev.title))) now)
    revisions := s.revisions ++
      [{ revision_id := s.nextRevisionId, post_id := postId, title_snapshot := prev.title,
         content_snapshot := prev.content, revision_author_id := uid,
         revision_timestamp := now }]
    nextPostId := s.nextPostId
    nextRevisionId := s.nextRevisionId + 1
    cache :=
      if prev.status = .published then
        invalidatePublishedList up (invalidatePublishedPost up seg s.cache)
      else s.cache }

/-- The states the API and the worker can produce from the empty store: any sequence of
createDraft, updateItem, delete, publishDraft, scheduleDraft, worker cycles (with any
fault) and the public reads getPublished and listPublished, with any arguments, clock
readings and cache availability. -/
inductive Reachable (slugify : String → String) (sch : Schema) : State → Prop
  | empty : Reachable slugify sch State.empty
  | create {s s2 : State} {r : Response} (now : Int) (cred : Credential) (title : String)
      (content : Option String) :
      Reachable slugify sch s →
      createDraft slugify sch now cred title content s = some (r, s2) →
      Reachable slugify sch s2
  | update {s : State} (now : Int) (up : Bool) (cred : Credential) (seg : String)
      (postId : Nat) (title content : Option String) :
      Reachable slugify sch s →
      Reachable slugify sch (updateItem slugify sch now up cred seg postId title content s).2
  | delete {s : State} (up : Bool) (cred : Credential) (seg : String) (postId : Nat) :
      Reachable slugify sch s → Reachable slugify sch (deletePost up cred seg postId s).2
  | publish {s : State} (now : Int) (up : Bool) (cred : Credential) (postId : Nat) :
      Reachable slugify sch s → Reachable slugify sch (publishDraft now up cred postId s).2
  | schedule {s : State} (now : Int) (cred : Credential) (postId : Nat)
      (scheduled_for : ScheduledFor) :
      Reachable slugify sch s →
      Reachable slugify sch (scheduleDraft now cred postId scheduled_for s).2
  | worker {s : State} (fault : Nat → Option TxStep) (now : Int) (up : Bool) :
      Reachable slugify sch s →
      Reachable slugify sch (processScheduledPublish fault now up s).2
  | read {s : State} (now : Int) (up : Bool) (seg : String) (id : Nat) :
      Reachable slugify sch s → Reachable slugify sch (getPublished now up seg id s).2
  | list {s : State} (now : Int) (up : Bool) (page limit : Option Nat) :
      Reachable slugify sch s → Reachable slugify sch (listPublished now up page limit s).2

/-- The lifecycle invariant of one row: `published_at` is set exactly on published rows,
a scheduled row has a `scheduled_for`, a draft has none. -/
def RowInv (p : Post) : Prop :=
  (p.published_at ≠ none ↔ p.status = .published) ∧
  (p.status = .scheduled → p.scheduled_for ≠ none) ∧
  (p.status = .draft → p.scheduled_for = none)

/-- The invariant of the table: ids are a key, all below the next id of the sequence,
and every row satisfies `RowInv`. -/
def PostsInv (n : Nat) (posts : List Post) : Prop :=
  (posts.map (·.id)).Nodup ∧ (∀ p ∈ posts, p.id < n) ∧ ∀ p ∈ posts, RowInv p

/-- The store returns, for `id`, a row whose status is published. -/
def IsPublished (posts : List Post) (id : Nat) : Prop :=
  ∃ q, findPost posts id = some q ∧ q.status = .published

/-- A store with pairwise distinct slugs: posts 1 and 2 were created with the titles
"Gamma" and "Gamma 1700000000000", post 3 with the title "Beta". -/
def collisionStore : State :=
  { posts :=
      [ newDraft 1 "Gamma" "gamma" "" 1 10,
        newDraft 2 "Gamma 1700000000000" "gamma-1700000000000" "" 1 20,
        newDraft 3 "Beta" "beta" "" 1 30 ]
    revisions := []
    nextPostId := 4
    nextRevisionId := 1
    cache := { posts := [], lists := [] } }

/-- The store after author 1 created "Hello" at 10, scheduled it at 80 for 200, and the
worker ran at 300. -/
def workerDemo : State :=
  (processScheduledPublish noFault 300 true
    (scheduleDraft 80 (.token 1 "author") 1 (.instant 200)
      { posts := [newDraft 1 "Hello" "hello" "" 1 10], revisions := [], nextPostId := 2,
        nextRevisionId := 1, cache := { posts := [], lists := [] } }).2).2

/-- The `demoStore` after a public read of post 3 at instant 100 filled the cache. -/
def cachedDemo : State := (getPublished 100 true "3" 3 demoStore).2


/-! ## The probe sequence of the slug loop -/

/-- The slug probed by `generateUniqueSlug` when its counter is `k`: the base itself
first, then `base-1`, `base-2`, and so on. -/
def slugCandidate (base : String) : Nat → String
  | 0 => base
  | k + 1 => base ++ "-" ++ toString (k + 1)

/-- The number a list of decimal digit characters denotes. -/
def digitsValue (l : List Char) : Nat :=
  l.foldl (fun acc c => acc * 10 + (c.toNat - 48)) 0


/-- Two drafts of author 1 created with the same title "Gamma": the second creation
found `gamma` held and stored `gamma-1`. -/
def sameTitleStore : State :=
  { posts := [newDraft 1 "Gamma" "gamma" "" 1 10, newDraft 2 "Gamma" "gamma-1" "" 1 20]
    revisions := []
    nextPostId := 3
    nextRevisionId := 1
    cache := { posts := [], lists := [] } }


/-- A store in which the slug `post` is held: author 1 created a draft whose title
"???" normalizes to the empty string. -/
def postSlugStore : State :=
  { posts := [newDraft 1 "???" "post" "" 1 10]
    revisions := []
    nextPostId := 2
    nextRevisionId := 1
    cache := { posts := [], lists := [] } }


/-- The `demoStore` after author 1 retitled draft 1 at 100: one revision, of post 1. -/
def revisedDemo : State :=
  (updateItem slugifyAscii ⟨true⟩ 100 true (.token 1 "author") "1" 1 (some "Omega") none
    demoStore).2

/-- Two scheduled posts of author 1, due at 100 and at 200. -/
def twoDueStore : State :=
  { posts :=
      [ { id := 1, title := "One", slug := "one", content := "", status := .scheduled,
          author_id := 1, scheduled_for := some 100, published_at := none,
          created_at := 10, updated_at := 10 },
        { id := 2, title := "Two", slug := "two", content := "", status := .scheduled,
          author_id := 1, scheduled_for := some 200, published_at := none,
          created_at := 20, updated_at := 20 } ]
    revisions := []
    nextPostId := 3
    nextRevisionId := 1
    cache := { posts := [], lists := [] } }

/-- The fault pattern in which one statement of the transaction of row `id` throws and
nothing else does. -/
def faultAt (id : Nat) (step : TxStep) : Nat → Option TxStep :=
  fun i => if i = id then some step else none


/-! ## Two worker cycles interleaved -/

/-- One per-row transaction of a worker cycle in which nothing throws (the body of the
loop of `processScheduledPublish`): the rows the conditional UPDATE returned and the
state after COMMIT, or no row and the state as it was after ROLLBACK. The transaction
is one atomic step: the store serialises conflicting writes to the same row. -/
def claimStep (now : Int) (up : Bool) (id : Nat) (s : State) : List Nat × State :=
  if (claimUpdate now id s.posts).1 ≠ [] then
    ((claimUpdate now id s.posts).1,
      { s with
        posts := (claimUpdate now id s.posts).2
        cache :=
          invalidatePublishedPost up (toString id) (invalidatePublishedList up s.cache) })
  else ([], s)

/-- What one per-row transaction of an interleaved run did: which cycle ran it (`first`
for the first cycle), for which selected id, the rows its UPDATE returned, and the state
before and after it. -/
structure TxRecord where
  first : Bool
  id : Nat
  returned : List Nat
  before : State
  after : State

/-- Two cycles, the first at clock reading `nowA` and the second at `nowB`, running
their per-row transactions in the order `sched` gives: each entry names the cycle that
runs its next transaction and the selected id it is for. The result is the record of
every transaction, in order, and the final state. -/
def runSchedule (nowA nowB : Int) (upA upB : Bool) :
    List (Bool × Nat) → State → List TxRecord × State
  | [], s => ([], s)
  | (c, id) :: rest, s =>
    (⟨c, id, (claimStep (if c then nowA else nowB) (if c then upA else upB) id s).1, s,
        (claimStep (if c then nowA else nowB) (if c then upA else upB) id s).2⟩ ::
      (runSchedule nowA nowB upA upB rest
        (claimStep (if c then nowA else nowB) (if c then upA else upB) id s).2).1,
     (runSchedule nowA nowB upA upB rest
        (claimStep (if c then nowA else nowB) (if c then upA else upB) id s).2).2)

/-- The ids of the transactions cycle `c` runs in `sched`, in order. -/
def stepsOf (c : Bool) (sched : List (Bool × Nat)) : List Nat :=
  (sched.filter (fun e => e.1 == c)).map (·.2)

/-- The schedule `sched` is an interleaving of the two cycles: the first cycle runs the
transactions of the rows it selected, `idsA`, in its order, and the second those of
`idsB`. -/
def IsInterleaving (sched : List (Bool × Nat)) (idsA idsB : List Nat) : Prop :=
  stepsOf true sched = idsA ∧ stepsOf false sched = idsB


/-- Three published posts of author 1, published at 50, 70 and 60, and one draft. -/
def threePublishedStore : State :=
  { posts :=
      [ { id := 1, title := "One", slug := "one", content := "", status := .published,
          author_id := 1, scheduled_for := none, published_at := some 50,
          created_at := 10, updated_at := 50 },
        { id := 2, title := "Two", slug := "two", content := "", status := .published,
          author_id := 1, scheduled_for := none, published_at := some 70,
          created_at := 20, updated_at := 70 },
        { id := 3, title := "Three", slug := "three", content := "", status := .draft,
          author_id := 1, scheduled_for := none, published_at := none,
          created_at := 30, updated_at := 30 },
        { id := 4, title := "Four", slug := "four", content := "", status := .published,
          author_id := 1, scheduled_for := none, published_at := some 60,
          created_at := 40, updated_at := 60 } ]
    revisions := []
    nextPostId := 5
    nextRevisionId := 1
    cache := { posts := [], lists := [] } }


/-! ## The store behind the cache -/

/-- The durable part of a state: the two tables and the two id sequences. -/
def State.store (s : State) : List Post × List Revision × Nat × Nat :=
  (s.posts, s.revisions, s.nextPostId, s.nextRevisionId)

/-- A reachable Redis holding no key. -/
def emptyCache : Cache := { posts := [], lists := [] }

/-! ## One post under two spellings of its id -/

/-- The store after author 1 created "Hello" at 10 and published it at 50, Redis being
reachable. -/
def publishedDemo : State :=
  (publishDraft 50 true (.token 1 "author") 1
    { posts := [newDraft 1 "Hello" "hello" "" 1 10], revisions := [], nextPostId := 2,
      nextRevisionId := 1, cache := { posts := [], lists := [] } }).2

/-- The store `publishedDemo` after `GET /posts/published/01` at 60 and then
`DELETE /posts/1` by the owner, Redis being reachable throughout. -/
def aliasDemo : State :=
  (deletePost true (.token 1 "author") "1" 1 (getPublished 60 true "01" 1 publishedDemo).2).2

end CMS

namespace CMS

/-! ## The slug loop terminates -/

theorem digitChar_value (k : Nat) (h : k < 10) : (Nat.digitChar k).toNat - 48 = k := by
  interval_cases k <;> rfl

theorem toDigitsCore_acc (fuel : Nat) :
    ∀ (n : Nat) (ds : List Char),
      Nat.toDigitsCore 10 fuel n ds = Nat.toDigitsCore 10 fuel n [] ++ ds := by
  induction fuel with
  | zero => intro n ds; simp [Nat.toDigitsCore]
  | succ fuel ih =>
    intro n ds
    simp only [Nat.toDigitsCore]
    by_cases h : n / 10 = 0
    · simp [h]
    · simp only [h, if_false]
      rw [ih (n / 10) (Nat.digitChar (n % 10) :: ds), ih (n / 10) [Nat.digitChar (n % 10)]]
      simp

theorem digitsValue_append_singleton (l : List Char) (c : Char) :
    digitsValue (l ++ [c]) = digitsValue l * 10 + (c.toNat - 48) := by
  simp [digitsValue, List.foldl_append]

theorem digitsValue_toDigitsCore (fuel : Nat) :
    ∀ n, n < fuel → digitsValue (Nat.toDigitsCore 10 fuel n []) = n := by
  induction fuel with
  | zero => intro n h; omega
  | succ fuel ih =>
    intro n hn
    simp only [Nat.toDigitsCore]
    by_cases h : n / 10 = 0
    · have hlt : n % 10 < 10 := Nat.mod_lt _ (by decide)
      simp only [h, if_true]
      simp only [digitsValue, List.foldl_cons, List.foldl_nil, Nat.zero_mul, Nat.zero_add]
      rw [digitChar_value _ hlt]
      omega
    · simp only [h, if_false]
      rw [toDigitsCore_acc, digitsValue_append_singleton, ih (n / 10) (by omega),
        digitChar_value _ (Nat.mod_lt _ (by decide))]
      omega

/-- The decimal rendering of a counter determines the counter. -/
theorem toString_nat_injective {a b : Nat} (h : toString a = toString b) : a = b := by
  have h1 : Nat.toDigits 10 a = Nat.toDigits 10 b := congrArg String.data h
  have ha := digitsValue_toDigitsCore (a + 1) a (Nat.lt_succ_self a)
  have hb := digitsValue_toDigitsCore (b + 1) b (Nat.lt_succ_self b)
  unfold Nat.toDigits at h1
  rw [h1] at ha
  omega

theorem slugCandidate_injective (base : String) {i j : Nat}
    (h : slugCandidate base i = slugCandidate base j) : i = j := by
  cases i with
  | zero =>
    cases j with
    | zero => rfl
    | succ j =>
      have := congrArg String.length h
      have h1 : "-".length = 1 := rfl
      simp only [slugCandidate, String.length_append, h1] at this
      omega
  | succ i =>
    cases j with
    | zero =>
      have := congrArg String.length h
      have h1 : "-".length = 1 := rfl
      simp only [slugCandidate, String.length_append, h1] at this
      omega
    | succ j =>
      have h1 := congrArg String.data h
      simp only [slugCandidate, String.data_append, List.append_cancel_left_eq] at h1
      exact toString_nat_injective (String.ext h1)

theorem generateUniqueSlugLoop_none (posts : List Post) (base : String) :
    ∀ (fuel c : Nat),
      generateUniqueSlugLoop posts base fuel (slugCandidate base c) c = none →
      ∀ k, c ≤ k → k < c + fuel → slugTaken posts (slugCandidate base k) = true := by
  intro fuel
  induction fuel with
  | zero => intro c _ k h1 h2; omega
  | succ fuel ih =>
    intro c h k h1 h2
    unfold generateUniqueSlugLoop at h
    by_cases ht : slugTaken posts (slugCandidate base c) = true
    · simp only [ht, if_true] at h
      rcases Nat.eq_or_lt_of_le h1 with rfl | hlt
      · exact ht
      · exact ih (c + 1) h k hlt (by omega)
    · simp [ht] at h

/-- With one more probe than there are rows, the loop of `generateUniqueSlug` finds a
free slug: the probes are pairwise distinct, so they cannot all be held. -/
theorem generateUniqueSlug_isSome (slugify : String → String) (posts : List Post)
    (title : String) : (generateUniqueSlug slugify posts title).isSome = true := by
  cases h : generateUniqueSlug slugify posts title with
  | some slug => rfl
  | none =>
    exfalso
    have hall := generateUniqueSlugLoop_none posts (ensureUniqueSlug slugify title)
      (posts.length + 1) 0 h
    have hsub : (List.range (posts.length + 1)).map
        (slugCandidate (ensureUniqueSlug slugify title)) ⊆ posts.map (·.slug) := by
      intro x hx
      obtain ⟨k, hk, rfl⟩ := List.mem_map.1 hx
      have := hall k (Nat.zero_le _) (by simpa using List.mem_range.1 hk)
      simp only [slugTaken, List.any_eq_true, decide_eq_true_eq] at this
      obtain ⟨p, hp, hps⟩ := this
      exact List.mem_map.2 ⟨p, hp, hps⟩
    have hnd : ((List.range (posts.length + 1)).map
        (slugCandidate (ensureUniqueSlug slugify title))).Nodup :=
      (List.nodup_range _).map (fun _ _ hij => slugCandidate_injective _ hij)
    have := (List.subperm_of_subset hnd hsub).length_le
    simp at this

/-- The handler `POST /posts` always answers: the fuel of the slug loop never runs out. -/
theorem createDraft_isSome (slugify : String → String) (sch : Schema) (now : Int)
    (cred : Credential) (title : String) (content : Option String) (s : State) :
    (createDraft slugify sch now cred title content s).isSome = true := by
  unfold createDraft
  cases authRequired cred with
  | error r => rfl
  | ok uid =>
    simp only
    split
    · rfl
    · have h := generateUniqueSlug_isSome slugify s.posts (trim title)
      cases hg : generateUniqueSlug slugify s.posts (trim title) with
      | none => rw [hg] at h; cases h
      | some slug =>
        simp only
        split <;> rfl

theorem generateUniqueSlugLoop_free (posts : List Post) (base : String) :
    ∀ (fuel : Nat) (slug : String) (c : Nat) (out : String),
      generateUniqueSlugLoop posts base fuel slug c = some out →
      slugTaken posts out = false := by
  intro fuel
  induction fuel with
  | zero => intro slug c out h; simp [generateUniqueSlugLoop] at h
  | succ fuel ih =>
    intro slug c out h
    unfold generateUniqueSlugLoop at h
    by_cases ht : slugTaken posts slug = true
    · simp only [ht, if_true] at h
      exact ih _ _ _ h
    · simp only [ht] at h
      cases h
      simpa using ht

/-! ## Basic facts about the handlers -/

@[simp] theorem authRequired_author (uid : Nat) : authRequired (.token uid "author") = .ok uid := by
  simp [authRequired]

theorem authorOwnsPost_ok {uid postId : Nat} {s : State} {p : Post}
    (hfind : findPost s.posts postId = some p) (hown : p.author_id = uid) :
    authorOwnsPost uid postId s = .ok () := by
  simp [authorOwnsPost, hfind, hown]

theorem authorOwnsPost_ok_iff {uid postId : Nat} {s : State} {u : Unit} :
    authorOwnsPost uid postId s = .ok u ↔
      ∃ p, findPost s.posts postId = some p ∧ p.author_id = uid := by
  unfold authorOwnsPost
  cases h : findPost s.posts postId with
  | none => simp
  | some p =>
    by_cases ho : p.author_id = uid <;> simp [ho]

theorem findPost_id {posts : List Post} {id : Nat} {p : Post}
    (h : findPost posts id = some p) : p.id = id := by
  have := List.find?_some h
  simpa using this

theorem findPost_mem {posts : List Post} {id : Nat} {p : Post}
    (h : findPost posts id = some p) : p ∈ posts :=
  List.mem_of_find?_eq_some h

theorem findPost_of_mem {posts : List Post} {p : Post}
    (hk : (posts.map (·.id)).Nodup) (hp : p ∈ posts) : findPost posts p.id = some p := by
  cases h : findPost posts p.id with
  | none =>
    have := List.find?_eq_none.1 h p hp
    simp at this
  | some q =>
    have hq := findPost_mem h
    have hid := findPost_id h
    rw [List.inj_on_of_nodup_map hk hq hp hid]

theorem findPost_cons (a : Post) (rest : List Post) (id : Nat) :
    findPost (a :: rest) id = if a.id = id then some a else findPost rest id := by
  unfold findPost
  rw [List.find?_cons]
  by_cases h : a.id = id <;> simp [h]

theorem findPost_map (posts : List Post) (id : Nat) (g : Post → Post)
    (hg : ∀ p, (g p).id = p.id) :
    findPost (posts.map g) id = (findPost posts id).map g := by
  induction posts with
  | nil => rfl
  | cons a rest ih =>
    rw [List.map_cons, findPost_cons, findPost_cons, hg, ih]
    by_cases h2 : a.id = id <;> simp [h2]

theorem findPost_updateWhere (posts : List Post) (id id2 : Nat) (set : Post → Post)
    (hset : ∀ p, (set p).id = p.id) :
    findPost (updateWhere posts id set) id2 =
      (findPost posts id2).map (fun p => if p.id = id then set p else p) := by
  unfold updateWhere
  apply findPost_map
  intro p
  split <;> simp [hset]

theorem map_id_updateWhere (posts : List Post) (id : Nat) (set : Post → Post)
    (hset : ∀ p, (set p).id = p.id) :
    (updateWhere posts id set).map (·.id) = posts.map (·.id) := by
  unfold updateWhere
  rw [List.map_map]
  apply List.map_congr_left
  intro p _
  by_cases h : p.id = id <;> simp [h, hset]

@[simp] theorem editRow_id (a b : String) (c : Option String) (now : Int) (p : Post) :
    (editRow a b c now p).id = p.id := by
  cases c <;> rfl

@[simp] theorem editRow_title (a b : String) (c : Option String) (now : Int) (p : Post) :
    (editRow a b c now p).title = a := by
  cases c <;> rfl

@[simp] theorem editRow_content (a b : String) (c : Option String) (now : Int) (p : Post) :
    (editRow a b c now p).content = b := by
  cases c <;> rfl

@[simp] theorem editRow_author_id (a b : String) (c : Option String) (now : Int) (p : Post) :
    (editRow a b c now p).author_id = p.author_id := by
  cases c <;> rfl

@[simp] theorem editRow_created_at (a b : String) (c : Option String) (now : Int) (p : Post) :
    (editRow a b c now p).created_at = p.created_at := by
  cases c <;> rfl

@[simp] theorem editRow_status (a b : String) (c : Option String) (now : Int) (p : Post) :
    (editRow a b c now p).status = p.status := by
  cases c <;> rfl

@[simp] theorem editRow_published_at (a b : String) (c : Option String) (now : Int) (p : Post) :
    (editRow a b c now p).published_at = p.published_at := by
  cases c <;> rfl

@[simp] theorem editRow_scheduled_for (a b : String) (c : Option String) (now : Int) (p : Post) :
    (editRow a b c now p).scheduled_for = p.scheduled_for := by
  cases c <;> rfl

/-- Every run of `PUT /posts/:id` either leaves the state untouched (an error answer, or
a request with neither field) or is a successful edit by the owner that supplied a field,
answered 200 with the row as stored. -/
theorem updateItem_cases (slugify : String → String) (sch : Schema) (now : Int) (up : Bool)
    (cred : Credential) (seg : String) (postId : Nat) (title content : Option String)
    (s : State) :
    ((updateItem slugify sch now up cred seg postId title content s).2 = s ∧
      ((updateItem slugify sch now up cred seg postId title content s).1.status ≠ 200 ∨
        (title = none ∧ content = none))) ∨
    ∃ uid prev, authRequired cred = .ok uid ∧ findPost s.posts postId = some prev ∧
      prev.author_id = uid ∧ (title.isSome ∨ content.isSome) ∧
      updateItem slugify sch now up cred seg postId title content s =
        (⟨200, rowBody (findPost
            (editedState slugify now up uid seg postId title content prev s).posts postId)⟩,
          editedState slugify now up uid seg postId title content prev s) := by
  cases ha : authRequired cred with
  | error r =>
    left
    cases cred with
    | missing => simp [updateItem, authRequired]
    | invalid => simp [updateItem, authRequired]
    | token uid role =>
      by_cases hr : role = "author"
      · simp [authRequired, hr] at ha
      · simp [updateItem, authRequired, hr]
  | ok uid =>
    cases ho : authorOwnsPost uid postId s with
    | error r =>
      left
      unfold authorOwnsPost at ho
      cases hfind : findPost s.posts postId with
      | none => simp [updateItem, ha, authorOwnsPost, hfind]
      | some p =>
        by_cases hown : p.author_id = uid
        · simp [hfind, hown] at ho
        · simp [updateItem, ha, authorOwnsPost, hfind, hown]
    | ok u =>
      obtain ⟨prev, hfind, hown⟩ := authorOwnsPost_ok_iff.1 ho
      by_cases hv : (title.map trim).any titleInvalid = true
      · left; simp [updateItem, ha, ho, hv]
      · by_cases hn : (title.isNone && content.isNone) = true
        · left
          have : title = none ∧ content = none := by
            cases title <;> cases content <;> simp at hn ⊢
          simp [updateItem, ha, ho, hv, hn, this]
        · by_cases hu : (sch.slugUnique && (title.map (fun _ => editSlug slugify now s.posts postId
              ((title.map trim).getD prev.title))).any
                (fun slug => slugTakenByOther s.posts slug postId)) = true
          · left
            simp only [updateItem, ha, ho, hfind, hv, hn, hu]
            simp [internalError]
          · right
            refine ⟨uid, prev, rfl, hfind, hown, ?_, ?_⟩
            · cases title <;> cases content <;> simp at hn ⊢
            · simp only [updateItem, ha, ho, hfind, hv, hn, hu]
              simp [editedState]

theorem authRequired_error_status {cred : Credential} {r : Response}
    (h : authRequired cred = .error r) : r.status = 401 ∨ r.status = 403 := by
  cases cred with
  | missing => simp [authRequired] at h; subst h; simp
  | invalid => simp [authRequired] at h; subst h; simp
  | token uid role =>
    by_cases hr : role = "author"
    · simp [authRequired, hr] at h
    · simp [authRequired, hr] at h; subst h; simp

theorem authorOwnsPost_error_status {uid postId : Nat} {s : State} {r : Response}
    (h : authorOwnsPost uid postId s = .error r) : r.status = 404 ∨ r.status = 403 := by
  unfold authorOwnsPost at h
  cases hfind : findPost s.posts postId with
  | none => simp [hfind] at h; subst h; simp
  | some p =>
    by_cases hown : p.author_id = uid
    · simp [hfind, hown] at h
    · simp [hfind, hown] at h; subst h; simp

/-- Every run of `POST /posts/:id/publish` either leaves the state untouched with an
error answer, or publishes a draft of the caller. -/
theorem publishDraft_cases (now : Int) (up : Bool) (cred : Credential) (postId : Nat)
    (s : State) :
    ((publishDraft now up cred postId s).2 = s ∧
      (publishDraft now up cred postId s).1.status ≠ 200) ∨
    ∃ uid row, authRequired cred = .ok uid ∧ findPost s.posts postId = some row ∧
      row.author_id = uid ∧ row.status = .draft ∧
      publishDraft now up cred postId s =
        (⟨200, rowBody (findPost (updateWhere s.posts postId (publishRow now)) postId)⟩,
          { s with posts := updateWhere s.posts postId (publishRow now)
                   cache := invalidatePublishedList up s.cache }) := by
  cases ha : authRequired cred with
  | error r =>
    left
    rcases authRequired_error_status ha with h | h <;> simp [publishDraft, ha, h]
  | ok uid =>
    cases ho : authorOwnsPost uid postId s with
    | error r =>
      left
      rcases authorOwnsPost_error_status ho with h | h <;> simp [publishDraft, ha, ho, h]
    | ok u =>
      obtain ⟨row, hfind, hown⟩ := authorOwnsPost_ok_iff.1 ho
      by_cases hd : row.status = .draft
      · right
        refine ⟨uid, row, rfl, hfind, hown, hd, ?_⟩
        simp [publishDraft, ha, ho, hfind, hd]
      · left
        simp [publishDraft, ha, ho, hfind, hd]

/-- Every run of `POST /posts/:id/schedule` either leaves the state untouched with an
error answer, or schedules a draft of the caller for a later instant. -/
theorem scheduleDraft_cases (now : Int) (cred : Credential) (postId : Nat)
    (scheduled_for : ScheduledFor) (s : State) :
    ((scheduleDraft now cred postId scheduled_for s).2 = s ∧
      (scheduleDraft now cred postId scheduled_for s).1.status ≠ 200) ∨
    ∃ uid row t, authRequired cred = .ok uid ∧ findPost s.posts postId = some row ∧
      row.author_id = uid ∧ row.status = .draft ∧ scheduled_for = .instant t ∧ now < t ∧
      scheduleDraft now cred postId scheduled_for s =
        (⟨200, rowBody (findPost (updateWhere s.posts postId (scheduleRow now t)) postId)⟩,
          { s with posts := updateWhere s.posts postId (scheduleRow now t) }) := by
  cases ha : authRequired cred with
  | error r =>
    left
    rcases authRequired_error_status ha with h | h <;> simp [scheduleDraft, ha, h]
  | ok uid =>
    cases ho : authorOwnsPost uid postId s with
    | error r =>
      left
      rcases authorOwnsPost_error_status ho with h | h <;> simp [scheduleDraft, ha, ho, h]
    | ok u =>
      obtain ⟨row, hfind, hown⟩ := authorOwnsPost_ok_iff.1 ho
      cases scheduled_for with
      | rejected => left; simp [scheduleDraft, ha, ho]
      | invalidDate =>
        left
        by_cases hd : row.status = .draft
        · simp [scheduleDraft, ha, ho, hfind, hd, internalError]
        · simp [scheduleDraft, ha, ho, hfind, hd]
      | instant t =>
        by_cases ht : t ≤ now
        · left; simp [scheduleDraft, ha, ho, ht]
        · by_cases hd : row.status = .draft
          · right
            refine ⟨uid, row, t, rfl, hfind, hown, hd, rfl, not_le.1 ht, ?_⟩
            simp [scheduleDraft, ha, ho, hfind, hd, ht]
          · left
            simp [scheduleDraft, ha, ho, hfind, hd, ht]

/-- Every run of `DELETE /posts/:id` either leaves the state untouched with an error
answer, or removes the rows of that id and their revisions. -/
theorem deletePost_cases (up : Bool) (cred : Credential) (seg : String) (postId : Nat)
    (s : State) :
    ((deletePost up cred seg postId s).2 = s ∧ (deletePost up cred seg postId s).1.status ≠ 204) ∨
    ∃ uid row, authRequired cred = .ok uid ∧ findPost s.posts postId = some row ∧
      row.author_id = uid ∧
      deletePost up cred seg postId s =
        (⟨204, .empty⟩,
          { s with
            posts := s.posts.filter (fun p => decide (p.id ≠ postId))
            revisions := cascadeRevisions s.revisions postId
            cache :=
              if row.status = .published then
                invalidatePublishedList up (invalidatePublishedPost up seg s.cache)
              else s.cache }) := by
  cases ha : authRequired cred with
  | error r =>
    left
    rcases authRequired_error_status ha with h | h <;> simp [deletePost, ha, h]
  | ok uid =>
    cases ho : authorOwnsPost uid postId s with
    | error r =>
      left
      rcases authorOwnsPost_error_status ho with h | h <;> simp [deletePost, ha, ho, h]
    | ok u =>
      obtain ⟨row, hfind, hown⟩ := authorOwnsPost_ok_iff.1 ho
      right
      exact ⟨uid, row, rfl, hfind, hown, by simp [deletePost, ha, ho, hfind]⟩

/-- Every terminating run of `POST /posts` either leaves the state untouched with an
error answer, or appends one draft row carrying the next id of the sequence. -/
theorem createDraft_cases (slugify : String → String) (sch : Schema) (now : Int)
    (cred : Credential) (title : String) (content : Option String) (s : State)
    (r : Response) (s2 : State)
    (h : createDraft slugify sch now cred title content s = some (r, s2)) :
    (s2 = s ∧ r.status ≠ 201) ∨
    ∃ uid slug, authRequired cred = .ok uid ∧ titleInvalid (trim title) = false ∧
      generateUniqueSlug slugify s.posts (trim title) = some slug ∧
      r = ⟨201, .row (newDraft s.nextPostId (trim title) slug ((content.map trim).getD "")
            uid now)⟩ ∧
      s2 = { s with
             posts := s.posts ++
               [newDraft s.nextPostId (trim title) slug ((content.map trim).getD "") uid now]
             nextPostId := s.nextPostId + 1 } := by
  cases ha : authRequired cred with
  | error e =>
    left
    simp only [createDraft, ha, Option.some.injEq, Prod.mk.injEq] at h
    obtain ⟨rfl, rfl⟩ := h
    rcases authRequired_error_status ha with h | h <;> simp [h]
  | ok uid =>
    by_cases hv : titleInvalid (trim title) = true
    · left
      simp only [createDraft, ha, hv, if_true, Option.some.injEq, Prod.mk.injEq] at h
      obtain ⟨rfl, rfl⟩ := h
      simp
    · cases hg : generateUniqueSlug slugify s.posts (trim title) with
      | none => simp [createDraft, ha, hv, hg] at h
      | some slug =>
        by_cases hu : (sch.slugUnique && slugTaken s.posts slug) = true
        · left
          simp only [createDraft, ha, hv, hg, hu, if_true, Option.some.injEq,
            Prod.mk.injEq] at h
          obtain ⟨rfl, rfl⟩ := h
          simp [internalError]
        · right
          simp only [createDraft, ha, hv, hg, hu, Option.some.injEq, Prod.mk.injEq] at h
          obtain ⟨rfl, rfl⟩ := h
          exact ⟨uid, slug, rfl, by simpa using hv, rfl, rfl, rfl⟩

/-! ## The worker cycle as one pass over the table -/

theorem isDue_iff (now : Int) (p : Post) :
    isDue now p = true ↔ p.status = .scheduled ∧ ∃ t, p.scheduled_for = some t ∧ t ≤ now := by
  unfold isDue
  cases h : p.scheduled_for <;> simp

theorem isDue_markPublished (now t : Int) (p : Post) : isDue t (markPublished now p) = false := by
  simp [isDue, markPublished]

theorem claimUpdate_snd_of_fst_nil {now : Int} {id : Nat} {posts : List Post}
    (h : (claimUpdate now id posts).1 = []) : (claimUpdate now id posts).2 = posts := by
  simp only [claimUpdate, List.map_eq_nil_iff, List.filter_eq_nil_iff] at h
  simp only [claimUpdate]
  conv_rhs => rw [← List.map_id posts]
  apply List.map_congr_left
  intro p hp
  simp [h p hp]

/-- One fault-free iteration of the loop leaves the table `(claimUpdate now id posts).2`,
whether the UPDATE returned a row (COMMIT) or not (ROLLBACK). -/
theorem processRows_cons_noFault (now : Int) (up : Bool) (id : Nat) (rest : List Nat) (s : State) :
    ∃ c, processRows noFault now up (id :: rest) s =
      processRows noFault now up rest { s with posts := (claimUpdate now id s.posts).2, cache := c } := by
  by_cases h : (claimUpdate now id s.posts).1 = []
  · refine ⟨s.cache, ?_⟩
    rw [claimUpdate_snd_of_fst_nil h]
    simp [processRows, noFault, h]
  · exact ⟨invalidatePublishedPost up (toString id) (invalidatePublishedList up s.cache),
      by simp [processRows, noFault, h]⟩

theorem processRows_noFault (now : Int) (up : Bool) :
    ∀ (ids : List Nat) (s : State),
      (processRows noFault now up ids s).1 = false ∧
      (processRows noFault now up ids s).2.posts =
        s.posts.map (fun p =>
          if decide (p.id ∈ ids) && isDue now p then markPublished now p else p) ∧
      (processRows noFault now up ids s).2.revisions = s.revisions ∧
      (processRows noFault now up ids s).2.nextPostId = s.nextPostId ∧
      (processRows noFault now up ids s).2.nextRevisionId = s.nextRevisionId := by
  intro ids
  induction ids with
  | nil => intro s; simp [processRows]
  | cons id rest ih =>
    intro s
    obtain ⟨c, hc⟩ := processRows_cons_noFault now up id rest s
    rw [hc]
    obtain ⟨h1, h2, h3, h4, h5⟩ := ih { s with posts := (claimUpdate now id s.posts).2, cache := c }
    refine ⟨h1, ?_, h3, h4, h5⟩
    rw [h2]
    simp only [claimUpdate, List.map_map]
    apply List.map_congr_left
    intro p _
    by_cases hd : isDue now p = true
    · by_cases hid : p.id = id
      · simp [hd, hid, isDue_markPublished]
      · simp [hd, hid]
    · simp [hd]

/-- A fault-free cycle publishes, in place, exactly the rows that are due. -/
theorem processScheduledPublish_noFault (now : Int) (up : Bool) (s : State) :
    (processScheduledPublish noFault now up s).1 = false ∧
    (processScheduledPublish noFault now up s).2.posts =
      s.posts.map (fun p => if isDue now p then markPublished now p else p) ∧
    (processScheduledPublish noFault now up s).2.revisions = s.revisions := by
  obtain ⟨h1, h2, h3, _, _⟩ := processRows_noFault now up (selectDue now s.posts) s
  refine ⟨h1, ?_, h3⟩
  unfold processScheduledPublish
  rw [h2]
  apply List.map_congr_left
  intro p hp
  by_cases hd : isDue now p = true
  · have : p.id ∈ selectDue now s.posts := by
      simp only [selectDue, List.mem_map, List.mem_filter]
      exact ⟨p, ⟨hp, hd⟩, rfl⟩
    simp [hd, this]
  · simp [hd]


/-! ## Claims on the scheduled-publish worker -/

/-- C9. A cycle run at `now` in which no statement throws returns normally and, row by
row, turns every row that had status scheduled and `scheduled_for ≤ now` into a published
row with `published_at = now`, keeping its id, `scheduled_for`, title, content, slug,
owner and creation time, and leaves every other row exactly as it was. -/
theorem processScheduledPublish_publishes_exactly_due (now : Int) (up : Bool) (s : State) :
    (processScheduledPublish noFault now up s).1 = false ∧
    List.Forall₂
      (fun p q =>
        ((p.status = .scheduled ∧ ∃ t, p.scheduled_for = some t ∧ t ≤ now) →
          q.status = .published ∧ q.published_at = some now ∧
          q.scheduled_for = p.scheduled_for ∧ q.title = p.title ∧ q.content = p.content ∧
          q.slug = p.slug ∧ q.author_id = p.author_id ∧ q.id = p.id ∧
          q.created_at = p.created_at) ∧
        (¬ (p.status = .scheduled ∧ ∃ t, p.scheduled_for = some t ∧ t ≤ now) → q = p))
      s.posts (processScheduledPublish noFault now up s).2.posts := by
  obtain ⟨h1, h2, _⟩ := processScheduledPublish_noFault now up s
  refine ⟨h1, ?_⟩
  rw [h2, List.forall₂_map_right_iff, List.forall₂_same]
  intro p _
  by_cases hd : isDue now p = true
  · have hd2 := (isDue_iff now p).1 hd
    simp [hd, hd2, markPublished]
  · have hd2 : ¬ (p.status = .scheduled ∧ ∃ t, p.scheduled_for = some t ∧ t ≤ now) :=
      fun h => hd ((isDue_iff now p).2 h)
    simp only [hd]
    exact ⟨fun h => absurd h hd2, fun _ => rfl⟩

/-- C2. Two fault-free cycles in succession, at `now1` then at any `now2`: the second
returns normally, and every row the first cycle published (it was due at `now1`) is,
after the second cycle, exactly the row the first one left, published with
`published_at = now1`. In a table keyed by id the second cycle does not select that row
and its conditional UPDATE for that id returns no row. -/
theorem processScheduledPublish_idempotent (now1 now2 : Int) (up1 up2 : Bool) (s : State)
    (hk : (s.posts.map (·.id)).Nodup) :
    (processScheduledPublish noFault now2 up2
      (processScheduledPublish noFault now1 up1 s).2).1 = false ∧
    ∀ (i : Nat) (p : Post), s.posts[i]? = some p → isDue now1 p = true →
      ∃ q, (processScheduledPublish noFault now1 up1 s).2.posts[i]? = some q ∧
        (processScheduledPublish noFault now2 up2
          (processScheduledPublish noFault now1 up1 s).2).2.posts[i]? = some q ∧
        q.id = p.id ∧ q.status = .published ∧ q.published_at = some now1 ∧
        p.id ∉ selectDue now2 (processScheduledPublish noFault now1 up1 s).2.posts ∧
        (claimUpdate now2 p.id (processScheduledPublish noFault now1 up1 s).2.posts).1 = [] := by
  obtain ⟨_, h1, _⟩ := processScheduledPublish_noFault now1 up1 s
  obtain ⟨e2, h2, _⟩ :=
    processScheduledPublish_noFault now2 up2 (processScheduledPublish noFault now1 up1 s).2
  refine ⟨e2, ?_⟩
  intro i p hi hd
  have hp : p ∈ s.posts := by
    obtain ⟨hlt, rfl⟩ := List.getElem?_eq_some_iff.1 hi
    exact List.getElem_mem hlt
  have hrow : ∀ q ∈ (processScheduledPublish noFault now1 up1 s).2.posts,
      q.id = p.id → isDue now2 q = false := by
    intro q hq hid
    rw [h1, List.mem_map] at hq
    obtain ⟨p', hp', rfl⟩ := hq
    have hid' : p'.id = p.id := by
      by_cases hd' : isDue now1 p' = true
      · simpa [hd', markPublished] using hid
      · simpa [hd'] using hid
    have : p' = p := List.inj_on_of_nodup_map hk hp' hp hid'
    subst this
    simp [hd, isDue_markPublished]
  refine ⟨markPublished now1 p, ?_, ?_, rfl, rfl, rfl, ?_, ?_⟩
  · rw [h1, List.getElem?_map, hi]; simp [hd]
  · rw [h2, List.getElem?_map, h1, List.getElem?_map, hi]
    simp [hd, isDue_markPublished]
  · simp only [selectDue, List.mem_map, List.mem_filter, not_exists, not_and]
    rintro q ⟨hq, hdq⟩ hid
    rw [hrow q hq hid] at hdq
    exact Bool.noConfusion hdq
  · simp only [claimUpdate, List.map_eq_nil_iff, List.filter_eq_nil_iff]
    intro q hq
    by_cases hid : q.id = p.id
    · simp [hrow q hq hid]
    · simp [hid]


/-- On `demoStore`, post 2 is due at 300: cycles at 300 and at 400. -/
theorem processScheduledPublish_idempotent_witness :
    (demoStore.posts.map (·.id)).Nodup ∧
    (processScheduledPublish noFault 400 true
      (processScheduledPublish noFault 300 true demoStore).2).1 = false ∧
    ∀ (i : Nat) (p : Post), demoStore.posts[i]? = some p → isDue 300 p = true →
      ∃ q, (processScheduledPublish noFault 300 true demoStore).2.posts[i]? = some q ∧
        (processScheduledPublish noFault 400 true
          (processScheduledPublish noFault 300 true demoStore).2).2.posts[i]? = some q ∧
        q.id = p.id ∧ q.status = .published ∧ q.published_at = some 300 ∧
        p.id ∉ selectDue 400 (processScheduledPublish noFault 300 true demoStore).2.posts ∧
        (claimUpdate 400 p.id (processScheduledPublish noFault 300 true demoStore).2.posts).1 =
          [] :=
  ⟨by decide, processScheduledPublish_idempotent 300 400 true true demoStore (by decide)⟩

/-! ## Claims on the state transitions of the write API -/

/-- C3. For the owner of a row whose status is scheduled or published, `publishDraft`
answers 400 and `scheduleDraft` with a timestamp later than `now` answers 400, and both
leave the whole state (posts, revisions, cache) unchanged. The same holds of
`scheduleDraft` when the validated date is one `new Date` cannot parse: the status check
comes before the UPDATE. -/
theorem publish_and_schedule_reject_non_draft (now : Int) (up : Bool) (uid postId : Nat)
    (s : State) (p : Post) (t : Int)
    (hfind : findPost s.posts postId = some p) (hown : p.author_id = uid)
    (hst : p.status = .scheduled ∨ p.status = .published) (ht : now < t) :
    publishDraft now up (.token uid "author") postId s =
      (⟨400, .error "Only draft posts can be published immediately"⟩, s) ∧
    scheduleDraft now (.token uid "author") postId (.instant t) s =
      (⟨400, .error "Only draft posts can be scheduled"⟩, s) ∧
    scheduleDraft now (.token uid "author") postId .invalidDate s =
      (⟨400, .error "Only draft posts can be scheduled"⟩, s) := by
  have hnd : p.status ≠ .draft := by
    rcases hst with h | h <;> simp [h]
  have hnt : ¬ t ≤ now := not_le.2 ht
  refine ⟨?_, ?_, ?_⟩
  · simp [publishDraft, authorOwnsPost_ok hfind hown, hfind, hnd]
  · simp [scheduleDraft, authorOwnsPost_ok hfind hown, hfind, hnd, hnt]
  · simp [scheduleDraft, authorOwnsPost_ok hfind hown, hfind, hnd]

/-- Publishing the published post 3 of `demoStore` again, or scheduling it, is rejected. -/
theorem publish_and_schedule_reject_non_draft_witness :
    publishDraft 100 true (.token 1 "author") 3 demoStore =
      (⟨400, .error "Only draft posts can be published immediately"⟩, demoStore) ∧
    scheduleDraft 100 (.token 1 "author") 3 (.instant 500) demoStore =
      (⟨400, .error "Only draft posts can be scheduled"⟩, demoStore) ∧
    scheduleDraft 100 (.token 1 "author") 3 .invalidDate demoStore =
      (⟨400, .error "Only draft posts can be scheduled"⟩, demoStore) :=
  publish_and_schedule_reject_non_draft 100 true 1 3 demoStore
    { id := 3, title := "Gamma", slug := "gamma", content := "c", status := .published,
      author_id := 1, scheduled_for := none, published_at := some 50,
      created_at := 30, updated_at := 50 } 500
    (by decide) (by decide) (by decide) (by decide)

/-- C4, as stated, fails: a caller who does not own the post is answered 403 by
`authorOwnsPost`, which runs before the timestamp is looked at. -/
theorem scheduleDraft_past_not_always_400 :
    ¬ ∀ (now t : Int) (cred : Credential) (postId : Nat) (s : State) (p : Post),
        findPost s.posts postId = some p → t ≤ now →
        (scheduleDraft now cred postId (.instant t) s).1.status = 400 ∧
        (scheduleDraft now cred postId (.instant t) s).2 = s := by
  intro h
  have h1 := (h 100 5 (.token 2 "author") 1 demoStore
    { id := 1, title := "Alpha", slug := "alpha", content := "a", status := .draft,
      author_id := 1, scheduled_for := none, published_at := none,
      created_at := 10, updated_at := 10 } (by decide) (by decide)).1
  revert h1
  decide

/-- C4, amended. A schedule request whose timestamp is not later than `now` never changes
the state, whoever sends it and whatever the status of the post. The owner is answered
400 with the future-date error; an author who does not own the post is answered 403; in
every case the answer is one of 400, 401, 403, 404. -/
theorem scheduleDraft_not_future_rejected (now t : Int) (ht : t ≤ now) (cred : Credential)
    (postId : Nat) (s : State) :
    (scheduleDraft now cred postId (.instant t) s).2 = s ∧
    (∀ uid p, cred = .token uid "author" → findPost s.posts postId = some p →
      p.author_id = uid →
      (scheduleDraft now cred postId (.instant t) s).1 =
        ⟨400, .error "scheduled_for must be a future date and time"⟩) ∧
    (∀ uid p, cred = .token uid "author" → findPost s.posts postId = some p →
      p.author_id ≠ uid → (scheduleDraft now cred postId (.instant t) s).1.status = 403) ∧
    (scheduleDraft now cred postId (.instant t) s).1.status ∈ [400, 401, 403, 404] := by
  refine ⟨?_, ?_, ?_, ?_⟩
  · cases ha : authRequired cred with
    | error r => simp [scheduleDraft, ha]
    | ok uid =>
      cases ho : authorOwnsPost uid postId s with
      | error r => simp [scheduleDraft, ha, ho]
      | ok u => simp [scheduleDraft, ha, ho, ht]
  · rintro uid p rfl hfind hown
    simp [scheduleDraft, authorOwnsPost_ok hfind hown, ht]
  · rintro uid p rfl hfind hown
    simp [scheduleDraft, authorOwnsPost, hfind, hown]
  · unfold scheduleDraft
    cases cred with
    | missing => simp [authRequired]
    | invalid => simp [authRequired]
    | token uid role =>
      by_cases hr : role = "author"
      · subst hr
        simp only [authRequired_author]
        unfold authorOwnsPost
        cases hfind : findPost s.posts postId with
        | none => simp
        | some p =>
          by_cases hown : p.author_id = uid <;> simp [hown, ht]
      · simp [authRequired, hr]

/-- The owner of draft 1 of `demoStore` scheduling it for the present instant gets 400. -/
theorem scheduleDraft_not_future_rejected_witness :
    (100 : Int) ≤ 100 ∧
    (scheduleDraft 100 (.token 1 "author") 1 (.instant 100) demoStore).2 = demoStore ∧
    (scheduleDraft 100 (.token 1 "author") 1 (.instant 100) demoStore).1.status ∈
      [400, 401, 403, 404] :=
  ⟨by decide,
   (scheduleDraft_not_future_rejected 100 100 (by decide) (.token 1 "author") 1 demoStore).1,
   (scheduleDraft_not_future_rejected 100 100 (by decide) (.token 1 "author") 1 demoStore).2.2.2⟩

/-! ## Claims on revisions -/

/-- C5. Whenever `updateItem` leaves the row of `postId` with a title or a content that
differs from the one it had, the revisions afterwards are the revisions before followed
by exactly one new row: for that post, carrying the title and content the row had before
the update, authored by the caller. -/
theorem updateItem_records_one_revision (slugify : String → String) (sch : Schema) (now : Int)
    (up : Bool) (uid : Nat) (role : String) (seg : String) (postId : Nat)
    (title content : Option String) (s : State) (p q : Post)
    (hfind : findPost s.posts postId = some p)
    (hafter : findPost
      (updateItem slugify sch now up (.token uid role) seg postId title content s).2.posts postId =
        some q)
    (hchg : q.title ≠ p.title ∨ q.content ≠ p.content) :
    (updateItem slugify sch now up (.token uid role) seg postId title content s).2.revisions =
      s.revisions ++
        [{ revision_id := s.nextRevisionId, post_id := postId, title_snapshot := p.title,
           content_snapshot := p.content, revision_author_id := uid,
           revision_timestamp := now }] := by
  rcases updateItem_cases slugify sch now up (.token uid role) seg postId title content s with
    h | ⟨uid2, prev, ha, hprev, _, _, heq⟩
  · rw [h.1, hfind] at hafter
    cases hafter
    rcases hchg with h | h <;> exact absurd rfl h
  · rw [hfind] at hprev
    cases hprev
    have hu : uid2 = uid := by
      by_cases hr : role = "author"
      · simpa [authRequired, hr] using ha.symm
      · simp [authRequired, hr] at ha
    subst hu
    rw [heq]
    rfl

/-- Author 1 retitles draft 1 of `demoStore`: one revision holding the old title. -/
theorem updateItem_records_one_revision_witness :
    (updateItem slugifyAscii ⟨true⟩ 100 true (.token 1 "author") "1" 1 (some "Omega") none
      demoStore).2.revisions =
      demoStore.revisions ++
        [{ revision_id := 1, post_id := 1, title_snapshot := "Alpha",
           content_snapshot := "a", revision_author_id := 1, revision_timestamp := 100 }] :=
  updateItem_records_one_revision slugifyAscii ⟨true⟩ 100 true 1 "author" "1" 1 (some "Omega")
    none demoStore
    { id := 1, title := "Alpha", slug := "alpha", content := "a", status := .draft,
      author_id := 1, scheduled_for := none, published_at := none,
      created_at := 10, updated_at := 10 }
    { id := 1, title := "Omega", slug := "omega", content := "a", status := .draft,
      author_id := 1, scheduled_for := none, published_at := none,
      created_at := 10, updated_at := 100 }
    (by decide) (by decide) (by decide)


/-! ## The lifecycle invariant over reachable states -/

theorem PostsInv.map {n : Nat} {posts : List Post} (g : Post → Post)
    (hid : ∀ p ∈ posts, (g p).id = p.id) (hrow : ∀ p ∈ posts, RowInv p → RowInv (g p))
    (h : PostsInv n posts) : PostsInv n (posts.map g) := by
  obtain ⟨h1, h2, h3⟩ := h
  refine ⟨?_, ?_, ?_⟩
  · have : (posts.map g).map (·.id) = posts.map (·.id) := by
      rw [List.map_map]
      exact List.map_congr_left (fun p hp => hid p hp)
    rw [this]; exact h1
  · intro q hq
    obtain ⟨p, hp, rfl⟩ := List.mem_map.1 hq
    rw [hid p hp]; exact h2 p hp
  · intro q hq
    obtain ⟨p, hp, rfl⟩ := List.mem_map.1 hq
    exact hrow p hp (h3 p hp)

theorem PostsInv.filter {n : Nat} {posts : List Post} (f : Post → Bool)
    (h : PostsInv n posts) : PostsInv n (posts.filter f) := by
  obtain ⟨h1, h2, h3⟩ := h
  refine ⟨?_, ?_, ?_⟩
  · exact List.Nodup.sublist (List.Sublist.map _ (List.filter_sublist posts)) h1
  · intro q hq; exact h2 q (List.mem_of_mem_filter hq)
  · intro q hq; exact h3 q (List.mem_of_mem_filter hq)

theorem PostsInv.append_new {n : Nat} {posts : List Post} (row : Post) (hid : row.id = n)
    (hrow : RowInv row) (h : PostsInv n posts) : PostsInv (n + 1) (posts ++ [row]) := by
  obtain ⟨h1, h2, h3⟩ := h
  refine ⟨?_, ?_, ?_⟩
  · rw [List.map_append, List.nodup_append]
    refine ⟨h1, by simp, ?_⟩
    intro a ha hb
    simp only [List.map_cons, List.map_nil, List.mem_singleton] at hb
    obtain ⟨p, hp, rfl⟩ := List.mem_map.1 ha
    have := h2 p hp
    omega
  · intro q hq
    rcases List.mem_append.1 hq with hq | hq
    · have := h2 q hq; omega
    · simp only [List.mem_singleton] at hq; subst hq; omega
  · intro q hq
    rcases List.mem_append.1 hq with hq | hq
    · exact h3 q hq
    · simp only [List.mem_singleton] at hq; subst hq; exact hrow

theorem RowInv_newDraft (id : Nat) (title slug content : String) (authorId : Nat) (now : Int) :
    RowInv (newDraft id title slug content authorId now) := by
  simp [RowInv, newDraft]

theorem RowInv_editRow (a b : String) (c : Option String) (now : Int) (p : Post)
    (h : RowInv p) : RowInv (editRow a b c now p) := by
  simpa [RowInv] using h

theorem RowInv_publishRow (now : Int) (p : Post) : RowInv (publishRow now p) := by
  simp [RowInv, publishRow]

theorem RowInv_markPublished (now : Int) (p : Post) : RowInv (markPublished now p) := by
  simp [RowInv, markPublished]

theorem RowInv_scheduleRow (now t : Int) (p : Post) (h : RowInv p) (hd : p.status = .draft) :
    RowInv (scheduleRow now t p) := by
  obtain ⟨h1, _, _⟩ := h
  rw [hd] at h1
  simp [RowInv, scheduleRow]
  simpa using h1

theorem PostsInv_updateWhere {n : Nat} {posts : List Post} (id : Nat) (set : Post → Post)
    (hid : ∀ p, (set p).id = p.id)
    (hrow : ∀ p ∈ posts, p.id = id → RowInv p → RowInv (set p))
    (h : PostsInv n posts) : PostsInv n (updateWhere posts id set) := by
  unfold updateWhere
  apply PostsInv.map _ _ _ h
  · intro p _; split <;> simp [hid]
  · intro p hp hr
    by_cases hp2 : p.id = id
    · simpa [hp2] using hrow p hp hp2 hr
    · simpa [hp2] using hr

theorem PostsInv_claimUpdate {n : Nat} {posts : List Post} (now : Int) (id : Nat)
    (h : PostsInv n posts) : PostsInv n (claimUpdate now id posts).2 := by
  unfold claimUpdate
  apply PostsInv.map _ _ _ h
  · intro p _; split <;> simp [markPublished]
  · intro p _ hr
    split
    · exact RowInv_markPublished now p
    · exact hr

/-- Whatever holds before the loop and is kept by one committed claim holds after the
loop, for every fault pattern. -/
theorem processRows_induction (fault : Nat → Option TxStep) (now : Int) (up : Bool)
    (P : State → Prop)
    (hstep : ∀ id s, P s →
      P { s with posts := (claimUpdate now id s.posts).2
                 cache := invalidatePublishedPost up (toString id) (invalidatePublishedList up s.cache) }) :
    ∀ (ids : List Nat) (s : State), P s → P (processRows fault now up ids s).2 := by
  intro ids
  induction ids with
  | nil => intro s hs; simpa [processRows] using hs
  | cons id rest ih =>
    intro s hs
    unfold processRows
    cases hf : fault id with
    | none =>
      simp only
      split
      · exact ih _ (hstep id s hs)
      · exact ih _ hs
    | some step =>
      cases step with
      | begin => simpa using hs
      | update => simpa using ih s hs
      | commit => simpa using ih s hs

/-- Every reachable state satisfies the table invariant. -/
theorem Reachable.postsInv {slugify : String → String} {sch : Schema} {s : State}
    (h : Reachable slugify sch s) : PostsInv s.nextPostId s.posts := by
  induction h with
  | empty => exact ⟨by simp [State.empty], by simp [State.empty], by simp [State.empty]⟩
  | create now cred title content _ hc ih =>
    rcases createDraft_cases _ _ _ _ _ _ _ _ _ hc with ⟨rfl, _⟩ | ⟨uid, slug, _, _, _, _, rfl⟩
    · exact ih
    · exact PostsInv.append_new _ rfl (RowInv_newDraft _ _ _ _ _ _) ih
  | update now up cred seg postId title content _ ih =>
    rcases updateItem_cases slugify sch now up cred seg postId title content _ with
      ⟨h, _⟩ | ⟨uid, prev, _, _, _, _, heq⟩
    · rw [h]; exact ih
    · rw [heq]
      exact PostsInv_updateWhere _ _ (by simp) (fun p _ _ hr => RowInv_editRow _ _ _ _ _ hr) ih
  | delete up cred seg postId _ ih =>
    rcases deletePost_cases up cred seg postId _ with ⟨h, _⟩ | ⟨uid, row, _, _, _, heq⟩
    · rw [h]; exact ih
    · rw [heq]; exact PostsInv.filter _ ih
  | publish now up cred postId _ ih =>
    rcases publishDraft_cases now up cred postId _ with ⟨h, _⟩ | ⟨uid, row, _, _, _, _, heq⟩
    · rw [h]; exact ih
    · rw [heq]
      exact PostsInv_updateWhere _ _ (fun _ => rfl) (fun p _ _ _ => RowInv_publishRow _ _) ih
  | schedule now cred postId scheduled_for _ ih =>
    rcases scheduleDraft_cases now cred postId scheduled_for _ with
      ⟨h, _⟩ | ⟨uid, row, t, _, hfind, _, hd, _, _, heq⟩
    · rw [h]; exact ih
    · rw [heq]
      refine PostsInv_updateWhere _ _ (fun _ => rfl) ?_ ih
      intro p hp hid hr
      have : findPost _ p.id = some p := findPost_of_mem ih.1 hp
      rw [hid, hfind] at this
      cases this
      exact RowInv_scheduleRow _ _ _ hr hd
  | worker fault now up _ ih =>
    exact processRows_induction fault now up (fun s => PostsInv s.nextPostId s.posts)
      (fun id s hs => PostsInv_claimUpdate now id hs) _ _ ih
  | read now up seg id _ ih =>
    unfold getPublished
    split
    · exact ih
    · split
      · exact ih
      · exact ih
  | list now up page limit _ ih =>
    unfold listPublished
    split
    · exact ih
    · split
      · exact ih
      · split
        · exact ih
        · split
          · exact ih
          · split
            · exact ih
            · exact ih

theorem reachable_workerDemo : Reachable slugifyAscii ⟨true⟩ workerDemo :=
  Reachable.worker noFault 300 true
    (Reachable.schedule 80 (.token 1 "author") 1 (.instant 200)
      (Reachable.create 10 (.token 1 "author") "Hello" none Reachable.empty
        (show createDraft slugifyAscii ⟨true⟩ 10 (.token 1 "author") "Hello" none State.empty =
            some (⟨201, .row (newDraft 1 "Hello" "hello" "" 1 10)⟩,
              { posts := [newDraft 1 "Hello" "hello" "" 1 10], revisions := [],
                nextPostId := 2, nextRevisionId := 1, cache := { posts := [], lists := [] } })
          by decide)))

/-- C7. In every state reachable from the empty store through createDraft, updateItem,
delete, publishDraft, scheduleDraft, worker cycles (faulty or not) and public reads,
`published_at` of a row is non-null if and only if its status is published. -/
theorem reachable_publishedAt_iff_published (slugify : String → String) (sch : Schema)
    (s : State) (h : Reachable slugify sch s) :
    ∀ p ∈ s.posts, (p.published_at ≠ none ↔ p.status = .published) :=
  fun p hp => (h.postsInv.2.2 p hp).1

/-- The invariant of C7 on the store left by create, schedule and a worker cycle. -/
theorem reachable_publishedAt_iff_published_witness :
    Reachable slugifyAscii ⟨true⟩ workerDemo ∧
    ∀ p ∈ workerDemo.posts, (p.published_at ≠ none ↔ p.status = .published) :=
  ⟨reachable_workerDemo,
   reachable_publishedAt_iff_published slugifyAscii ⟨true⟩ workerDemo reachable_workerDemo⟩

/-- C8, as stated, fails: the row the worker published in `workerDemo` is published and
still carries the `scheduled_for` it was scheduled with. -/
theorem reachable_scheduledFor_not_iff_scheduled :
    ¬ ∀ s : State, Reachable slugifyAscii ⟨true⟩ s →
        ∀ p ∈ s.posts, (p.scheduled_for ≠ none ↔ p.status = .scheduled) := by
  intro h
  have h1 := h workerDemo reachable_workerDemo
    { id := 1, title := "Hello", slug := "hello", content := "", status := .published,
      author_id := 1, scheduled_for := some 200, published_at := some 300,
      created_at := 10, updated_at := 300 } (by decide)
  revert h1
  decide

/-- C8, amended. In every reachable state a scheduled row has a non-null `scheduled_for`
and a row with a non-null `scheduled_for` is scheduled or published (a draft has none). -/
theorem reachable_scheduledFor_of_status (slugify : String → String) (sch : Schema)
    (s : State) (h : Reachable slugify sch s) :
    ∀ p ∈ s.posts, (p.status = .scheduled → p.scheduled_for ≠ none) ∧
      (p.scheduled_for ≠ none → p.status = .scheduled ∨ p.status = .published) := by
  intro p hp
  obtain ⟨_, h2, h3⟩ := h.postsInv.2.2 p hp
  refine ⟨h2, fun hne => ?_⟩
  cases hs : p.status with
  | draft => exact absurd (h3 hs) hne
  | scheduled => exact Or.inl rfl
  | published => exact Or.inr rfl

/-- The amended invariant of C8 on the store left by create, schedule and a worker cycle. -/
theorem reachable_scheduledFor_of_status_witness :
    Reachable slugifyAscii ⟨true⟩ workerDemo ∧
    ∀ p ∈ workerDemo.posts, (p.status = .scheduled → p.scheduled_for ≠ none) ∧
      (p.scheduled_for ≠ none → p.status = .scheduled ∨ p.status = .published) :=
  ⟨reachable_workerDemo,
   reachable_scheduledFor_of_status slugifyAscii ⟨true⟩ workerDemo reachable_workerDemo⟩


/-! ## Published is terminal -/

theorem IsPublished_updateWhere {posts : List Post} {id postId : Nat} {set : Post → Post}
    (hid : ∀ p, (set p).id = p.id) (h : IsPublished posts id)
    (hset : ∀ q, findPost posts id = some q → q.id = postId → (set q).status = .published) :
    IsPublished (updateWhere posts postId set) id := by
  obtain ⟨q, hq, hs⟩ := h
  rw [IsPublished, findPost_updateWhere _ _ _ _ hid, hq]
  by_cases hq2 : q.id = postId
  · exact ⟨set q, by simp [hq2], hset q hq hq2⟩
  · exact ⟨q, by simp [hq2], hs⟩

theorem IsPublished_claimUpdate {posts : List Post} {id : Nat} (now : Int) (i : Nat)
    (h : IsPublished posts id) : IsPublished (claimUpdate now i posts).2 id := by
  obtain ⟨q, hq, hs⟩ := h
  have hnd : isDue now q = false := by simp [isDue, hs]
  refine ⟨q, ?_, hs⟩
  unfold claimUpdate
  rw [findPost_map _ _ _ (by intro p; split <;> simp [markPublished]), hq]
  simp [hnd]

theorem IsPublished_append {posts : List Post} {id : Nat} (row : Post)
    (h : IsPublished posts id) : IsPublished (posts ++ [row]) id := by
  obtain ⟨q, hq, hs⟩ := h
  refine ⟨q, ?_, hs⟩
  unfold findPost at *
  rw [List.find?_append, hq]
  rfl

/-- C10. If the store holds a published row for `id`, it still holds a published row
for `id` after any updateItem, publishDraft, scheduleDraft (by any caller, on any post,
with any arguments, answered with success or with an error), after any worker cycle
(with any fault) and after any createDraft. -/
theorem published_is_terminal (slugify : String → String) (sch : Schema) (s : State) (id : Nat)
    (h : IsPublished s.posts id) :
    (∀ now up cred seg postId title content,
      IsPublished (updateItem slugify sch now up cred seg postId title content s).2.posts id) ∧
    (∀ now up cred postId, IsPublished (publishDraft now up cred postId s).2.posts id) ∧
    (∀ now cred postId scheduled_for,
      IsPublished (scheduleDraft now cred postId scheduled_for s).2.posts id) ∧
    (∀ fault now up, IsPublished (processScheduledPublish fault now up s).2.posts id) ∧
    (∀ now cred title content r s2,
      createDraft slugify sch now cred title content s = some (r, s2) →
      IsPublished s2.posts id) := by
  refine ⟨?_, ?_, ?_, ?_, ?_⟩
  · intro now up cred seg postId title content
    rcases updateItem_cases slugify sch now up cred seg postId title content s with
      ⟨h1, _⟩ | ⟨uid, prev, _, _, _, _, heq⟩
    · rw [h1]; exact h
    · rw [heq]
      exact IsPublished_updateWhere (by simp) h (fun q hq _ => by
        obtain ⟨q2, hq2, hs⟩ := h
        rw [hq] at hq2; cases hq2
        simpa using hs)
  · intro now up cred postId
    rcases publishDraft_cases now up cred postId s with ⟨h1, _⟩ | ⟨uid, row, _, _, _, _, heq⟩
    · rw [h1]; exact h
    · rw [heq]
      exact IsPublished_updateWhere (fun _ => rfl) h (fun _ _ _ => rfl)
  · intro now cred postId scheduled_for
    rcases scheduleDraft_cases now cred postId scheduled_for s with
      ⟨h1, _⟩ | ⟨uid, row, t, _, hfind, _, hd, _, _, heq⟩
    · rw [h1]; exact h
    · rw [heq]
      refine IsPublished_updateWhere (fun _ => rfl) h (fun q hq hid => ?_)
      obtain ⟨q2, hq2, hs⟩ := h
      rw [hq] at hq2; cases hq2
      have hqid := findPost_id hq
      rw [hid] at hqid
      rw [← hqid, hfind] at hq
      cases hq
      rw [hd] at hs
      cases hs
  · intro fault now up
    exact processRows_induction fault now up (fun s => IsPublished s.posts id)
      (fun i s hs => IsPublished_claimUpdate now i hs) _ _ h
  · intro now cred title content r s2 hc
    rcases createDraft_cases _ _ _ _ _ _ _ _ _ hc with ⟨rfl, _⟩ | ⟨uid, slug, _, _, _, _, rfl⟩
    · exact h
    · exact IsPublished_append _ h

/-- Post 3 of `demoStore` is published and stays so under every operation. -/
theorem published_is_terminal_witness :
    IsPublished demoStore.posts 3 ∧
    (∀ now up cred postId,
      IsPublished (publishDraft now up cred postId demoStore).2.posts 3) ∧
    (∀ now cred postId scheduled_for,
      IsPublished (scheduleDraft now cred postId scheduled_for demoStore).2.posts 3) :=
  ⟨⟨_, rfl, rfl⟩,
   (published_is_terminal slugifyAscii ⟨true⟩ demoStore 3 ⟨_, rfl, rfl⟩).2.1,
   (published_is_terminal slugifyAscii ⟨true⟩ demoStore 3 ⟨_, rfl, rfl⟩).2.2.1⟩

/-! ## Cache coherence on edit -/

theorem findPublished_of_findPost {posts : List Post} {id : Nat} {q : Post}
    (h : findPost posts id = some q) (hs : q.status = .published) :
    posts.find? (fun p => decide (p.id = id) && decide (p.status = .published)) = some q := by
  induction posts with
  | nil => simp [findPost] at h
  | cons a rest ih =>
    rw [findPost_cons] at h
    rw [List.find?_cons]
    by_cases ha : a.id = id
    · simp only [ha, if_true, Option.some.injEq] at h
      subst h
      simp [ha, hs]
    · simp only [ha, if_false] at h
      simpa [ha] using ih h

theorem getCachedPublishedPost_invalidated (up2 : Bool) (now2 : Int) (id : String)
    (c : Cache) :
    getCachedPublishedPost up2 now2 id
      (invalidatePublishedList true (invalidatePublishedPost true id c)) = none := by
  cases up2
  · simp [getCachedPublishedPost, safeRedis]
  · simp only [getCachedPublishedPost, safeRedis, invalidatePublishedList,
      invalidatePublishedPost, redisGetPost, if_true, Option.map_eq_none']
    rw [List.find?_eq_none]
    intro e he
    have := (List.mem_filter.1 he).2
    simp at this
    simp [this]

/-- C6, as stated, fails: when Redis is unreachable while the edit is served,
`safeRedis` swallows the failed invalidation and an entry cached before the edit is
served by the next read (here written at 100, edit at 110, read at 120). -/
theorem getPublished_after_edit_may_be_stale :
    ¬ ∀ (now now2 : Int) (up up2 : Bool) (cred : Credential) (seg : String) (postId : Nat)
        (title content : Option String) (s : State) (p : Post),
        findPost s.posts postId = some p → p.status = .published →
        (title ≠ none ∨ content ≠ none) →
        (updateItem slugifyAscii ⟨true⟩ now up cred seg postId title content s).1.status = 200 →
        ∃ q, findPost
            (updateItem slugifyAscii ⟨true⟩ now up cred seg postId title content s).2.posts postId =
              some q ∧
          (getPublished now2 up2 seg postId
            (updateItem slugifyAscii ⟨true⟩ now up cred seg postId title content s).2).1 =
              ⟨200, .row q⟩ := by
  intro h
  obtain ⟨q, hq1, hq2⟩ := h 110 120 false true (.token 1 "author") "3" 3 (some "Omega") none
    cachedDemo
    { id := 3, title := "Gamma", slug := "gamma", content := "c", status := .published,
      author_id := 1, scheduled_for := none, published_at := some 50,
      created_at := 30, updated_at := 50 }
    (by decide) (by decide) (by decide) (by decide)
  have e1 : findPost (updateItem slugifyAscii ⟨true⟩ 110 false (.token 1 "author") "3" 3
      (some "Omega") none cachedDemo).2.posts 3 =
      some { id := 3, title := "Omega", slug := "omega", content := "c", status := .published,
             author_id := 1, scheduled_for := none, published_at := some 50,
             created_at := 30, updated_at := 110 } := by decide
  rw [e1] at hq1
  cases hq1
  revert hq2
  decide

/-- C6, amended. For a published row, an `updateItem` that supplies a title or a content,
is served while Redis is reachable and is answered 200 leaves a state in which the next
`getPublished` that names the post by the same path text `seg` as the edit did, at any
instant and with Redis reachable or not, answers 200 with the row the store holds, whose
title and content are those of the edit. -/
theorem getPublished_after_edit (slugify : String → String) (sch : Schema) (now now2 : Int)
    (up2 : Bool) (cred : Credential) (seg : String) (postId : Nat)
    (title content : Option String) (s : State) (p : Post)
    (hfind : findPost s.posts postId = some p) (hpub : p.status = .published)
    (hfield : title ≠ none ∨ content ≠ none)
    (hok : (updateItem slugify sch now true cred seg postId title content s).1.status = 200) :
    ∃ q, findPost (updateItem slugify sch now true cred seg postId title content s).2.posts postId =
        some q ∧
      q.title = (title.map trim).getD p.title ∧
      q.content = (content.map trim).getD p.content ∧
      (getPublished now2 up2 seg postId
        (updateItem slugify sch now true cred seg postId title content s).2).1 =
          ⟨200, .row q⟩ := by
  rcases updateItem_cases slugify sch now true cred seg postId title content s with
    ⟨_, h | ⟨h1, h2⟩⟩ | ⟨uid, prev, _, hprev, _, _, heq⟩
  · exact absurd hok h
  · rcases hfield with h | h
    · exact absurd h1 h
    · exact absurd h2 h
  · rw [hfind] at hprev
    cases hprev
    have hid : p.id = postId := findPost_id hfind
    have hq : findPost (editedState slugify now true uid seg postId title content p s).posts postId =
        some (editRow ((title.map trim).getD p.title) ((content.map trim).getD p.content)
          (title.map (fun _ =>
            editSlug slugify now s.posts postId ((title.map trim).getD p.title))) now p) := by
      simp [editedState, findPost_updateWhere, hfind, hid]
    rw [heq]
    refine ⟨_, hq, by simp, by simp, ?_⟩
    have hmiss : getCachedPublishedPost up2 now2 seg
        (editedState slugify now true uid seg postId title content p s).cache = none := by
      simp only [editedState, hpub, if_true]
      exact getCachedPublishedPost_invalidated up2 now2 seg s.cache
    simp only [getPublished, hmiss]
    rw [findPublished_of_findPost hq (by simpa using hpub)]

/-- Author 1 retitles the published post 3 of `cachedDemo` with Redis reachable: the
next read returns the row with the new title. -/
theorem getPublished_after_edit_witness :
    ∃ q, findPost (updateItem slugifyAscii ⟨true⟩ 110 true (.token 1 "author") "3" 3
        (some "Omega") none cachedDemo).2.posts 3 = some q ∧
      q.title = "Omega" ∧ q.content = "c" ∧
      (getPublished 120 true "3" 3
        (updateItem slugifyAscii ⟨true⟩ 110 true (.token 1 "author") "3" 3
          (some "Omega") none cachedDemo).2).1 = ⟨200, .row q⟩ :=
  getPublished_after_edit slugifyAscii ⟨true⟩ 110 120 true (.token 1 "author") "3" 3
    (some "Omega") none cachedDemo
    { id := 3, title := "Gamma", slug := "gamma", content := "c", status := .published,
      author_id := 1, scheduled_for := none, published_at := some 50,
      created_at := 30, updated_at := 50 }
    (by decide) (by decide) (by decide) (by decide)


/-! ## Slug uniqueness on the create path -/

/-- The create path keeps slugs pairwise distinct: the slug it stores was probed free. -/
theorem createDraft_slugs_nodup (slugify : String → String) (sch : Schema) (now : Int)
    (cred : Credential) (title : String) (content : Option String) (s : State)
    (r : Response) (s2 : State)
    (h : createDraft slugify sch now cred title content s = some (r, s2))
    (hs : (s.posts.map (·.slug)).Nodup) : (s2.posts.map (·.slug)).Nodup := by
  rcases createDraft_cases _ _ _ _ _ _ _ _ _ h with ⟨rfl, _⟩ | ⟨uid, slug, _, _, hg, _, rfl⟩
  · exact hs
  · have hfree := generateUniqueSlugLoop_free _ _ _ _ _ _ hg
    simp only [List.map_append, List.map_cons, List.map_nil]
    rw [List.nodup_append]
    refine ⟨hs, by simp, ?_⟩
    intro a ha hb
    simp only [List.mem_singleton] at hb
    obtain ⟨p, hp, hps⟩ := List.mem_map.1 ha
    have htaken : slugTaken s.posts slug = true := by
      simp only [slugTaken, List.any_eq_true, decide_eq_true_eq]
      exact ⟨p, hp, hps.trans hb⟩
    rw [hfree] at htaken
    exact Bool.noConfusion htaken

/-! ## Slug uniqueness on the edit path -/

theorem reachable_collisionStore (sch : Schema) : Reachable slugifyAscii sch collisionStore :=
  Reachable.create 30 (.token 1 "author") "Beta" none
    (Reachable.create 20 (.token 1 "author") "Gamma 1700000000000" none
      (Reachable.create 10 (.token 1 "author") "Gamma" none Reachable.empty
        (show createDraft slugifyAscii sch 10 (.token 1 "author") "Gamma" none State.empty =
            some (⟨201, .row (newDraft 1 "Gamma" "gamma" "" 1 10)⟩,
              { posts := [newDraft 1 "Gamma" "gamma" "" 1 10], revisions := [],
                nextPostId := 2, nextRevisionId := 1, cache := { posts := [], lists := [] } })
          by cases sch with | mk b => cases b <;> decide))
      (show createDraft slugifyAscii sch 20 (.token 1 "author") "Gamma 1700000000000" none _ =
          some (⟨201, .row (newDraft 2 "Gamma 1700000000000" "gamma-1700000000000" "" 1 20)⟩,
            { posts := [newDraft 1 "Gamma" "gamma" "" 1 10,
                newDraft 2 "Gamma 1700000000000" "gamma-1700000000000" "" 1 20],
              revisions := [], nextPostId := 3, nextRevisionId := 1,
              cache := { posts := [], lists := [] } })
        by cases sch with | mk b => cases b <;> decide))
    (show createDraft slugifyAscii sch 30 (.token 1 "author") "Beta" none _ =
        some (⟨201, .row (newDraft 3 "Beta" "beta" "" 1 30)⟩, collisionStore)
      by cases sch with | mk b => cases b <;> decide)

/-- C1 at its failing input. `collisionStore` is reachable through three createDraft
calls and its slugs are pairwise distinct. Its owner retitles post 3 to "Gamma" at
`Date.now() = 1700000000000`: the base slug `gamma` is held by post 1, the edit path
appends the clock reading without probing again, and `gamma-1700000000000` is held by
post 2. Without a UNIQUE constraint the edit is answered 200 and two rows share a slug;
with it the UPDATE is refused, the transaction rolled back and the caller answered 500.
On the same store createDraft with the same title probes on and stores `gamma-1`. -/
theorem updateItem_slug_collision :
    (∀ sch, Reachable slugifyAscii sch collisionStore) ∧
    (collisionStore.posts.map (·.slug)).Nodup ∧
    (updateItem slugifyAscii ⟨false⟩ 1700000000000 true (.token 1 "author") "3" 3
      (some "Gamma") none collisionStore).1.status = 200 ∧
    (updateItem slugifyAscii ⟨false⟩ 1700000000000 true (.token 1 "author") "3" 3
      (some "Gamma") none collisionStore).2.posts.map (·.slug) =
        ["gamma", "gamma-1700000000000", "gamma-1700000000000"] ∧
    ¬ ((updateItem slugifyAscii ⟨false⟩ 1700000000000 true (.token 1 "author") "3" 3
      (some "Gamma") none collisionStore).2.posts.map (·.slug)).Nodup ∧
    updateItem slugifyAscii ⟨true⟩ 1700000000000 true (.token 1 "author") "3" 3
      (some "Gamma") none collisionStore = (internalError, collisionStore) ∧
    (createDraft slugifyAscii ⟨true⟩ 1700000000000 (.token 1 "author") "Gamma" none
      collisionStore).map (fun r => r.1) =
        some ⟨201, .row (newDraft 4 "Gamma" "gamma-1" "" 1 1700000000000)⟩ :=
  ⟨reachable_collisionStore, by decide, by decide, by decide, by decide, by decide, by decide⟩


/-! ## Frame of an edit -/

/-- C11. Row by row, `updateItem` (successful or not) keeps the id, owner, status,
`scheduled_for`, `published_at` and `created_at` of every row, and leaves every row
whose id is not the edited one exactly as it was. -/
theorem updateItem_frame (slugify : String → String) (sch : Schema) (now : Int) (up : Bool)
    (cred : Credential) (seg : String) (postId : Nat) (title content : Option String)
    (s : State) :
    List.Forall₂
      (fun p q =>
        q.id = p.id ∧ q.author_id = p.author_id ∧ q.status = p.status ∧
        q.scheduled_for = p.scheduled_for ∧ q.published_at = p.published_at ∧
        q.created_at = p.created_at ∧ (p.id ≠ postId → q = p))
      s.posts (updateItem slugify sch now up cred seg postId title content s).2.posts := by
  rcases updateItem_cases slugify sch now up cred seg postId title content s with
    ⟨h, _⟩ | ⟨uid, prev, _, _, _, _, heq⟩
  · rw [h, List.forall₂_same]
    intro p _
    simp
  · rw [heq]
    simp only [editedState, updateWhere]
    rw [List.forall₂_map_right_iff, List.forall₂_same]
    intro p _
    by_cases hp : p.id = postId
    · simp [hp]
    · simp [hp]

/-! ## When a revision is recorded -/

/-- C12, as stated, fails: author 1 re-submits the current title "Alpha" of draft 1 of
`demoStore`; title and content stay what they were and a revision is recorded. -/
theorem updateItem_same_values_adds_revision :
    ¬ ∀ (now : Int) (up : Bool) (cred : Credential) (seg : String) (postId : Nat)
        (title content : Option String) (s : State) (p : Post),
        findPost s.posts postId = some p →
        (title.map trim).getD p.title = p.title →
        (content.map trim).getD p.content = p.content →
        (updateItem slugifyAscii ⟨true⟩ now up cred seg postId title content s).2.revisions =
          s.revisions := by
  intro h
  have h1 := h 100 true (.token 1 "author") "1" 1 (some "Alpha") none demoStore
    { id := 1, title := "Alpha", slug := "alpha", content := "a", status := .draft,
      author_id := 1, scheduled_for := none, published_at := none,
      created_at := 10, updated_at := 10 } (by decide) (by decide) (by decide)
  revert h1
  decide

theorem processRows_revisions (fault : Nat → Option TxStep) (now : Int) (up : Bool)
    (ids : List Nat) (s : State) :
    (processRows fault now up ids s).2.revisions = s.revisions :=
  processRows_induction fault now up (fun t => t.revisions = s.revisions)
    (fun _ _ h => h) ids s rfl

/-- C12, amended. `publishDraft`, `scheduleDraft` and the worker cycle (with any fault)
leave the revisions as they were, and so does an `updateItem` that supplies neither
field or that is not answered 200. An `updateItem` answered 200 that supplies a title
or a content appends exactly one revision, whatever the supplied values are. -/
theorem revisions_only_by_edits_with_fields (slugify : String → String) (sch : Schema)
    (s : State) :
    (∀ now up cred postId, (publishDraft now up cred postId s).2.revisions = s.revisions) ∧
    (∀ now cred postId scheduled_for,
      (scheduleDraft now cred postId scheduled_for s).2.revisions = s.revisions) ∧
    (∀ fault now up, (processScheduledPublish fault now up s).2.revisions = s.revisions) ∧
    (∀ now up cred seg postId,
      (updateItem slugify sch now up cred seg postId none none s).2.revisions = s.revisions) ∧
    (∀ now up cred seg postId title content,
      (updateItem slugify sch now up cred seg postId title content s).1.status ≠ 200 →
      (updateItem slugify sch now up cred seg postId title content s).2.revisions = s.revisions) ∧
    (∀ now up cred seg postId title content,
      (updateItem slugify sch now up cred seg postId title content s).1.status = 200 →
      (title ≠ none ∨ content ≠ none) →
      ∃ r, (updateItem slugify sch now up cred seg postId title content s).2.revisions =
        s.revisions ++ [r]) := by
  refine ⟨?_, ?_, ?_, ?_, ?_, ?_⟩
  · intro now up cred postId
    rcases publishDraft_cases now up cred postId s with ⟨h, _⟩ | ⟨_, _, _, _, _, _, heq⟩
    · rw [h]
    · rw [heq]
  · intro now cred postId scheduled_for
    rcases scheduleDraft_cases now cred postId scheduled_for s with
      ⟨h, _⟩ | ⟨_, _, _, _, _, _, _, _, _, heq⟩
    · rw [h]
    · rw [heq]
  · intro fault now up
    exact processRows_revisions fault now up _ s
  · intro now up cred seg postId
    rcases updateItem_cases slugify sch now up cred seg postId none none s with
      ⟨h, _⟩ | ⟨_, _, _, _, _, hf, _⟩
    · rw [h]
    · simp at hf
  · intro now up cred seg postId title content hne
    rcases updateItem_cases slugify sch now up cred seg postId title content s with
      ⟨h, _⟩ | ⟨_, _, _, _, _, _, heq⟩
    · rw [h]
    · rw [heq] at hne
      exact absurd rfl hne
  · intro now up cred seg postId title content hok hf
    rcases updateItem_cases slugify sch now up cred seg postId title content s with
      ⟨_, h | ⟨h1, h2⟩⟩ | ⟨_, _, _, _, _, _, heq⟩
    · exact absurd hok h
    · rcases hf with hf | hf
      · exact absurd h1 hf
      · exact absurd h2 hf
    · rw [heq]
      exact ⟨_, rfl⟩

/-! ## When the slug is reassigned -/

/-- C13, as stated, fails: post 2 of `sameTitleStore` has title "Gamma" and slug
`gamma-1`; its owner re-submits the title "Gamma" at 100 and the slug becomes
`gamma-100`, because the slug is recomputed whenever a title is supplied. -/
theorem updateItem_same_title_changes_slug :
    ¬ ∀ (now : Int) (up : Bool) (cred : Credential) (seg : String) (postId : Nat)
        (title content : Option String) (s : State) (p q : Post),
        findPost s.posts postId = some p →
        (title.map trim).getD p.title = p.title →
        findPost (updateItem slugifyAscii ⟨true⟩ now up cred seg postId title content s).2.posts
          postId = some q →
        q.slug = p.slug := by
  intro h
  have h1 := h 100 true (.token 1 "author") "2" 2 (some "Gamma") none sameTitleStore
    (newDraft 2 "Gamma" "gamma-1" "" 1 20)
    { id := 2, title := "Gamma", slug := "gamma-100", content := "", status := .draft,
      author_id := 1, scheduled_for := none, published_at := none,
      created_at := 20, updated_at := 100 }
    (by decide) (by decide) (by decide)
  revert h1
  decide

/-- C13, amended. An `updateItem` that supplies no title leaves the slug of every row
as it was. With any request, a row whose slug changed is a row of the edited id, a
title was supplied, and the new slug is the one recomputed from the supplied title. -/
theorem updateItem_slug_only_with_title (slugify : String → String) (sch : Schema) (now : Int)
    (up : Bool) (cred : Credential) (seg : String) (postId : Nat) (s : State) :
    (∀ content, List.Forall₂ (fun p q => q.slug = p.slug)
      s.posts (updateItem slugify sch now up cred seg postId none content s).2.posts) ∧
    (∀ title content, List.Forall₂
      (fun p q => q.slug ≠ p.slug →
        p.id = postId ∧ ∃ t, title = some t ∧
          q.slug = editSlug slugify now s.posts postId (trim t))
      s.posts (updateItem slugify sch now up cred seg postId title content s).2.posts) := by
  constructor
  · intro content
    rcases updateItem_cases slugify sch now up cred seg postId none content s with
      ⟨h, _⟩ | ⟨uid, prev, _, _, _, _, heq⟩
    · rw [h, List.forall₂_same]
      intro p _; rfl
    · rw [heq]
      simp only [editedState, updateWhere]
      rw [List.forall₂_map_right_iff, List.forall₂_same]
      intro p _
      by_cases hp : p.id = postId
      · simp [hp, editRow]
      · simp [hp]
  · intro title content
    rcases updateItem_cases slugify sch now up cred seg postId title content s with
      ⟨h, _⟩ | ⟨uid, prev, _, _, _, _, heq⟩
    · rw [h, List.forall₂_same]
      intro p _ hne
      exact absurd rfl hne
    · rw [heq]
      simp only [editedState, updateWhere]
      rw [List.forall₂_map_right_iff, List.forall₂_same]
      intro p _
      by_cases hp : p.id = postId
      · cases title with
        | none => simp [hp, editRow]
        | some t => simp [hp, editRow]
      · simp [hp]


/-! ## Owner gating -/

theorem findPost_eq_none {posts : List Post} {id : Nat} (h : ∀ p ∈ posts, p.id ≠ id) :
    findPost posts id = none := by
  unfold findPost
  rw [List.find?_eq_none]
  intro p hp
  simpa using h p hp

theorem authorOwnsPost_notFound {uid postId : Nat} {s : State}
    (h : findPost s.posts postId = none) :
    authorOwnsPost uid postId s = .error ⟨404, .error "Post not found"⟩ := by
  simp [authorOwnsPost, h]

theorem authorOwnsPost_forbidden {uid postId : Nat} {s : State} {p : Post}
    (h : findPost s.posts postId = some p) (hown : p.author_id ≠ uid) :
    authorOwnsPost uid postId s = .error ⟨403, .error "Not authorized to access this post"⟩ := by
  simp [authorOwnsPost, h, hown]

/-- C14. For an authenticated author `uid` and each of updateItem, delete, publishDraft,
scheduleDraft, the owner's single-item read and listRevisions, with any other arguments:
when no row has the given id the answer is 404, when the row of that id belongs to
another author the answer is 403, and in both cases the state (posts, revisions, id
sequences, cache) is returned unchanged. -/
theorem owner_gating (slugify : String → String) (sch : Schema) (username : Nat → Option String)
    (uid postId : Nat) (s : State) :
    ((∀ p ∈ s.posts, p.id ≠ postId) →
      (∀ now up seg title content,
        updateItem slugify sch now up (.token uid "author") seg postId title content s =
          (⟨404, .error "Post not found"⟩, s)) ∧
      (∀ up seg, deletePost up (.token uid "author") seg postId s =
        (⟨404, .error "Post not found"⟩, s)) ∧
      (∀ now up, publishDraft now up (.token uid "author") postId s =
        (⟨404, .error "Post not found"⟩, s)) ∧
      (∀ now scheduled_for, scheduleDraft now (.token uid "author") postId scheduled_for s =
        (⟨404, .error "Post not found"⟩, s)) ∧
      getOwned (.token uid "author") postId s = (⟨404, .error "Post not found"⟩, s) ∧
      listRevisions username (.token uid "author") postId s =
        (⟨404, .error "Post not found"⟩, s)) ∧
    (∀ p, findPost s.posts postId = some p → p.author_id ≠ uid →
      (∀ now up seg title content,
        updateItem slugify sch now up (.token uid "author") seg postId title content s =
          (⟨403, .error "Not authorized to access this post"⟩, s)) ∧
      (∀ up seg, deletePost up (.token uid "author") seg postId s =
        (⟨403, .error "Not authorized to access this post"⟩, s)) ∧
      (∀ now up, publishDraft now up (.token uid "author") postId s =
        (⟨403, .error "Not authorized to access this post"⟩, s)) ∧
      (∀ now scheduled_for, scheduleDraft now (.token uid "author") postId scheduled_for s =
        (⟨403, .error "Not authorized to access this post"⟩, s)) ∧
      getOwned (.token uid "author") postId s =
        (⟨403, .error "Not authorized to access this post"⟩, s) ∧
      listRevisions username (.token uid "author") postId s =
        (⟨403, .error "Not authorized to access this post"⟩, s)) := by
  constructor
  · intro hnone
    have h := @authorOwnsPost_notFound uid postId s (findPost_eq_none hnone)
    refine ⟨?_, ?_, ?_, ?_, ?_, ?_⟩
    · intro now up seg title content; simp [updateItem, h]
    · intro up seg; simp [deletePost, h]
    · intro now up; simp [publishDraft, h]
    · intro now scheduled_for; simp [scheduleDraft, h]
    · simp [getOwned, h]
    · simp [listRevisions, h]
  · intro p hfind hown
    have h := authorOwnsPost_forbidden hfind hown
    refine ⟨?_, ?_, ?_, ?_, ?_, ?_⟩
    · intro now up seg title content; simp [updateItem, h]
    · intro up seg; simp [deletePost, h]
    · intro now up; simp [publishDraft, h]
    · intro now scheduled_for; simp [scheduleDraft, h]
    · simp [getOwned, h]
    · simp [listRevisions, h]


/-! ## createDraft -/

theorem generateUniqueSlugLoop_candidate (posts : List Post) (base : String) :
    ∀ (fuel c : Nat) (out : String),
      generateUniqueSlugLoop posts base fuel (slugCandidate base c) c = some out →
      ∃ k, out = slugCandidate base k := by
  intro fuel
  induction fuel with
  | zero => intro c out h; simp [generateUniqueSlugLoop] at h
  | succ fuel ih =>
    intro c out h
    unfold generateUniqueSlugLoop at h
    by_cases ht : slugTaken posts (slugCandidate base c) = true
    · simp only [ht, if_true] at h
      exact ih (c + 1) out h
    · simp only [ht] at h
      cases h
      exact ⟨c, rfl⟩

theorem ensureUniqueSlug_ne_empty (slugify : String → String) (title : String) :
    ensureUniqueSlug slugify title ≠ "" := by
  unfold ensureUniqueSlug
  split
  · decide
  · assumption

theorem slugCandidate_ne_empty {base : String} (h : base ≠ "") (k : Nat) :
    slugCandidate base k ≠ "" := by
  cases k with
  | zero => exact h
  | succ k =>
    intro he
    have := congrArg String.length he
    have h1 : "-".length = 1 := rfl
    have h2 : "".length = 0 := rfl
    simp only [slugCandidate, String.length_append, h1, h2] at this
    omega

/-- C15, as stated, fails on two counts. On a store where the slug `post` is held, the
title "!!!", which normalizes to the empty string, gets the slug `post-1`, not the
literal `post`; and the title " !!!" is stored trimmed, as "!!!", not as given. -/
theorem createDraft_post_suffixed_and_title_trimmed :
    (¬ ∀ (now : Int) (uid : Nat) (title : String) (content : Option String) (s s2 : State)
        (r : Response),
        trim title ≠ "" → title.length ≤ 500 →
        createDraft slugifyAscii ⟨true⟩ now (.token uid "author") title content s =
          some (r, s2) →
        ∃ row, s2.posts = s.posts ++ [row] ∧
          (slugifyAscii (trim title) = "" → row.slug = "post")) ∧
    (¬ ∀ (now : Int) (uid : Nat) (title : String) (content : Option String) (s s2 : State)
        (r : Response),
        trim title ≠ "" → title.length ≤ 500 →
        createDraft slugifyAscii ⟨true⟩ now (.token uid "author") title content s =
          some (r, s2) →
        ∃ row, s2.posts = s.posts ++ [row] ∧ row.title = title) := by
  constructor
  · intro h
    have hrun : createDraft slugifyAscii ⟨true⟩ 20 (.token 1 "author") "!!!" none
        postSlugStore =
        some (⟨201, .row (newDraft 2 "!!!" "post-1" "" 1 20)⟩,
          { postSlugStore with
            posts := postSlugStore.posts ++ [newDraft 2 "!!!" "post-1" "" 1 20]
            nextPostId := 3 }) := by decide
    obtain ⟨row, hrow, hslug⟩ := h 20 1 "!!!" none postSlugStore _ _
      (by decide) (by decide) hrun
    have hrow2 : row = newDraft 2 "!!!" "post-1" "" 1 20 := by
      have := List.append_cancel_left hrow
      simpa using this.symm
    have hs := hslug (by decide)
    rw [hrow2] at hs
    revert hs
    decide
  · intro h
    have hrun : createDraft slugifyAscii ⟨true⟩ 20 (.token 1 "author") " !!!" none
        postSlugStore =
        some (⟨201, .row (newDraft 2 "!!!" "post-1" "" 1 20)⟩,
          { postSlugStore with
            posts := postSlugStore.posts ++ [newDraft 2 "!!!" "post-1" "" 1 20]
            nextPostId := 3 }) := by decide
    obtain ⟨row, hrow, htitle⟩ := h 20 1 " !!!" none postSlugStore _ _
      (by decide) (by decide) hrun
    have hrow2 : row = newDraft 2 "!!!" "post-1" "" 1 20 := by
      have := List.append_cancel_left hrow
      simpa using this.symm
    rw [hrow2] at htitle
    revert htitle
    decide

/-- C15, amended. For an authenticated author and a title whose trimmed form is non-empty
and at most 500 characters long, `createDraft` answers 201 with a new row and appends
exactly that row to the table, all existing rows untouched. The row is a draft with the
next id, the trimmed title, the trimmed content (empty when absent), the caller as owner,
no `scheduled_for`, no `published_at`, and a non-empty slug held by no existing row: the
base (the normalized title, or the literal `post` when that is empty) or the base
followed by `-k`. -/
theorem createDraft_adds_one_draft (slugify : String → String) (sch : Schema) (now : Int)
    (uid : Nat) (title : String) (content : Option String) (s : State)
    (h1 : trim title ≠ "") (h2 : (trim title).length ≤ 500) :
    ∃ (k : Nat) (row : Post),
      createDraft slugify sch now (.token uid "author") title content s =
        some (⟨201, .row row⟩,
          { s with posts := s.posts ++ [row], nextPostId := s.nextPostId + 1 }) ∧
      row.id = s.nextPostId ∧ row.status = .draft ∧ row.title = trim title ∧
      row.content = (content.map trim).getD "" ∧ row.author_id = uid ∧
      row.scheduled_for = none ∧ row.published_at = none ∧
      row.slug = slugCandidate (ensureUniqueSlug slugify (trim title)) k ∧
      row.slug ≠ "" ∧ slugTaken s.posts row.slug = false ∧
      (slugify (trim title) = "" → ensureUniqueSlug slugify (trim title) = "post") ∧
      (slugify (trim title) ≠ "" →
        ensureUniqueSlug slugify (trim title) = slugify (trim title)) := by
  have hv : titleInvalid (trim title) = false := by
    simp [titleInvalid, h1, h2]
  have hsome := generateUniqueSlug_isSome slugify s.posts (trim title)
  cases hg : generateUniqueSlug slugify s.posts (trim title) with
  | none => rw [hg] at hsome; cases hsome
  | some slug =>
    obtain ⟨k, hk⟩ := generateUniqueSlugLoop_candidate _ _ _ 0 _ hg
    have hfree := generateUniqueSlugLoop_free _ _ _ _ _ _ hg
    refine ⟨k, newDraft s.nextPostId (trim title) slug ((content.map trim).getD "") uid now,
      ?_, rfl, rfl, rfl, rfl, rfl, rfl, rfl, hk, ?_, hfree, ?_, ?_⟩
    · simp [createDraft, hv, hg, hfree]
    · show slug ≠ ""
      rw [hk]
      exact slugCandidate_ne_empty (ensureUniqueSlug_ne_empty _ _) k
    · intro h; simp [ensureUniqueSlug, h]
    · intro h; simp [ensureUniqueSlug, h]

/-- Author 1 creates " Hello " on `demoStore`: one draft titled "Hello". The no-break
space and the em space are trimmed like the space: a title made of them is rejected with
400, and around "Hello" they are not stored. -/
theorem createDraft_adds_one_draft_witness :
    trim "\u00a0Hello\u2003" = "Hello" ∧
    createDraft slugifyAscii ⟨true⟩ 100 (.token 1 "author") "\u00a0\u2003" none demoStore =
      some (⟨400, .errors⟩, demoStore) ∧
    trim " Hello " ≠ "" ∧ (trim " Hello ").length ≤ 500 ∧
    ∃ (k : Nat) (row : Post),
      createDraft slugifyAscii ⟨true⟩ 100 (.token 1 "author") " Hello " none demoStore =
        some (⟨201, .row row⟩,
          { demoStore with
            posts := demoStore.posts ++ [row], nextPostId := demoStore.nextPostId + 1 }) ∧
      row.id = demoStore.nextPostId ∧ row.status = .draft ∧ row.title = trim " Hello " ∧
      row.content = ((none : Option String).map trim).getD "" ∧ row.author_id = 1 ∧
      row.scheduled_for = none ∧ row.published_at = none ∧
      row.slug = slugCandidate (ensureUniqueSlug slugifyAscii (trim " Hello ")) k ∧
      row.slug ≠ "" ∧ slugTaken demoStore.posts row.slug = false ∧
      (slugifyAscii (trim " Hello ") = "" →
        ensureUniqueSlug slugifyAscii (trim " Hello ") = "post") ∧
      (slugifyAscii (trim " Hello ") ≠ "" →
        ensureUniqueSlug slugifyAscii (trim " Hello ") = slugifyAscii (trim " Hello ")) :=
  ⟨by decide, by decide, by decide, by decide,
   createDraft_adds_one_draft slugifyAscii ⟨true⟩ 100 1 " Hello " none demoStore
     (by decide) (by decide)⟩


/-! ## publishDraft, scheduleDraft and delete on the success path -/

theorem forall₂_updateWhere_frame (posts : List Post) (postId : Nat) (set : Post → Post) :
    List.Forall₂ (fun a b => (a.id ≠ postId → b = a) ∧ (a.id = postId → b = set a))
      posts (updateWhere posts postId set) := by
  unfold updateWhere
  rw [List.forall₂_map_right_iff, List.forall₂_same]
  intro a _
  by_cases h : a.id = postId <;> simp [h]

/-- C16. For the owner of a draft, `publishDraft` answers 200 with the row as stored
afterwards: published, `published_at = now`, its id, title, content, slug, owner,
`scheduled_for` and creation time kept. Row by row, every row of another id is left as
it was, and no revision is added or removed. -/
theorem publishDraft_publishes_draft (now : Int) (up : Bool) (uid postId : Nat) (s : State)
    (p : Post) (hfind : findPost s.posts postId = some p) (hown : p.author_id = uid)
    (hd : p.status = .draft) :
    ∃ q, (publishDraft now up (.token uid "author") postId s).1 = ⟨200, .row q⟩ ∧
      findPost (publishDraft now up (.token uid "author") postId s).2.posts postId = some q ∧
      q.status = .published ∧ q.published_at = some now ∧ q.id = p.id ∧
      q.title = p.title ∧ q.content = p.content ∧ q.slug = p.slug ∧
      q.author_id = p.author_id ∧ q.scheduled_for = p.scheduled_for ∧
      q.created_at = p.created_at ∧
      List.Forall₂ (fun a b => a.id ≠ postId → b = a)
        s.posts (publishDraft now up (.token uid "author") postId s).2.posts ∧
      (publishDraft now up (.token uid "author") postId s).2.revisions = s.revisions := by
  have hid : p.id = postId := findPost_id hfind
  have heq : publishDraft now up (.token uid "author") postId s =
      (⟨200, rowBody (findPost (updateWhere s.posts postId (publishRow now)) postId)⟩,
        { s with posts := updateWhere s.posts postId (publishRow now)
                 cache := invalidatePublishedList up s.cache }) := by
    simp [publishDraft, authorOwnsPost_ok hfind hown, hfind, hd]
  have hq : findPost (updateWhere s.posts postId (publishRow now)) postId =
      some (publishRow now p) := by
    rw [findPost_updateWhere s.posts postId postId (publishRow now) (fun _ => rfl), hfind]
    simp [hid]
  rw [heq]
  refine ⟨publishRow now p, by simp [hq, rowBody], hq, rfl, rfl, rfl, rfl, rfl, rfl, rfl, rfl,
    rfl, ?_, rfl⟩
  exact (forall₂_updateWhere_frame s.posts postId (publishRow now)).imp (fun _ _ h => h.1)

/-- Author 1 publishes draft 1 of `demoStore` at 100. -/
theorem publishDraft_publishes_draft_witness :
    ∃ q, (publishDraft 100 true (.token 1 "author") 1 demoStore).1 = ⟨200, .row q⟩ ∧
      findPost (publishDraft 100 true (.token 1 "author") 1 demoStore).2.posts 1 = some q ∧
      q.status = .published ∧ q.published_at = some 100 ∧ q.id = 1 ∧
      q.title = "Alpha" ∧ q.content = "a" ∧ q.slug = "alpha" ∧
      q.author_id = 1 ∧ q.scheduled_for = none ∧ q.created_at = 10 ∧
      List.Forall₂ (fun a b => a.id ≠ 1 → b = a)
        demoStore.posts (publishDraft 100 true (.token 1 "author") 1 demoStore).2.posts ∧
      (publishDraft 100 true (.token 1 "author") 1 demoStore).2.revisions =
        demoStore.revisions :=
  publishDraft_publishes_draft 100 true 1 1 demoStore
    { id := 1, title := "Alpha", slug := "alpha", content := "a", status := .draft,
      author_id := 1, scheduled_for := none, published_at := none,
      created_at := 10, updated_at := 10 }
    (by decide) (by decide) (by decide)

/-- The success path of `scheduleDraft`: for the owner of a draft and a body date that
`new Date` reads as an instant later than `now`, the answer is 200 with the row as stored
afterwards: scheduled, `scheduled_for` that instant, its id, title, content, slug, owner,
`published_at` and creation time kept. Row by row, every row of another id is left as it
was, and the revisions and the cache are untouched. -/
theorem scheduleDraft_schedules_draft (now t : Int) (uid postId : Nat) (s : State)
    (p : Post) (hfind : findPost s.posts postId = some p) (hown : p.author_id = uid)
    (hd : p.status = .draft) (ht : now < t) :
    ∃ q, (scheduleDraft now (.token uid "author") postId (.instant t) s).1 = ⟨200, .row q⟩ ∧
      findPost (scheduleDraft now (.token uid "author") postId (.instant t) s).2.posts postId =
        some q ∧
      q.status = .scheduled ∧ q.scheduled_for = some t ∧ q.id = p.id ∧
      q.title = p.title ∧ q.content = p.content ∧ q.slug = p.slug ∧
      q.author_id = p.author_id ∧ q.published_at = p.published_at ∧
      q.created_at = p.created_at ∧
      List.Forall₂ (fun a b => a.id ≠ postId → b = a)
        s.posts (scheduleDraft now (.token uid "author") postId (.instant t) s).2.posts ∧
      (scheduleDraft now (.token uid "author") postId (.instant t) s).2.revisions = s.revisions ∧
      (scheduleDraft now (.token uid "author") postId (.instant t) s).2.cache = s.cache := by
  have hid : p.id = postId := findPost_id hfind
  have hnt : ¬ t ≤ now := not_le.2 ht
  have heq : scheduleDraft now (.token uid "author") postId (.instant t) s =
      (⟨200, rowBody (findPost (updateWhere s.posts postId (scheduleRow now t)) postId)⟩,
        { s with posts := updateWhere s.posts postId (scheduleRow now t) }) := by
    simp [scheduleDraft, authorOwnsPost_ok hfind hown, hfind, hd, hnt]
  have hq : findPost (updateWhere s.posts postId (scheduleRow now t)) postId =
      some (scheduleRow now t p) := by
    rw [findPost_updateWhere s.posts postId postId (scheduleRow now t) (fun _ => rfl), hfind]
    simp [hid]
  rw [heq]
  refine ⟨scheduleRow now t p, by simp [hq, rowBody], hq, rfl, rfl, rfl, rfl, rfl, rfl, rfl,
    rfl, rfl, ?_, rfl, rfl⟩
  exact (forall₂_updateWhere_frame s.posts postId (scheduleRow now t)).imp (fun _ _ h => h.1)

/-- Author 1 schedules draft 1 of `demoStore` at 100 for 500. -/
theorem scheduleDraft_schedules_draft_witness :
    ∃ q, (scheduleDraft 100 (.token 1 "author") 1 (.instant 500) demoStore).1 = ⟨200, .row q⟩ ∧
      findPost (scheduleDraft 100 (.token 1 "author") 1 (.instant 500) demoStore).2.posts 1 =
        some q ∧
      q.status = .scheduled ∧ q.scheduled_for = some 500 ∧ q.id = 1 ∧
      q.title = "Alpha" ∧ q.content = "a" ∧ q.slug = "alpha" ∧
      q.author_id = 1 ∧ q.published_at = none ∧ q.created_at = 10 ∧
      List.Forall₂ (fun a b => a.id ≠ 1 → b = a)
        demoStore.posts (scheduleDraft 100 (.token 1 "author") 1 (.instant 500) demoStore).2.posts ∧
      (scheduleDraft 100 (.token 1 "author") 1 (.instant 500) demoStore).2.revisions =
        demoStore.revisions ∧
      (scheduleDraft 100 (.token 1 "author") 1 (.instant 500) demoStore).2.cache =
        demoStore.cache :=
  scheduleDraft_schedules_draft 100 500 1 1 demoStore
    { id := 1, title := "Alpha", slug := "alpha", content := "a", status := .draft,
      author_id := 1, scheduled_for := none, published_at := none,
      created_at := 10, updated_at := 10 }
    (by decide) (by decide) (by decide) (by decide)

/-- C17 at its failing input. The owner of draft 1 of `demoStore` schedules it with a
date that `isISO8601()` accepts and `new Date` cannot parse (`20300101`, the first of
January 2030 in the basic format, later than the clock reading 100): the Invalid Date
passes the time check, the UPDATE throws, the answer is 500 and the row is still a draft
with no `scheduled_for`. The same holds for every owner of every draft. The same day
written `2030-01-01`, which `new Date` reads as an instant, is answered 200 and the row
is scheduled. -/
theorem scheduleDraft_invalid_date_fails :
    scheduleDraft 100 (.token 1 "author") 1 .invalidDate demoStore =
      (internalError, demoStore) ∧
    (scheduleDraft 100 (.token 1 "author") 1 .invalidDate demoStore).1.status = 500 ∧
    (findPost (scheduleDraft 100 (.token 1 "author") 1 .invalidDate demoStore).2.posts 1).map
      (fun p => (p.status, p.scheduled_for)) = some (.draft, none) ∧
    (∀ (now : Int) (uid postId : Nat) (s : State) (p : Post),
      findPost s.posts postId = some p → p.author_id = uid → p.status = .draft →
      scheduleDraft now (.token uid "author") postId .invalidDate s = (internalError, s)) ∧
    (scheduleDraft 100 (.token 1 "author") 1 (.instant 1893456000000) demoStore).1.status =
      200 ∧
    (findPost (scheduleDraft 100 (.token 1 "author") 1 (.instant 1893456000000)
      demoStore).2.posts 1).map (fun p => (p.status, p.scheduled_for)) =
        some (.scheduled, some 1893456000000) := by
  refine ⟨by decide, by decide, by decide, ?_, by decide, by decide⟩
  intro now uid postId s p hfind hown hd
  simp [scheduleDraft, authorOwnsPost_ok hfind hown, hfind, hd]

/-- C18. For the owner of an existing row, whatever its status, `deletePost` answers 204
and leaves exactly the rows of other ids, in their order and unchanged, and exactly the
revisions of other posts, in their order and unchanged: no row of the deleted id and no
revision of it remains. The removal of the revisions is the cascade of the foreign key,
`cascadeRevisions`. -/
theorem deletePost_removes_item_and_revisions (up : Bool) (seg : String) (uid postId : Nat)
    (s : State) (p : Post) (hfind : findPost s.posts postId = some p) (hown : p.author_id = uid) :
    (deletePost up (.token uid "author") seg postId s).1 = ⟨204, .empty⟩ ∧
    (deletePost up (.token uid "author") seg postId s).2.posts =
      s.posts.filter (fun q => decide (q.id ≠ postId)) ∧
    (deletePost up (.token uid "author") seg postId s).2.revisions =
      s.revisions.filter (fun r => decide (r.post_id ≠ postId)) ∧
    (∀ q ∈ (deletePost up (.token uid "author") seg postId s).2.posts, q.id ≠ postId) ∧
    (∀ r ∈ (deletePost up (.token uid "author") seg postId s).2.revisions, r.post_id ≠ postId) := by
  have heq : deletePost up (.token uid "author") seg postId s =
      (⟨204, .empty⟩,
        { s with
          posts := s.posts.filter (fun p => decide (p.id ≠ postId))
          revisions := cascadeRevisions s.revisions postId
          cache :=
            if p.status = .published then
              invalidatePublishedList up (invalidatePublishedPost up seg s.cache)
            else s.cache }) := by
    simp [deletePost, authorOwnsPost_ok hfind hown, hfind]
  rw [heq]
  refine ⟨rfl, rfl, rfl, ?_, ?_⟩
  · intro q hq
    simpa using (List.mem_filter.1 hq).2
  · intro r hr
    simpa [cascadeRevisions] using (List.mem_filter.1 hr).2


/-- Author 1 deletes post 1 of `revisedDemo`, which has one revision. -/
theorem deletePost_removes_item_and_revisions_witness :
    (deletePost true (.token 1 "author") "1" 1 revisedDemo).1 = ⟨204, .empty⟩ ∧
    (deletePost true (.token 1 "author") "1" 1 revisedDemo).2.posts =
      revisedDemo.posts.filter (fun q => decide (q.id ≠ 1)) ∧
    (deletePost true (.token 1 "author") "1" 1 revisedDemo).2.revisions =
      revisedDemo.revisions.filter (fun r => decide (r.post_id ≠ 1)) ∧
    (∀ q ∈ (deletePost true (.token 1 "author") "1" 1 revisedDemo).2.posts, q.id ≠ 1) ∧
    (∀ r ∈ (deletePost true (.token 1 "author") "1" 1 revisedDemo).2.revisions, r.post_id ≠ 1) :=
  deletePost_removes_item_and_revisions true "1" 1 1 revisedDemo
    { id := 1, title := "Omega", slug := "omega", content := "a", status := .draft,
      author_id := 1, scheduled_for := none, published_at := none,
      created_at := 10, updated_at := 100 }
    (by decide) (by decide)

/-! ## Worker fault isolation -/

/-- When no BEGIN throws, the loop returns normally and publishes, among the selected
rows, exactly the due rows whose transaction did not throw. -/
theorem processRows_caught_faults (fault : Nat → Option TxStep) (now : Int) (up : Bool)
    (hb : ∀ id, fault id ≠ some .begin) :
    ∀ (ids : List Nat) (s : State),
      (processRows fault now up ids s).1 = false ∧
      (processRows fault now up ids s).2.posts =
        s.posts.map (fun p =>
          if decide (p.id ∈ ids) && (fault p.id).isNone && isDue now p then
            markPublished now p
          else p) := by
  intro ids
  induction ids with
  | nil => intro s; simp [processRows]
  | cons id rest ih =>
    intro s
    cases hf : fault id with
    | none =>
      have hstep : ∃ c, processRows fault now up (id :: rest) s =
          processRows fault now up rest
            { s with posts := (claimUpdate now id s.posts).2, cache := c } := by
        by_cases h : (claimUpdate now id s.posts).1 = []
        · refine ⟨s.cache, ?_⟩
          rw [claimUpdate_snd_of_fst_nil h]
          simp [processRows, hf, h]
        · exact ⟨invalidatePublishedPost up (toString id) (invalidatePublishedList up s.cache),
            by simp [processRows, hf, h]⟩
      obtain ⟨c, hc⟩ := hstep
      rw [hc]
      obtain ⟨h1, h2⟩ := ih { s with posts := (claimUpdate now id s.posts).2, cache := c }
      refine ⟨h1, ?_⟩
      rw [h2]
      simp only [claimUpdate, List.map_map]
      apply List.map_congr_left
      intro p _
      by_cases hd : isDue now p = true
      · by_cases hid : p.id = id
        · simp [hd, hid, hf, isDue_markPublished]
        · simp [hd, hid]
      · simp [hd]
    | some step =>
      have hrest : processRows fault now up (id :: rest) s = processRows fault now up rest s := by
        cases step with
        | begin => exact absurd hf (hb id)
        | update => simp [processRows, hf]
        | commit => simp [processRows, hf]
      rw [hrest]
      obtain ⟨h1, h2⟩ := ih s
      refine ⟨h1, ?_⟩
      rw [h2]
      apply List.map_congr_left
      intro p _
      by_cases hid : p.id = id
      · simp [hid, hf]
      · simp [hid]

/-- A throwing UPDATE or COMMIT is isolated: when no BEGIN throws, the cycle returns
normally, every due row whose transaction threw is left as it was and every other due
row is published. -/
theorem processScheduledPublish_caught_faults (fault : Nat → Option TxStep) (now : Int)
    (up : Bool) (s : State) (hb : ∀ id, fault id ≠ some .begin) :
    (processScheduledPublish fault now up s).1 = false ∧
    (processScheduledPublish fault now up s).2.posts =
      s.posts.map (fun p =>
        if isDue now p && (fault p.id).isNone then markPublished now p else p) := by
  obtain ⟨h1, h2⟩ := processRows_caught_faults fault now up hb (selectDue now s.posts) s
  refine ⟨h1, ?_⟩
  unfold processScheduledPublish
  rw [h2]
  apply List.map_congr_left
  intro p hp
  by_cases hd : isDue now p = true
  · have : p.id ∈ selectDue now s.posts := by
      simp only [selectDue, List.mem_map, List.mem_filter]
      exact ⟨p, ⟨hp, hd⟩, rfl⟩
    simp [hd, this]
  · simp [hd]

/-- C19 at its failing input. On `twoDueStore` the cycle at 300 selects rows 1 and 2.
When the BEGIN of row 1 throws, the exception leaves the loop (BEGIN is outside the
`try`): the cycle throws and row 2, although due, is still scheduled. When instead the
UPDATE or the COMMIT of row 1 throws, it is caught: the cycle returns normally, row 1 is
unchanged and row 2 is published. -/
theorem worker_begin_fault_aborts_cycle :
    selectDue 300 twoDueStore.posts = [1, 2] ∧
    processScheduledPublish (faultAt 1 .begin) 300 true twoDueStore = (true, twoDueStore) ∧
    (findPost (processScheduledPublish (faultAt 1 .begin) 300 true twoDueStore).2.posts 2).map
      (·.status) = some .scheduled ∧
    (processScheduledPublish (faultAt 1 .update) 300 true twoDueStore).1 = false ∧
    (processScheduledPublish (faultAt 1 .update) 300 true twoDueStore).2.posts.map
      (·.status) = [.scheduled, .published] ∧
    (processScheduledPublish (faultAt 1 .commit) 300 true twoDueStore).1 = false ∧
    (processScheduledPublish (faultAt 1 .commit) 300 true twoDueStore).2.posts.map
      (·.status) = [.scheduled, .published] := by
  refine ⟨by decide, by decide, by decide, by decide, by decide, by decide, by decide⟩


/-! ## Two concurrent cycles claim a row once -/

theorem processRows_cons_claimStep (fault : Nat → Option TxStep) (now : Int) (up : Bool)
    (id : Nat) (rest : List Nat) (s : State) (hf : fault id = none) :
    processRows fault now up (id :: rest) s =
      processRows fault now up rest (claimStep now up id s).2 := by
  by_cases h : (claimUpdate now id s.posts).1 = []
  · simp [processRows, claimStep, hf, h]
  · simp [processRows, claimStep, hf, h]

/-- A fault-free cycle on its own is the schedule of its own transactions. -/
theorem processRows_eq_runSchedule (nowA nowB : Int) (upA upB : Bool) :
    ∀ (ids : List Nat) (s : State),
      processRows noFault nowA upA ids s =
        (false, (runSchedule nowA nowB upA upB (ids.map (fun i => (true, i))) s).2) := by
  intro ids
  induction ids with
  | nil => intro s; rfl
  | cons id rest ih =>
    intro s
    rw [processRows_cons_claimStep noFault nowA upA id rest s rfl, ih]
    simp [runSchedule]

theorem filter_id_eq_singleton {posts : List Post} {i : Nat} {q : Post}
    (hk : (posts.map (·.id)).Nodup) (hfind : findPost posts i = some q) :
    posts.filter (fun a => decide (a.id = i)) = [q] := by
  induction posts with
  | nil => simp [findPost] at hfind
  | cons a rest ih =>
    rw [List.map_cons, List.nodup_cons] at hk
    rw [findPost_cons] at hfind
    by_cases ha : a.id = i
    · simp only [ha, if_true, Option.some.injEq] at hfind
      subst hfind
      have hrest : rest.filter (fun b => decide (b.id = i)) = [] := by
        rw [List.filter_eq_nil_iff]
        intro b hb
        have : b.id ≠ a.id := fun h => hk.1 (h ▸ List.mem_map_of_mem (·.id) hb)
        simpa [← ha] using this
      simp [List.filter_cons, ha, hrest]
    · simp only [ha, if_false] at hfind
      simp [List.filter_cons, ha, ih hk.2 hfind]

theorem claimUpdate_fst_of_key {posts : List Post} {i : Nat} {q : Post} (now : Int)
    (hk : (posts.map (·.id)).Nodup) (hfind : findPost posts i = some q) :
    (claimUpdate now i posts).1 = if isDue now q then [q.id] else [] := by
  have h : posts.filter (fun p => decide (p.id = i) && isDue now p) =
      (posts.filter (fun a => decide (a.id = i))).filter (isDue now) := by
    rw [List.filter_filter]
    apply List.filter_congr
    intro a _
    exact Bool.and_comm _ _
  simp only [claimUpdate, h, filter_id_eq_singleton hk hfind]
  by_cases hd : isDue now q = true
  · simp [hd]
  · simp [hd]

theorem claimStep_ids (now : Int) (up : Bool) (id : Nat) (s : State) :
    (claimStep now up id s).2.posts.map (·.id) = s.posts.map (·.id) := by
  unfold claimStep
  split
  · simp only [claimUpdate, List.map_map]
    apply List.map_congr_left
    intro p _
    simp only [Function.comp]
    split <;> simp [markPublished]
  · rfl

theorem claimStep_other (now : Int) (up : Bool) (id i : Nat) (s : State) (hne : id ≠ i) :
    findPost (claimStep now up id s).2.posts i = findPost s.posts i := by
  unfold claimStep
  split
  · simp only [claimUpdate]
    rw [findPost_map _ _ _ (by intro p; split <;> simp [markPublished])]
    cases hfind : findPost s.posts i with
    | none => rfl
    | some q =>
      have hq : q.id = i := findPost_id hfind
      have : ¬ q.id = id := fun h => hne (h.symm.trans hq)
      simp [this]
  · rfl

theorem claimStep_claims {now : Int} {i : Nat} {s : State} {p : Post} (up : Bool)
    (hk : (s.posts.map (·.id)).Nodup) (hfind : findPost s.posts i = some p)
    (hd : isDue now p = true) :
    (claimStep now up i s).1 = [i] ∧
    findPost (claimStep now up i s).2.posts i = some (markPublished now p) := by
  have hid : p.id = i := findPost_id hfind
  have h1 : (claimUpdate now i s.posts).1 = [i] := by
    rw [claimUpdate_fst_of_key now hk hfind]; simp [hd, hid]
  have hne : (claimUpdate now i s.posts).1 ≠ [] := by rw [h1]; simp
  unfold claimStep
  simp only [hne, ne_eq, not_false_eq_true, if_true]
  refine ⟨h1, ?_⟩
  simp only [claimUpdate]
  rw [findPost_map _ _ _ (by intro p; split <;> simp [markPublished]), hfind]
  simp [hid, hd]

theorem claimStep_zero_rows {now : Int} {i : Nat} {s : State} {q : Post} (up : Bool)
    (hk : (s.posts.map (·.id)).Nodup) (hfind : findPost s.posts i = some q)
    (hd : isDue now q = false) : claimStep now up i s = ([], s) := by
  have h1 : (claimUpdate now i s.posts).1 = [] := by
    rw [claimUpdate_fst_of_key now hk hfind]; simp [hd]
  simp [claimStep, h1]


theorem runSchedule_cons (nowA nowB : Int) (upA upB : Bool) (c : Bool) (id : Nat)
    (rest : List (Bool × Nat)) (s : State) :
    runSchedule nowA nowB upA upB ((c, id) :: rest) s =
      (⟨c, id, (claimStep (if c then nowA else nowB) (if c then upA else upB) id s).1, s,
          (claimStep (if c then nowA else nowB) (if c then upA else upB) id s).2⟩ ::
        (runSchedule nowA nowB upA upB rest
          (claimStep (if c then nowA else nowB) (if c then upA else upB) id s).2).1,
       (runSchedule nowA nowB upA upB rest
          (claimStep (if c then nowA else nowB) (if c then upA else upB) id s).2).2) := rfl

/-- Transactions for other ids neither touch the row of `i` nor are recorded for it. -/
theorem runSchedule_idle (nowA nowB : Int) (upA upB : Bool) (i : Nat) :
    ∀ (sched : List (Bool × Nat)) (s : State), (∀ e ∈ sched, e.2 ≠ i) →
      (runSchedule nowA nowB upA upB sched s).1.filter (fun t => decide (t.id = i)) = [] ∧
      findPost (runSchedule nowA nowB upA upB sched s).2.posts i = findPost s.posts i := by
  intro sched
  induction sched with
  | nil => intro s _; exact ⟨rfl, rfl⟩
  | cons e rest ih =>
    intro s h
    obtain ⟨c, id⟩ := e
    have hid : id ≠ i := h (c, id) (List.mem_cons_self _ _)
    obtain ⟨h1, h2⟩ := ih (claimStep (if c then nowA else nowB) (if c then upA else upB) id s).2
      (fun e he => h e (List.mem_cons_of_mem _ he))
    rw [runSchedule_cons]
    refine ⟨?_, ?_⟩
    · rw [List.filter_cons]
      simp [hid, h1]
    · simp only
      rw [h2, claimStep_other _ _ _ _ _ hid]

/-- Once the row of `i` is published, the one remaining transaction for `i` returns no
row and changes nothing. -/
theorem runSchedule_after_claim (nowA nowB : Int) (upA upB : Bool) (i : Nat) :
    ∀ (sched : List (Bool × Nat)) (s : State) (q : Post) (c : Bool),
      (s.posts.map (·.id)).Nodup → findPost s.posts i = some q → q.status = .published →
      sched.filter (fun e => decide (e.2 = i)) = [(c, i)] →
      ∃ r2, (runSchedule nowA nowB upA upB sched s).1.filter (fun t => decide (t.id = i)) =
          [r2] ∧
        r2.first = c ∧ r2.returned = [] ∧ r2.after = r2.before ∧
        findPost (runSchedule nowA nowB upA upB sched s).2.posts i = some q := by
  intro sched
  induction sched with
  | nil => intro s q c _ _ _ h; simp at h
  | cons e rest ih =>
    intro s q c hk hfind hs hf
    obtain ⟨c2, id⟩ := e
    rw [runSchedule_cons]
    by_cases hid : id = i
    · subst hid
      rw [List.filter_cons] at hf
      simp only [decide_True, if_true, List.cons.injEq, Prod.mk.injEq, and_true] at hf
      obtain ⟨hc, hrest⟩ := hf
      subst hc
      have hnd : isDue (if c2 then nowA else nowB) q = false := by simp [isDue, hs]
      have hz := claimStep_zero_rows (if c2 then upA else upB) hk hfind hnd
      rw [hz]
      have hno : ∀ e ∈ rest, e.2 ≠ id := by
        intro e he
        have := (List.filter_eq_nil_iff.1 hrest) e he
        simpa using this
      obtain ⟨h1, h2⟩ := runSchedule_idle nowA nowB upA upB id rest s hno
      refine ⟨⟨c2, id, [], s, s⟩, ?_, rfl, rfl, rfl, ?_⟩
      · rw [List.filter_cons]
        simp [h1]
      · simp only
        rw [h2, hfind]
    · rw [List.filter_cons] at hf
      simp only [hid, decide_False] at hf
      have hk2 : ((claimStep (if c2 then nowA else nowB) (if c2 then upA else upB) id
          s).2.posts.map (·.id)).Nodup := by
        rw [claimStep_ids]; exact hk
      have hfind2 : findPost (claimStep (if c2 then nowA else nowB)
          (if c2 then upA else upB) id s).2.posts i = some q := by
        rw [claimStep_other _ _ _ _ _ hid]; exact hfind
      obtain ⟨r2, h1, h2, h3, h4, h5⟩ := ih _ q c hk2 hfind2 hs (by simpa using hf)
      refine ⟨r2, ?_, h2, h3, h4, h5⟩
      rw [List.filter_cons]
      simp [hid, h1]

/-- While the row of `i` is due for both cycles, the first of the two transactions for
`i` claims it and the second finds nothing to claim. -/
theorem runSchedule_claim_once (nowA nowB : Int) (upA upB : Bool) (i : Nat) (p : Post)
    (hdA : isDue nowA p = true) (hdB : isDue nowB p = true) :
    ∀ (sched : List (Bool × Nat)) (s : State) (c : Bool),
      (s.posts.map (·.id)).Nodup → findPost s.posts i = some p →
      sched.filter (fun e => decide (e.2 = i)) = [(c, i), (!c, i)] →
      ∃ r1 r2, (runSchedule nowA nowB upA upB sched s).1.filter (fun t => decide (t.id = i)) =
          [r1, r2] ∧
        r1.first = c ∧ r2.first = !c ∧ r1.returned = [i] ∧
        findPost r1.after.posts i = some (markPublished (if c then nowA else nowB) p) ∧
        r2.returned = [] ∧ r2.after = r2.before ∧
        findPost (runSchedule nowA nowB upA upB sched s).2.posts i =
          some (markPublished (if c then nowA else nowB) p) := by
  intro sched
  induction sched with
  | nil => intro s c _ _ h; simp at h
  | cons e rest ih =>
    intro s c hk hfind hf
    obtain ⟨c2, id⟩ := e
    rw [runSchedule_cons]
    by_cases hid : id = i
    · subst hid
      rw [List.filter_cons] at hf
      simp only [decide_True, if_true, List.cons.injEq, Prod.mk.injEq, and_true] at hf
      obtain ⟨hc, hrest⟩ := hf
      subst hc
      have hd : isDue (if c2 then nowA else nowB) p = true := by
        cases c2 <;> simpa
      obtain ⟨hret, hrow⟩ := claimStep_claims (if c2 then upA else upB) hk hfind hd
      have hk2 : ((claimStep (if c2 then nowA else nowB) (if c2 then upA else upB) id
          s).2.posts.map (·.id)).Nodup := by
        rw [claimStep_ids]; exact hk
      obtain ⟨r2, h1, h2, h3, h4, h5⟩ := runSchedule_after_claim nowA nowB upA upB id rest
        _ _ (!c2) hk2 hrow rfl hrest
      refine ⟨⟨c2, id, _, s, _⟩, r2, ?_, rfl, h2, hret, hrow, h3, h4, h5⟩
      rw [List.filter_cons]
      simp [h1]
    · rw [List.filter_cons] at hf
      simp only [hid, decide_False] at hf
      have hk2 : ((claimStep (if c2 then nowA else nowB) (if c2 then upA else upB) id
          s).2.posts.map (·.id)).Nodup := by
        rw [claimStep_ids]; exact hk
      have hfind2 : findPost (claimStep (if c2 then nowA else nowB)
          (if c2 then upA else upB) id s).2.posts i = some p := by
        rw [claimStep_other _ _ _ _ _ hid]; exact hfind
      obtain ⟨r1, r2, h1, h2, h3, h4, h5, h6, h7, h8⟩ := ih _ c hk2 hfind2 (by simpa using hf)
      refine ⟨r1, r2, ?_, h2, h3, h4, h5, h6, h7, h8⟩
      rw [List.filter_cons]
      simp [hid, h1]


theorem stepsOf_cons (c c2 : Bool) (id : Nat) (rest : List (Bool × Nat)) :
    stepsOf c ((c2, id) :: rest) = if c2 = c then id :: stepsOf c rest else stepsOf c rest := by
  unfold stepsOf
  rw [List.filter_cons]
  by_cases h : c2 = c <;> simp [h]

theorem mem_stepsOf {sched : List (Bool × Nat)} {e : Bool × Nat} (h : e ∈ sched) :
    e.2 ∈ stepsOf e.1 sched := by
  unfold stepsOf
  exact List.mem_map.2 ⟨e, List.mem_filter.2 ⟨h, by simp⟩, rfl⟩

theorem filter_steps_one (i : Nat) :
    ∀ (sched : List (Bool × Nat)) (c : Bool),
      i ∈ stepsOf c sched → (stepsOf c sched).Nodup → i ∉ stepsOf (!c) sched →
      sched.filter (fun e => decide (e.2 = i)) = [(c, i)] := by
  intro sched
  induction sched with
  | nil => intro c h; simp [stepsOf] at h
  | cons e rest ih =>
    intro c hmem hnd hno
    obtain ⟨c2, id⟩ := e
    rw [stepsOf_cons] at hmem hnd hno
    rw [List.filter_cons]
    by_cases hc : c2 = c
    · subst hc
      have hc2 : ¬ c2 = !c2 := by cases c2 <;> simp
      simp only [if_true, hc2, if_false] at hmem hnd hno
      rw [List.nodup_cons] at hnd
      by_cases hid : id = i
      · subst hid
        have hrest : rest.filter (fun e => decide (e.2 = id)) = [] := by
          rw [List.filter_eq_nil_iff]
          intro e he
          have hm := mem_stepsOf he
          have : e.2 ≠ id := by
            intro h
            rw [h] at hm
            by_cases he1 : e.1 = c2
            · rw [he1] at hm; exact hnd.1 hm
            · have : e.1 = !c2 := by
                cases h1 : e.1 <;> cases h2 : c2 <;> simp_all
              rw [this] at hm; exact hno hm
          simpa using this
        simp [hrest]
      · have hmem2 : i ∈ stepsOf c2 rest := by
          rcases List.mem_cons.1 hmem with h | h
          · exact absurd h.symm hid
          · exact h
        simp only [hid, decide_False]
        exact ih c2 hmem2 hnd.2 hno
    · have hc3 : c2 = !c := by cases c2 <;> cases c <;> simp_all
      subst hc3
      have hx : ¬ ((!c) = c) := by cases c <;> simp
      simp only [hx, if_false, if_true] at hmem hnd hno
      have hid : id ≠ i := fun h => hno (h ▸ List.mem_cons_self _ _)
      simp only [hid, decide_False]
      exact ih c hmem hnd (fun h => hno (List.mem_cons_of_mem _ h))

theorem filter_steps_two (i : Nat) :
    ∀ (sched : List (Bool × Nat)),
      i ∈ stepsOf true sched → i ∈ stepsOf false sched →
      (stepsOf true sched).Nodup → (stepsOf false sched).Nodup →
      ∃ c, sched.filter (fun e => decide (e.2 = i)) = [(c, i), (!c, i)] := by
  intro sched
  induction sched with
  | nil => intro h; simp [stepsOf] at h
  | cons e rest ih =>
    intro hA hB hnA hnB
    obtain ⟨c2, id⟩ := e
    rw [List.filter_cons]
    by_cases hid : id = i
    · subst hid
      refine ⟨c2, ?_⟩
      simp only [decide_True, if_true, List.cons.injEq, true_and]
      cases c2 with
      | true =>
        rw [stepsOf_cons] at hnA hB
        simp only [if_true] at hnA
        simp only [Bool.true_eq_false, if_false] at hB
        rw [List.nodup_cons] at hnA
        rw [stepsOf_cons] at hnB
        simp only [Bool.true_eq_false, if_false] at hnB
        exact filter_steps_one id rest false hB hnB (by simpa using hnA.1)
      | false =>
        rw [stepsOf_cons] at hnB hA
        simp only [if_true] at hnB
        simp only [Bool.false_eq_true, if_false] at hA
        rw [List.nodup_cons] at hnB
        rw [stepsOf_cons] at hnA
        simp only [Bool.false_eq_true, if_false] at hnA
        exact filter_steps_one id rest true hA hnA (by simpa using hnB.1)
    · simp only [hid, decide_False]
      rw [stepsOf_cons] at hA hB hnA hnB
      cases c2 with
      | true =>
        simp only [if_true, Bool.true_eq_false, if_false] at hA hB hnA hnB
        rw [List.nodup_cons] at hnA
        rcases List.mem_cons.1 hA with h | h
        · exact absurd h.symm hid
        · exact ih h hB hnA.2 hnB
      | false =>
        simp only [if_true, Bool.false_eq_true, if_false] at hA hB hnA hnB
        rw [List.nodup_cons] at hnB
        rcases List.mem_cons.1 hB with h | h
        · exact absurd h.symm hid
        · exact ih hA h hnA hnB.2

/-- C20. Two fault-free cycles, at clock readings `nowA` and `nowB`, have both selected
the row `p`, due for both, of a table keyed by id; each runs one transaction per row it
selected. For every interleaving of their per-row transactions, exactly two transactions
are for `p`, one of each cycle: the earlier one returns the row and leaves it published
with `published_at` its own clock reading; the later one returns no row and leaves the
state exactly as it found it; at the end the row still carries the `published_at` the
earlier one wrote. -/
theorem concurrent_cycles_claim_once (nowA nowB : Int) (upA upB : Bool)
    (idsA idsB : List Nat) (sched : List (Bool × Nat)) (s : State) (p : Post)
    (hk : (s.posts.map (·.id)).Nodup) (hp : p ∈ s.posts)
    (hdA : isDue nowA p = true) (hdB : isDue nowB p = true)
    (hA : p.id ∈ idsA) (hB : p.id ∈ idsB) (hnA : idsA.Nodup) (hnB : idsB.Nodup)
    (hi : IsInterleaving sched idsA idsB) :
    ∃ r1 r2,
      (runSchedule nowA nowB upA upB sched s).1.filter (fun t => decide (t.id = p.id)) =
        [r1, r2] ∧
      r1.first ≠ r2.first ∧ r1.returned = [p.id] ∧
      findPost r1.after.posts p.id =
        some (markPublished (if r1.first then nowA else nowB) p) ∧
      (markPublished (if r1.first then nowA else nowB) p).status = .published ∧
      r2.returned = [] ∧ r2.after = r2.before ∧
      findPost (runSchedule nowA nowB upA upB sched s).2.posts p.id =
        some (markPublished (if r1.first then nowA else nowB) p) := by
  obtain ⟨h1, h2⟩ := hi
  subst h1 h2
  obtain ⟨c, hc⟩ := filter_steps_two p.id sched hA hB hnA hnB
  obtain ⟨r1, r2, e1, e2, e3, e4, e5, e6, e7, e8⟩ :=
    runSchedule_claim_once nowA nowB upA upB p.id p hdA hdB sched s c hk
      (findPost_of_mem hk hp) hc
  refine ⟨r1, r2, e1, ?_, e4, ?_, rfl, e6, e7, ?_⟩
  · rw [e2, e3]; cases c <;> simp
  · rw [e2]; exact e5
  · rw [e2]; exact e8

/-- On `twoDueStore`, cycles at 300 and 310 both selected rows 1 and 2; the second
cycle's transaction for row 2 comes before the first cycle's. -/
theorem concurrent_cycles_claim_once_witness :
    IsInterleaving [(true, 1), (false, 1), (false, 2), (true, 2)]
      (selectDue 300 twoDueStore.posts) (selectDue 310 twoDueStore.posts) ∧
    ∃ r1 r2,
      (runSchedule 300 310 true true [(true, 1), (false, 1), (false, 2), (true, 2)]
        twoDueStore).1.filter (fun t => decide (t.id = 2)) = [r1, r2] ∧
      r1.first ≠ r2.first ∧ r1.returned = [2] ∧
      findPost r1.after.posts 2 =
        some (markPublished (if r1.first then 300 else 310)
          { id := 2, title := "Two", slug := "two", content := "", status := .scheduled,
            author_id := 1, scheduled_for := some 200, published_at := none,
            created_at := 20, updated_at := 20 }) ∧
      (markPublished (if r1.first then 300 else 310)
          { id := 2, title := "Two", slug := "two", content := "", status := .scheduled,
            author_id := 1, scheduled_for := some 200, published_at := none,
            created_at := 20, updated_at := 20 }).status = .published ∧
      r2.returned = [] ∧ r2.after = r2.before ∧
      findPost (runSchedule 300 310 true true [(true, 1), (false, 1), (false, 2), (true, 2)]
        twoDueStore).2.posts 2 =
        some (markPublished (if r1.first then 300 else 310)
          { id := 2, title := "Two", slug := "two", content := "", status := .scheduled,
            author_id := 1, scheduled_for := some 200, published_at := none,
            created_at := 20, updated_at := 20 }) :=
  ⟨⟨by decide, by decide⟩,
   concurrent_cycles_claim_once 300 310 true true
     (selectDue 300 twoDueStore.posts) (selectDue 310 twoDueStore.posts)
     [(true, 1), (false, 1), (false, 2), (true, 2)] twoDueStore
     { id := 2, title := "Two", slug := "two", content := "", status := .scheduled,
       author_id := 1, scheduled_for := some 200, published_at := none,
       created_at := 20, updated_at := 20 }
     (by decide) (by decide) (by decide) (by decide) (by decide) (by decide) (by decide)
     (by decide) ⟨by decide, by decide⟩⟩


/-! ## The slug returned by `generateUniqueSlug` -/

theorem generateUniqueSlugLoop_first_free (posts : List Post) (base : String) :
    ∀ (fuel c : Nat) (out : String),
      generateUniqueSlugLoop posts base fuel (slugCandidate base c) c = some out →
      ∃ k, c ≤ k ∧ out = slugCandidate base k ∧ slugTaken posts (slugCandidate base k) = false ∧
        ∀ j, c ≤ j → j < k → slugTaken posts (slugCandidate base j) = true := by
  intro fuel
  induction fuel with
  | zero => intro c out h; simp [generateUniqueSlugLoop] at h
  | succ fuel ih =>
    intro c out h
    unfold generateUniqueSlugLoop at h
    by_cases ht : slugTaken posts (slugCandidate base c) = true
    · simp only [ht, if_true] at h
      obtain ⟨k, hk, hout, hfree, hmin⟩ := ih (c + 1) out h
      refine ⟨k, by omega, hout, hfree, ?_⟩
      intro j hj1 hj2
      rcases Nat.eq_or_lt_of_le hj1 with rfl | hlt
      · exact ht
      · exact hmin j hlt hj2
    · simp only [ht] at h
      cases h
      exact ⟨c, le_refl c, rfl, by simpa using ht, fun j hj1 hj2 => by omega⟩

theorem slugTaken_eq_false_iff (posts : List Post) (slug : String) :
    slugTaken posts slug = false ↔ ∀ p ∈ posts, p.slug ≠ slug := by
  simp [slugTaken]

/-- C24. For every title and every table, `generateUniqueSlug` returns (its probes never
run out). With `base` the normalized title (`post` when that is empty): if no row holds
`base` it returns `base`; if a row holds it, it returns `base-k` for the least `k ≥ 1`
such that no row holds `base-k`, every `base-j` with `1 ≤ j < k` being held. The slug it
returns is held by no row. -/
theorem generateUniqueSlug_returns_first_free (slugify : String → String) (posts : List Post)
    (title : String) :
    (generateUniqueSlug slugify posts title).isSome = true ∧
    ((∀ p ∈ posts, p.slug ≠ ensureUniqueSlug slugify title) →
      generateUniqueSlug slugify posts title = some (ensureUniqueSlug slugify title)) ∧
    ((∃ p ∈ posts, p.slug = ensureUniqueSlug slugify title) →
      ∃ k, 1 ≤ k ∧
        generateUniqueSlug slugify posts title =
          some (ensureUniqueSlug slugify title ++ "-" ++ toString k) ∧
        (∀ p ∈ posts, p.slug ≠ ensureUniqueSlug slugify title ++ "-" ++ toString k) ∧
        ∀ j, 1 ≤ j → j < k →
          ∃ p ∈ posts, p.slug = ensureUniqueSlug slugify title ++ "-" ++ toString j) ∧
    (∀ out, generateUniqueSlug slugify posts title = some out → ∀ p ∈ posts, p.slug ≠ out) := by
  have hsome := generateUniqueSlug_isSome slugify posts title
  cases hg : generateUniqueSlug slugify posts title with
  | none => rw [hg] at hsome; cases hsome
  | some out =>
    obtain ⟨k, _, hout, hfree, hmin⟩ :=
      generateUniqueSlugLoop_first_free posts (ensureUniqueSlug slugify title) _ 0 out hg
    refine ⟨rfl, ?_, ?_, ?_⟩
    · intro hbase
      cases k with
      | zero => rw [hout]; rfl
      | succ k =>
        have h0 := hmin 0 (Nat.zero_le _) (Nat.succ_pos k)
        have h1 := (slugTaken_eq_false_iff posts _).2 hbase
        rw [show slugCandidate (ensureUniqueSlug slugify title) 0 =
          ensureUniqueSlug slugify title from rfl, h1] at h0
        exact Bool.noConfusion h0
    · rintro ⟨p, hp, hps⟩
      cases k with
      | zero =>
        have := (slugTaken_eq_false_iff posts _).1 hfree p hp
        exact absurd hps this
      | succ k =>
        refine ⟨k + 1, by omega, by rw [hout]; rfl, ?_, ?_⟩
        · exact (slugTaken_eq_false_iff posts _).1 hfree
        · intro j hj1 hj2
          have ht := hmin j (Nat.zero_le _) hj2
          obtain ⟨m, rfl⟩ : ∃ m, j = m + 1 := ⟨j - 1, by omega⟩
          simp only [slugTaken, List.any_eq_true, decide_eq_true_eq] at ht
          exact ht
    · intro out2 hout2
      cases hout2
      rw [hout]
      exact (slugTaken_eq_false_iff posts _).1 hfree


/-! ## The published list -/

theorem listBefore_total (a b : Post) : listBefore a b = true ∨ listBefore b a = true := by
  cases ha : a.published_at <;> cases hb : b.published_at <;>
    simp [listBefore, ha, hb] <;> omega

theorem listBefore_trans {a b c : Post} (h1 : listBefore a b = true)
    (h2 : listBefore b c = true) : listBefore a c = true := by
  cases ha : a.published_at <;> cases hb : b.published_at <;> cases hc : c.published_at <;>
    simp [listBefore, ha, hb, hc] at h1 h2 ⊢ <;> omega

theorem listBefore_publishedAt {a b : Post} (h : listBefore a b = true) :
    (a.published_at = none → b.published_at = none) ∧
    ∀ x y, a.published_at = some x → b.published_at = some y → y ≤ x := by
  cases ha : a.published_at <;> cases hb : b.published_at <;>
    simp [listBefore, ha, hb] at h ⊢
  omega

theorem publishedOrdered_perm (posts : List Post) :
    (publishedOrdered posts).Perm (posts.filter (fun p => decide (p.status = .published))) :=
  List.perm_insertionSort _ _

theorem publishedOrdered_sorted (posts : List Post) :
    (publishedOrdered posts).Pairwise (fun a b => listBefore a b = true) := by
  haveI : IsTotal Post (fun a b => listBefore a b = true) := ⟨listBefore_total⟩
  haveI : IsTrans Post (fun a b => listBefore a b = true) := ⟨fun _ _ _ => listBefore_trans⟩
  exact List.sorted_insertionSort _ _

theorem totalPages_least (total limit : Nat) (h : 1 ≤ limit) :
    total ≤ totalPages total limit * limit ∧
    ∀ n, total ≤ n * limit → totalPages total limit ≤ n := by
  unfold totalPages
  constructor
  · have h1 := Nat.div_add_mod (total + limit - 1) limit
    have h2 := Nat.mod_lt (total + limit - 1) h
    rw [Nat.mul_comm] at h1
    omega
  · intro n hn
    apply Nat.le_of_lt_succ
    rw [Nat.div_lt_iff_lt_mul h, Nat.succ_mul]
    omega

/-! ### JS numbers -/

theorem two_pow_53 : (2 : Nat) ^ 53 = 9007199254740992 := by norm_num

theorem two_pow_52 : (2 : Nat) ^ 52 = 4503599627370496 := by norm_num

theorem excessBits_of_lt (fuel n : Nat) (h : n < 2 ^ 53) : excessBits fuel n = 0 := by
  cases fuel with
  | zero => rfl
  | succ fuel => rw [excessBits, if_pos h]

theorem doubleOverflow_gt : 2 ^ 65 < doubleOverflow := by
  unfold doubleOverflow
  have h : (1 : Nat) ≤ 2 ^ 256 := Nat.one_le_two_pow
  have h2 : (2 : Nat) ^ 65 < 2 ^ 256 := Nat.pow_lt_pow_right (by norm_num) (by norm_num)
  calc 2 ^ 65 < 2 ^ 256 := h2
    _ = 2 ^ 256 * 1 * 1 * 1 := by ring
    _ ≤ 2 ^ 256 * 2 ^ 256 * 2 ^ 256 * 2 ^ 256 := by gcongr

theorem toDouble_of_lt {n : Nat} (h : n < 2 ^ 53) : toDouble n = some n := by
  have h2 : n < doubleOverflow := by
    have := doubleOverflow_gt
    have h3 : (2 : Nat) ^ 53 < 2 ^ 65 := Nat.pow_lt_pow_right (by norm_num) (by norm_num)
    omega
  simp [toDouble, excessBits_of_lt n n h, roundedSignificand, Nat.mod_one, h2]

/-- Every integer up to 2^53 is a JS number. -/
theorem toDouble_of_le {n : Nat} (h : n ≤ 2 ^ 53) : toDouble n = some n := by
  rcases Nat.lt_or_eq_of_le h with h1 | h1
  · exact toDouble_of_lt h1
  · subst h1; decide

theorem excessBits_spec : ∀ (fuel n : Nat), n ≤ fuel → 2 ^ 53 ≤ n →
    2 ≤ 2 ^ excessBits fuel n ∧ 2 ^ 52 * 2 ^ excessBits fuel n ≤ n ∧
      n < 2 ^ 53 * 2 ^ excessBits fuel n := by
  intro fuel
  induction fuel with
  | zero => intro n h1 h2; rw [two_pow_53] at h2; omega
  | succ fuel ih =>
    intro n h1 h2
    have hn : ¬ n < 2 ^ 53 := by omega
    rw [excessBits, if_neg hn]
    by_cases h3 : n / 2 < 2 ^ 53
    · rw [excessBits_of_lt fuel (n / 2) h3]
      rw [two_pow_53] at h2 h3
      rw [two_pow_53, two_pow_52]
      norm_num
      omega
    · obtain ⟨a, b, c⟩ := ih (n / 2) (by rw [two_pow_53] at h2; omega) (by omega)
      rw [pow_succ]
      generalize 2 ^ excessBits fuel (n / 2) = X at a b c ⊢
      rw [two_pow_53] at *
      rw [two_pow_52] at *
      omega

/-- Above 2^53 rounding keeps a number above 2^53 and at most doubles it. -/
theorem toDouble_of_ge {n : Nat} (h : 2 ^ 53 ≤ n) (hb : n < 2 ^ 64) :
    ∃ m, toDouble n = some m ∧ 2 ^ 53 ≤ m ∧ m ≤ 2 * n := by
  obtain ⟨a, b, c⟩ := excessBits_spec n n (le_refl n) h
  have hv : ∀ v, v = roundedSignificand n (excessBits n n) * 2 ^ excessBits n n →
      2 ^ 53 ≤ v ∧ v ≤ 2 * n := by
    intro v hv
    unfold roundedSignificand at hv
    generalize 2 ^ excessBits n n = X at a b c hv
    have hX : 0 < X := by omega
    have h1 : n / X * X ≤ n := Nat.div_mul_le_self n X
    have h2 : 2 ^ 52 ≤ n / X := (Nat.le_div_iff_mul_le hX).2 b
    have h3 : 2 ^ 52 * X ≤ n / X * X := Nat.mul_le_mul_right X h2
    have h4 : (n / X + 1) * X = n / X * X + X := by ring
    rw [two_pow_53] at *
    rw [two_pow_52] at *
    split at hv
    · rw [h4] at hv; omega
    · omega
  obtain ⟨h5, h6⟩ := hv _ rfl
  refine ⟨_, ?_, h5, h6⟩
  unfold toDouble
  rw [if_pos]
  have := doubleOverflow_gt
  have h7 : (2 : Nat) ^ 65 = 2 * 2 ^ 64 := by norm_num
  omega

/-- For a page up to 2^53 and a limit up to 100 the offset the store receives is a
number it accepts, and it drops the same rows of a table of fewer than 2^31 rows as the
exact product `(page - 1) * limit` does. -/
theorem listOffset_exact {α : Type} (page limit : Nat) (rows : List α) (hp : page ≤ 2 ^ 53)
    (hl : limit ≤ 100) (hrows : rows.length ≤ int4Max) :
    ∃ offset, listOffset page limit = some offset ∧ offset ≤ int8Max ∧
      List.drop offset rows = List.drop ((page - 1) * limit) rows := by
  have h1 : toDouble (page - 1) = some (page - 1) := toDouble_of_le (by omega)
  have hprod : (page - 1) * limit ≤ 2 ^ 53 * 100 :=
    Nat.mul_le_mul (by omega) hl
  unfold listOffset
  rw [h1, Option.some_bind]
  by_cases hx : (page - 1) * limit < 2 ^ 53
  · refine ⟨_, toDouble_of_lt hx, ?_, rfl⟩
    rw [two_pow_53] at hx
    unfold int8Max
    omega
  · have hb : (page - 1) * limit < 2 ^ 64 := by
      have : (2 : Nat) ^ 53 * 100 < 2 ^ 64 := by norm_num
      omega
    obtain ⟨m, hm, hge, hle⟩ := toDouble_of_ge (not_lt.1 hx) hb
    refine ⟨m, hm, ?_, ?_⟩
    · have : (2 : Nat) ^ 53 * 100 = 900719925474099200 := by norm_num
      unfold int8Max
      omega
    · have hx2 := not_lt.1 hx
      rw [two_pow_53] at hge hx2
      unfold int4Max at hrows
      rw [List.drop_eq_nil_of_le (by omega), List.drop_eq_nil_of_le (by omega)]

/-- C23, as stated, fails for large pages. The page 2^53 + 1 is no JS number: `toInt()`
makes it 2^53, which is the page the answer echoes. The page 5 * 10^17 with limit 20
gives the offset 10^19, above the 64-bit range of the store: the query throws and the
answer is 500. Both on a cache miss, here on `threePublishedStore`. -/
theorem listPublished_large_page_fails :
    (¬ ∀ (now : Int) (up : Bool) (page limit : Nat) (s : State),
        1 ≤ page → 1 ≤ limit → limit ≤ 100 →
        getCachedPublishedList up now page limit s.cache = none →
        ∃ payload, (listPublished now up (some page) (some limit) s).1 =
            ⟨200, .list payload⟩ ∧
          payload.pagination.page = page) ∧
    (listPublished 100 true (some 9007199254740993) (some 20) threePublishedStore).1 =
      ⟨200, .list
        { posts := []
          pagination := { page := 9007199254740992, limit := 20, total := 3,
                          totalPages := 1 } }⟩ ∧
    listPublished 100 true (some 500000000000000000) (some 20) threePublishedStore =
      (internalError, threePublishedStore) := by
  refine ⟨?_, by decide, by decide⟩
  intro h
  obtain ⟨payload, h1, _⟩ := h 100 true 500000000000000000 20 threePublishedStore
    (by decide) (by decide) (by decide) (by decide)
  have h2 : (listPublished 100 true (some 500000000000000000) (some 20)
      threePublishedStore).1.status = 500 := by decide
  rw [h1] at h2
  simp at h2

/-- C23, amended. For a page that is absent or between 1 and 2^53, a limit that is absent
or between 1 and 100 and a table with fewer than 2^31 published rows, on a cache miss
`listPublished` answers 200 with a payload whose pagination echoes the page (1 when
absent) and the limit (20 when absent), has `total` the number of published rows and
`totalPages` the least `n` with `total ≤ n * limit`, and whose posts are the rows at
positions `(page - 1) * limit` to `page * limit - 1` of the published rows in the order
of the query, `published_at` descending: at most `limit` posts, all of them published
rows of the table. -/
theorem listPublished_on_miss (now : Int) (up : Bool) (page limit : Option Nat) (s : State)
    (hp : ∀ p, page = some p → 1 ≤ p ∧ p ≤ 2 ^ 53)
    (hl : ∀ l, limit = some l → 1 ≤ l ∧ l ≤ 100)
    (hcount : (s.posts.filter (fun p => decide (p.status = .published))).length < 2 ^ 31)
    (hmiss : getCachedPublishedList up now (page.getD 1) (limit.getD 20) s.cache = none) :
    ∃ payload, (listPublished now up page limit s).1 = ⟨200, .list payload⟩ ∧
      payload.pagination.page = page.getD 1 ∧ payload.pagination.limit = limit.getD 20 ∧
      payload.pagination.total =
        (s.posts.filter (fun p => decide (p.status = .published))).length ∧
      payload.pagination.total ≤ payload.pagination.totalPages * limit.getD 20 ∧
      (∀ n, payload.pagination.total ≤ n * limit.getD 20 → payload.pagination.totalPages ≤ n) ∧
      payload.posts =
        List.take (limit.getD 20)
          (List.drop ((page.getD 1 - 1) * limit.getD 20) (publishedOrdered s.posts)) ∧
      (∀ i, i < limit.getD 20 →
        payload.posts[i]? = (publishedOrdered s.posts)[(page.getD 1 - 1) * limit.getD 20 + i]?) ∧
      payload.posts.length ≤ limit.getD 20 ∧
      (∀ q ∈ payload.posts, q ∈ s.posts ∧ q.status = .published) ∧
      (publishedOrdered s.posts).Perm
        (s.posts.filter (fun p => decide (p.status = .published))) ∧
      (publishedOrdered s.posts).Pairwise (fun a b =>
        (a.published_at = none → b.published_at = none) ∧
        ∀ x y, a.published_at = some x → b.published_at = some y → y ≤ x) := by
  have hpage : 1 ≤ page.getD 1 ∧ page.getD 1 ≤ 2 ^ 53 := by
    cases page with
    | none => exact ⟨le_refl 1, Nat.one_le_two_pow⟩
    | some p => exact hp p rfl
  have hpg : max 1 (page.getD 1) = page.getD 1 := by
    have := hpage.1
    simp [this]
  have hlim : min maxLimit (limit.getD defaultLimit) = limit.getD 20 ∧ 1 ≤ limit.getD 20 ∧
      limit.getD 20 ≤ 100 := by
    cases limit with
    | none => exact ⟨by decide, by decide, by decide⟩
    | some l =>
      have := hl l rfl
      simp only [Option.getD_some, maxLimit]
      omega
  have hvalid : (page.any (fun p => decide (p < 1)) ||
      limit.any (fun l => decide (l < 1) || decide (maxLimit < l))) = false := by
    cases page with
    | none =>
      cases limit with
      | none => rfl
      | some l => have := hl l rfl; simp [maxLimit]; omega
    | some p =>
      have h1 := (hp p rfl).1
      cases limit with
      | none => simp; omega
      | some l => have := hl l rfl; simp [maxLimit]; omega
  have hlen : (publishedOrdered s.posts).length ≤ int4Max := by
    rw [(publishedOrdered_perm s.posts).length_eq]
    have : (2 : Nat) ^ 31 = 2147483648 := by norm_num
    unfold int4Max
    omega
  obtain ⟨offset, hoff, hoff8, hdrop⟩ :=
    listOffset_exact (page.getD 1) (limit.getD 20) (publishedOrdered s.posts) hpage.2 hlim.2.2
      hlen
  have hfit : ¬ (int8Max < offset ∨
      int4Max < (s.posts.filter (fun p => decide (p.status = .published))).length) := by
    have : (2 : Nat) ^ 31 = 2147483648 := by norm_num
    unfold int4Max
    omega
  have hrun : (listPublished now up page limit s).1 =
      ⟨200, .list (listPayload s.posts (page.getD 1) (limit.getD 20) offset)⟩ := by
    simp only [listPublished, hvalid, toDouble_of_le hpage.2, hpg, hlim.1, hmiss, hoff, hfit]
    rfl
  obtain ⟨ht1, ht2⟩ := totalPages_least
    (s.posts.filter (fun p : Post => decide (p.status = .published))).length (limit.getD 20)
    hlim.2.1
  have hposts : (listPayload s.posts (page.getD 1) (limit.getD 20) offset).posts =
      List.take (limit.getD 20)
        (List.drop ((page.getD 1 - 1) * limit.getD 20) (publishedOrdered s.posts)) := by
    simp only [listPayload, hdrop]
  refine ⟨_, hrun, rfl, rfl, rfl, ht1, ht2, hposts, ?_, ?_, ?_, publishedOrdered_perm _, ?_⟩
  · intro i hi
    rw [hposts, List.getElem?_take_of_lt hi, List.getElem?_drop]
  · rw [hposts, List.length_take]
    exact Nat.min_le_left _ _
  · intro q hq
    rw [hposts] at hq
    have h1 : q ∈ publishedOrdered s.posts :=
      List.mem_of_mem_drop (List.mem_of_mem_take hq)
    have h2 := (publishedOrdered_perm s.posts).subset h1
    have h3 := List.mem_filter.1 h2
    exact ⟨h3.1, by simpa using h3.2⟩
  · exact (publishedOrdered_sorted s.posts).imp (fun h => listBefore_publishedAt h)


/-- A page of two at offset two of `threePublishedStore`: the post published first. -/
theorem listPublished_on_miss_witness :
    (∀ p, (some 2 : Option Nat) = some p → 1 ≤ p ∧ p ≤ 2 ^ 53) ∧
    (∀ l, (some 2 : Option Nat) = some l → 1 ≤ l ∧ l ≤ 100) ∧
    (threePublishedStore.posts.filter (fun p => decide (p.status = .published))).length
      < 2 ^ 31 ∧
    (listPublished 100 true (some 2) (some 2) threePublishedStore).1 =
      ⟨200, .list
        { posts :=
            [ { id := 1, title := "One", slug := "one", content := "", status := .published,
                author_id := 1, scheduled_for := none, published_at := some 50,
                created_at := 10, updated_at := 50 } ]
          pagination := { page := 2, limit := 2, total := 3, totalPages := 2 } }⟩ ∧
    ∃ payload,
      (listPublished 100 true (some 2) (some 2) threePublishedStore).1 =
        ⟨200, .list payload⟩ ∧
      payload.pagination.page = 2 ∧ payload.pagination.limit = 2 ∧
      payload.pagination.total =
        (threePublishedStore.posts.filter (fun p => decide (p.status = .published))).length ∧
      payload.posts.length ≤ 2 :=
  ⟨fun p h => by cases h; decide, fun l h => by cases h; decide, by decide, by decide,
   (listPublished_on_miss 100 true (some 2) (some 2) threePublishedStore
      (fun p h => by cases h; decide) (fun l h => by cases h; decide) (by decide)
      (by decide)).imp
    (fun _ h => ⟨h.1, h.2.1, h.2.2.1, h.2.2.2.1, h.2.2.2.2.2.2.2.2.1⟩)⟩

/-! ## Cache operations are advisory -/

theorem invalidate_down (id : String) (c : Cache) :
    invalidatePublishedList false (invalidatePublishedPost false id c) = c := rfl

theorem updateItem_cache_irrelevant (slugify : String → String) (sch : Schema) (now : Int)
    (up up2 : Bool) (cred : Credential) (seg : String) (postId : Nat)
    (title content : Option String) (s : State) (c : Cache) :
    (updateItem slugify sch now up cred seg postId title content s).1 =
      (updateItem slugify sch now up2 cred seg postId title content { s with cache := c }).1 ∧
    (updateItem slugify sch now up cred seg postId title content s).2.store =
      (updateItem slugify sch now up2 cred seg postId title content { s with cache := c }).2.store := by
  cases ha : authRequired cred with
  | error r => simp [updateItem, ha, State.store]
  | ok uid =>
    cases hfind : findPost s.posts postId with
    | none => simp [updateItem, ha, authorOwnsPost, hfind, State.store]
    | some p =>
      by_cases hown : p.author_id = uid
      · by_cases hv : (title.map trim).any titleInvalid = true
        · simp [updateItem, ha, authorOwnsPost, hfind, hown, hv, State.store]
        · by_cases hn : (title.isNone && content.isNone) = true
          · simp [updateItem, ha, authorOwnsPost, hfind, hown, hv, hn, State.store]
          · by_cases hu : (sch.slugUnique && (title.map (fun _ => editSlug slugify now s.posts
                postId ((title.map trim).getD p.title))).any
                  (fun slug => slugTakenByOther s.posts slug postId)) = true
            · simp only [updateItem, ha, authorOwnsPost, hfind, hown, hv, hn, hu]
              simp [State.store]
            · simp only [updateItem, ha, authorOwnsPost, hfind, hown, hv, hn, hu]
              simp [State.store]
      · simp [updateItem, ha, authorOwnsPost, hfind, hown, State.store]


theorem deletePost_cache_irrelevant (up up2 : Bool) (cred : Credential) (seg : String)
    (postId : Nat) (s : State) (c : Cache) :
    (deletePost up cred seg postId s).1 = (deletePost up2 cred seg postId { s with cache := c }).1 ∧
    (deletePost up cred seg postId s).2.store =
      (deletePost up2 cred seg postId { s with cache := c }).2.store := by
  cases ha : authRequired cred with
  | error r => simp [deletePost, ha, State.store]
  | ok uid =>
    cases hfind : findPost s.posts postId with
    | none => simp [deletePost, ha, authorOwnsPost, hfind, State.store]
    | some p =>
      by_cases hown : p.author_id = uid
      · simp [deletePost, ha, authorOwnsPost, hfind, hown, State.store]
      · simp [deletePost, ha, authorOwnsPost, hfind, hown, State.store]

theorem publishDraft_cache_irrelevant (now : Int) (up up2 : Bool) (cred : Credential)
    (postId : Nat) (s : State) (c : Cache) :
    (publishDraft now up cred postId s).1 =
      (publishDraft now up2 cred postId { s with cache := c }).1 ∧
    (publishDraft now up cred postId s).2.store =
      (publishDraft now up2 cred postId { s with cache := c }).2.store := by
  cases ha : authRequired cred with
  | error r => simp [publishDraft, ha, State.store]
  | ok uid =>
    cases hfind : findPost s.posts postId with
    | none => simp [publishDraft, ha, authorOwnsPost, hfind, State.store]
    | some p =>
      by_cases hown : p.author_id = uid
      · by_cases hd : p.status = .draft
        · simp [publishDraft, ha, authorOwnsPost, hfind, hown, hd, State.store]
        · simp [publishDraft, ha, authorOwnsPost, hfind, hown, hd, State.store]
      · simp [publishDraft, ha, authorOwnsPost, hfind, hown, State.store]

theorem processRows_cache_irrelevant (fault : Nat → Option TxStep) (now : Int)
    (up up2 : Bool) :
    ∀ (ids : List Nat) (s s2 : State), s.store = s2.store →
      (processRows fault now up ids s).1 = (processRows fault now up2 ids s2).1 ∧
      (processRows fault now up ids s).2.store = (processRows fault now up2 ids s2).2.store := by
  intro ids
  induction ids with
  | nil => intro s s2 h; exact ⟨rfl, h⟩
  | cons id rest ih =>
    intro s s2 h
    have hposts : s.posts = s2.posts := congrArg Prod.fst h
    unfold processRows
    cases hf : fault id with
    | none =>
      simp only [hposts]
      split
      · apply ih
        simp only [State.store, Prod.mk.injEq] at h ⊢
        exact ⟨trivial, h.2⟩
      · exact ih s s2 h
    | some step =>
      cases step with
      | begin => exact ⟨rfl, h⟩
      | update => exact ih s s2 h
      | commit => exact ih s s2 h

theorem processRows_cache_down (fault : Nat → Option TxStep) (now : Int) (ids : List Nat)
    (s : State) : (processRows fault now false ids s).2.cache = s.cache :=
  processRows_induction fault now false (fun t => t.cache = s.cache) (fun _ _ h => h) ids s rfl

theorem withCache_self (s : State) : { s with cache := s.cache } = s := by
  cases s; rfl

/-- Within the ranges the store accepts (a page up to 2^53, fewer than 2^31 published
rows) `listPublished` answers 200, or 400 for invalid parameters, whatever the cache. -/
theorem listPublished_status_in_range (now : Int) (up : Bool) (page limit : Option Nat)
    (s : State) (hp : ∀ p, page = some p → p ≤ 2 ^ 53)
    (hcount : (s.posts.filter (fun p => decide (p.status = .published))).length < 2 ^ 31) :
    (listPublished now up page limit s).1.status ∈ [200, 400] := by
  by_cases hv : (page.any (fun p => decide (p < 1)) ||
      limit.any (fun l => decide (l < 1) || decide (maxLimit < l))) = true
  · unfold listPublished
    rw [if_pos hv]
    simp
  · have hpage : page.getD 1 ≤ 2 ^ 53 := by
      cases page with
      | none => exact Nat.one_le_two_pow
      | some p => exact hp p rfl
    have hpg : max 1 (page.getD 1) ≤ 2 ^ 53 := max_le Nat.one_le_two_pow hpage
    have hlim : min maxLimit (limit.getD defaultLimit) ≤ 100 := Nat.min_le_left _ _
    have hlen : (publishedOrdered s.posts).length ≤ int4Max := by
      rw [(publishedOrdered_perm s.posts).length_eq]
      have : (2 : Nat) ^ 31 = 2147483648 := by norm_num
      unfold int4Max
      omega
    obtain ⟨offset, hoff, hoff8, _⟩ :=
      listOffset_exact (max 1 (page.getD 1)) (min maxLimit (limit.getD defaultLimit))
        (publishedOrdered s.posts) hpg hlim hlen
    have hfit : ¬ (int8Max < offset ∨
        int4Max < (s.posts.filter (fun p => decide (p.status = .published))).length) := by
      have : (2 : Nat) ^ 31 = 2147483648 := by norm_num
      unfold int4Max
      omega
    unfold listPublished
    rw [if_neg hv]
    simp only [toDouble_of_le hpage, hoff]
    cases getCachedPublishedList up now (max 1 (page.getD 1))
        (min maxLimit (limit.getD defaultLimit)) s.cache with
    | some cached => simp
    | none =>
      simp only [if_neg hfit]
      simp

/-- C21. When every cache operation of a request throws (`up = false`), each of
getPublished, listPublished, updateItem, delete, publishDraft and the worker cycle gives
the same response (for the worker: throws or not in the same cases) and leaves the same
tables and id sequences as the same request served with a reachable, empty cache, and it
leaves the cache as it was. getPublished answers 200 or 404. listPublished answers 200,
or 400 for invalid parameters, wherever the store accepts its queries (a page up to 2^53,
fewer than 2^31 published rows); elsewhere it answers what the same request answers with
a reachable, empty cache, the failure being the store's. A cycle without database fault
returns normally. -/
theorem cache_operations_advisory (slugify : String → String) (sch : Schema) (s : State) :
    (∀ now seg id,
      (getPublished now false seg id s).1 =
        (getPublished now true seg id { s with cache := emptyCache }).1 ∧
      (getPublished now false seg id s).2 = s ∧
      (getPublished now true seg id { s with cache := emptyCache }).2.store = s.store ∧
      (getPublished now false seg id s).1.status ∈ [200, 404]) ∧
    (∀ now page limit,
      (listPublished now false page limit s).1 =
        (listPublished now true page limit { s with cache := emptyCache }).1 ∧
      (listPublished now false page limit s).2 = s ∧
      (listPublished now true page limit { s with cache := emptyCache }).2.store = s.store ∧
      ((listPublished now false page limit s).1.status ∈ [200, 400] ∨
        (listPublished now true page limit { s with cache := emptyCache }).1 =
          internalError) ∧
      ((∀ p, page = some p → p ≤ 2 ^ 53) →
        (s.posts.filter (fun p => decide (p.status = .published))).length < 2 ^ 31 →
        (listPublished now false page limit s).1.status ∈ [200, 400])) ∧
    (∀ now cred seg postId title content,
      (updateItem slugify sch now false cred seg postId title content s).1 =
        (updateItem slugify sch now true cred seg postId title content
          { s with cache := emptyCache }).1 ∧
      (updateItem slugify sch now false cred seg postId title content s).2.store =
        (updateItem slugify sch now true cred seg postId title content
          { s with cache := emptyCache }).2.store ∧
      (updateItem slugify sch now false cred seg postId title content s).2.cache = s.cache) ∧
    (∀ cred seg postId,
      (deletePost false cred seg postId s).1 =
        (deletePost true cred seg postId { s with cache := emptyCache }).1 ∧
      (deletePost false cred seg postId s).2.store =
        (deletePost true cred seg postId { s with cache := emptyCache }).2.store ∧
      (deletePost false cred seg postId s).2.cache = s.cache) ∧
    (∀ now cred postId,
      (publishDraft now false cred postId s).1 =
        (publishDraft now true cred postId { s with cache := emptyCache }).1 ∧
      (publishDraft now false cred postId s).2.store =
        (publishDraft now true cred postId { s with cache := emptyCache }).2.store ∧
      (publishDraft now false cred postId s).2.cache = s.cache) ∧
    (∀ fault now,
      (processScheduledPublish fault now false s).1 =
        (processScheduledPublish fault now true { s with cache := emptyCache }).1 ∧
      (processScheduledPublish fault now false s).2.store =
        (processScheduledPublish fault now true { s with cache := emptyCache }).2.store ∧
      (processScheduledPublish fault now false s).2.cache = s.cache) ∧
    (∀ now, (processScheduledPublish noFault now false s).1 = false) := by
  refine ⟨?_, ?_, ?_, ?_, ?_, ?_, ?_⟩
  · intro now seg id
    have h1 : getCachedPublishedPost false now seg s.cache = none := rfl
    have h2 : getCachedPublishedPost true now seg emptyCache = none := rfl
    simp only [getPublished, h1, h2]
    cases hf : s.posts.find? (fun p => decide (p.id = id) && decide (p.status = .published)) with
    | none => refine ⟨?_, ?_, ?_, ?_⟩ <;> first | rfl | trivial | simp
    | some q =>
      refine ⟨?_, ?_, ?_, ?_⟩
      · rfl
      · exact withCache_self s
      · rfl
      · simp
  · intro now page limit
    have heq : (listPublished now false page limit s).1 =
          (listPublished now true page limit { s with cache := emptyCache }).1 ∧
        (listPublished now false page limit s).2 = s ∧
        (listPublished now true page limit { s with cache := emptyCache }).2.store = s.store ∧
        ((listPublished now false page limit s).1.status ∈ [200, 400] ∨
          (listPublished now true page limit { s with cache := emptyCache }).1 =
            internalError) := by
      have h1 : ∀ pg lim, getCachedPublishedList false now pg lim s.cache = none :=
        fun _ _ => rfl
      have h2 : ∀ pg lim, getCachedPublishedList true now pg lim emptyCache = none :=
        fun _ _ => rfl
      simp only [listPublished, h1, h2]
      split
      · refine ⟨rfl, rfl, rfl, Or.inl (by simp)⟩
      · split
        · exact ⟨rfl, rfl, rfl, Or.inr rfl⟩
        · split
          · exact ⟨rfl, rfl, rfl, Or.inr rfl⟩
          · split
            · exact ⟨rfl, rfl, rfl, Or.inr rfl⟩
            · exact ⟨rfl, withCache_self s, rfl, Or.inl (by simp)⟩
    exact ⟨heq.1, heq.2.1, heq.2.2.1, heq.2.2.2,
      fun hp hcount => listPublished_status_in_range now false page limit s hp hcount⟩
  · intro now cred seg postId title content
    obtain ⟨h1, h2⟩ := updateItem_cache_irrelevant slugify sch now false true cred seg postId
      title content s emptyCache
    refine ⟨h1, h2, ?_⟩
    rcases updateItem_cases slugify sch now false cred seg postId title content s with
      ⟨h, _⟩ | ⟨_, _, _, _, _, _, heq⟩
    · rw [h]
    · rw [heq]
      simp only [editedState, invalidate_down]
      split <;> rfl
  · intro cred seg postId
    obtain ⟨h1, h2⟩ := deletePost_cache_irrelevant false true cred seg postId s emptyCache
    refine ⟨h1, h2, ?_⟩
    rcases deletePost_cases false cred seg postId s with ⟨h, _⟩ | ⟨_, _, _, _, _, heq⟩
    · rw [h]
    · rw [heq]
      simp only [invalidate_down]
      split <;> rfl
  · intro now cred postId
    obtain ⟨h1, h2⟩ := publishDraft_cache_irrelevant now false true cred postId s emptyCache
    refine ⟨h1, h2, ?_⟩
    rcases publishDraft_cases now false cred postId s with ⟨h, _⟩ | ⟨_, _, _, _, _, _, heq⟩
    · rw [h]
    · rw [heq]
      rfl
  · intro fault now
    obtain ⟨h1, h2⟩ := processRows_cache_irrelevant fault now false true
      (selectDue now s.posts) s { s with cache := emptyCache } rfl
    exact ⟨h1, h2, processRows_cache_down fault now _ s⟩
  · intro now
    exact (processScheduledPublish_noFault now false s).1


/-! ## The public read under another spelling of the id -/

theorem reachable_aliasDemo : Reachable slugifyAscii ⟨true⟩ aliasDemo :=
  Reachable.delete true (.token 1 "author") "1" 1
    (Reachable.read 60 true "01" 1
      (Reachable.publish 50 true (.token 1 "author") 1
        (Reachable.create 10 (.token 1 "author") "Hello" none Reachable.empty
          (show createDraft slugifyAscii ⟨true⟩ 10 (.token 1 "author") "Hello" none
                State.empty =
              some (⟨201, .row (newDraft 1 "Hello" "hello" "" 1 10)⟩,
                { posts := [newDraft 1 "Hello" "hello" "" 1 10], revisions := [],
                  nextPostId := 2, nextRevisionId := 1,
                  cache := { posts := [], lists := [] } })
            by decide))))

/-- C22 at its failing input. From the empty store, with Redis reachable at every
request: author 1 creates "Hello" and publishes it (post 1); `GET /posts/published/01`
answers 200 and stores the row under the key built from the text `01`; the owner's
`DELETE /posts/1` answers 204, removes the row and deletes the key built from the text
`1`. In the state reached no post is left, and `GET /posts/published/01` still answers
200 with the deleted row, from the entry the delete did not reach, while the same read
spelled `1` answers 404. Had the first read been spelled `1` as well, the delete would
have removed its entry and the read after it would answer 404. -/
theorem getPublished_alias_serves_deleted :
    Reachable slugifyAscii ⟨true⟩ aliasDemo ∧
    (getPublished 60 true "01" 1 publishedDemo).1 =
      ⟨200, .row { id := 1, title := "Hello", slug := "hello", content := "",
                   status := .published, author_id := 1, scheduled_for := none,
                   published_at := some 50, created_at := 10, updated_at := 50 }⟩ ∧
    (deletePost true (.token 1 "author") "1" 1
      (getPublished 60 true "01" 1 publishedDemo).2).1 = ⟨204, .empty⟩ ∧
    aliasDemo.posts = [] ∧
    (getPublished 70 true "01" 1 aliasDemo).1 =
      ⟨200, .row { id := 1, title := "Hello", slug := "hello", content := "",
                   status := .published, author_id := 1, scheduled_for := none,
                   published_at := some 50, created_at := 10, updated_at := 50 }⟩ ∧
    getPublished 70 true "1" 1 aliasDemo = (⟨404, .error "Post not found"⟩, aliasDemo) ∧
    (getPublished 70 true "1" 1
      (deletePost true (.token 1 "author") "1" 1
        (getPublished 60 true "1" 1 publishedDemo).2).2).1 =
      ⟨404, .error "Post not found"⟩ :=
  ⟨reachable_aliasDemo, by decide, by decide, by decide, by decide, by decide, by decide⟩

end CMS
